import Mathlib

/-!
# A shallow embedding of the `justjshtml` HTML5 parser core

This development embeds, in Lean 4, the parts of the `justjshtml` source
that the specification's claims are about:

* the tree model (`src/node.js`): nodes held in an arena (a list of node
  records addressed by index, mirroring JS object identity), with the four
  mutation operations `appendChild`, `removeChild`, `insertBefore`,
  `replaceChild`;
* the tree builder's insertion machinery (`src/treebuilder.js`):
  `_append_text`, `_appropriate_insertion_location`, `_insert_element`,
  the adoption agency algorithm, and the fragment-mode constructor;
* the tokenizer's attribute finalization (`src/tokenizer.js`);
* entity decoding (`src/entities.js`, shipped in the repo inside
  `parser.js`'s companion module);
* encoding sniffing (`src/encoding.js`);
* the public facade (`src/index.js`).

JS arrays become `List`, JS objects used as string maps become insertion
ordered association lists, node references become arena indices, and
methods that can `throw` return `Option`/`Except`.
-/

namespace JustJS

/-- A single node record of the tree arena.  Mirrors the fields set up by the
`Node` constructor in `src/node.js`: `name`, `namespace`, `data`, `attrs`
(insertion-ordered), `parent` back-reference, ordered `children`, and the
optional `templateContent` fragment. -/
structure NodeRec where
  name : String
  ns : Option String
  dat : Option String
  attrs : List (String × String)
  parent : Option Nat
  children : List Nat
  tmplContent : Option Nat
deriving Repr, DecidableEq, Inhabited

/-- The arena: node `i` of the tree is `a[i]`.  JS object identity becomes
index identity; allocating a node appends a record. -/
abbrev Arena := List NodeRec

/-- `node.name`, with a default for dangling indices. -/
def nodeName (a : Arena) (i : Nat) : String :=
  (a[i]?.map NodeRec.name).getD ""

/-- `node.namespace`. -/
def nodeNs (a : Arena) (i : Nat) : Option String :=
  match a[i]? with
  | some r => r.ns
  | none => none

/-- `node.parent`. -/
def nodeParent (a : Arena) (i : Nat) : Option Nat :=
  match a[i]? with
  | some r => r.parent
  | none => none

/-- `node.children`. -/
def nodeChildren (a : Arena) (i : Nat) : List Nat :=
  (a[i]?.map NodeRec.children).getD []

/-- `node.data`. -/
def nodeData (a : Arena) (i : Nat) : Option String :=
  match a[i]? with
  | some r => r.dat
  | none => none

/-- `node.attrs`. -/
def nodeAttrs (a : Arena) (i : Nat) : List (String × String) :=
  (a[i]?.map NodeRec.attrs).getD []

/-- `node.templateContent`. -/
def nodeTmpl (a : Arena) (i : Nat) : Option Nat :=
  match a[i]? with
  | some r => r.tmplContent
  | none => none

/-- In-place update of one node record (JS field mutation on the object). -/
def modifyNode (a : Arena) (i : Nat) (f : NodeRec → NodeRec) : Arena :=
  match a[i]? with
  | some r => a.set i (f r)
  | none => a

/-- Update only the `children` field of node `i`. -/
def setChildrenF (a : Arena) (i : Nat) (f : List Nat → List Nat) : Arena :=
  modifyNode a i (fun r => { r with children := f r.children })

/-- Update only the `parent` field of node `i`. -/
def setParent (a : Arena) (i : Nat) (x : Option Nat) : Arena :=
  modifyNode a i (fun r => { r with parent := x })

/-- Update only the `data` field of node `i`. -/
def setDataF (a : Arena) (i : Nat) (f : Option String → Option String) : Arena :=
  modifyNode a i (fun r => { r with dat := f r.dat })

/-- `Node.appendChild(node)` from `src/node.js`:
`this.children.push(node); node.parent = this;`. -/
def appendChild (a : Arena) (p c : Nat) : Arena :=
  setParent (setChildrenF a p (fun l => l ++ [c])) c (some p)

/-- `Node.removeChild(node)`: look up the index of `node` in `children`,
throw (here: `none`) when absent, otherwise splice it out and null the
parent back-reference. -/
def removeChild (a : Arena) (p c : Nat) : Option Arena :=
  if c ∈ nodeChildren a p then
    let idx := (nodeChildren a p).indexOf c
    some (setParent (setChildrenF a p (fun l => l.eraseIdx idx)) c none)
  else none

/-- `Node.insertBefore(node, referenceNode)`: a null reference appends;
otherwise splice `node` in at the reference's index (throw when the
reference is not a child). -/
def insertBefore (a : Arena) (p c : Nat) (ref : Option Nat) : Option Arena :=
  match ref with
  | none => some (appendChild a p c)
  | some r =>
    if r ∈ nodeChildren a p then
      let idx := (nodeChildren a p).indexOf r
      some (setParent (setChildrenF a p (fun l => l.take idx ++ c :: l.drop idx)) c (some p))
    else none

/-- `Node.replaceChild(newNode, oldNode)`: overwrite the slot of `oldNode`,
null its parent, point `newNode` at `this` (throw when `oldNode` is not a
child). -/
def replaceChild (a : Arena) (p newN oldN : Nat) : Option Arena :=
  if oldN ∈ nodeChildren a p then
    let idx := (nodeChildren a p).indexOf oldN
    some (setParent (setParent (setChildrenF a p (fun l => l.set idx newN)) oldN none) newN (some p))
  else none

/-- The tree builder's reparenting pattern (`src/treebuilder.js`, adoption
agency lines 1773-1774 and 1780/1788): detach a node from its current
parent when it has one, then append it to the destination. -/
def moveToEnd (a : Arena) (c dest : Nat) : Arena :=
  let a1 :=
    match nodeParent a c with
    | some q => (removeChild a q c).getD a
    | none => a
  appendChild a1 dest c

/-! ## The parent/child back-link invariant -/

/-- Every entry of every `children` list points back to that parent. -/
def ParentOk (a : Arena) : Prop :=
  ∀ p < a.length, ∀ n ∈ nodeChildren a p, nodeParent a n = some p

/-- Every node with a parent occurs exactly once in that parent's children. -/
def OnceOk (a : Arena) : Prop :=
  ∀ n < a.length, ∀ p ∈ (nodeParent a n).toList, (nodeChildren a p).count n = 1

/-- The parent↔child consistency invariant of §3 of the spec. -/
def Wf (a : Arena) : Prop := ParentOk a ∧ OnceOk a

instance (a : Arena) : Decidable (ParentOk a) := by
  unfold ParentOk; infer_instance

instance (a : Arena) : Decidable (OnceOk a) := by
  unfold OnceOk; infer_instance

instance (a : Arena) : Decidable (Wf a) := by
  unfold Wf; infer_instance

/-! Basic facts about the projections and updates. -/

theorem nodeChildren_out (a : Arena) {p : Nat} (h : a.length ≤ p) :
    nodeChildren a p = [] := by
  simp [nodeChildren, List.getElem?_eq_none h]

theorem nodeParent_out (a : Arena) {n : Nat} (h : a.length ≤ n) :
    nodeParent a n = none := by
  simp [nodeParent, List.getElem?_eq_none h]

theorem parentOk_mem {a : Arena} (hw : ParentOk a) {p n : Nat}
    (hn : n ∈ nodeChildren a p) : nodeParent a n = some p := by
  by_cases hp : p < a.length
  · exact hw p hp n hn
  · rw [nodeChildren_out a (Nat.le_of_not_lt hp)] at hn
    cases hn

theorem onceOk_count {a : Arena} (hw : OnceOk a) {n p : Nat}
    (hp : nodeParent a n = some p) : (nodeChildren a p).count n = 1 := by
  by_cases hn : n < a.length
  · exact hw n hn p (by simp [hp])
  · rw [nodeParent_out a (Nat.le_of_not_lt hn)] at hp
    cases hp

theorem modifyNode_length (a : Arena) (i : Nat) (f : NodeRec → NodeRec) :
    (modifyNode a i f).length = a.length := by
  unfold modifyNode
  cases h : a[i]? with
  | none => rfl
  | some r => simp

theorem modifyNode_get_self {a : Arena} {i : Nat} {r : NodeRec}
    (h : a[i]? = some r) (f : NodeRec → NodeRec) :
    (modifyNode a i f)[i]? = some (f r) := by
  unfold modifyNode
  rw [h]
  have hi : i < a.length := by
    by_contra hc
    rw [List.getElem?_eq_none (Nat.le_of_not_lt hc)] at h
    cases h
  simp [List.getElem?_set_self, hi]

theorem modifyNode_get_other {a : Arena} {i j : Nat} (hij : j ≠ i)
    (f : NodeRec → NodeRec) : (modifyNode a i f)[j]? = a[j]? := by
  unfold modifyNode
  cases h : a[i]? with
  | none => rfl
  | some r => rw [List.getElem?_set_ne (fun he => hij he.symm)]

theorem modifyNode_get (a : Arena) (i : Nat) (f : NodeRec → NodeRec) (j : Nat) :
    (modifyNode a i f)[j]? = if j = i then Option.map f a[i]? else a[j]? := by
  by_cases hij : j = i
  · subst hij
    cases h : a[j]? with
    | none => simp [modifyNode, h]
    | some r => simp [modifyNode_get_self h, h]
  · simp [modifyNode_get_other hij, hij]

theorem nodeChildren_setParent (a : Arena) (i : Nat) (x : Option Nat) (j : Nat) :
    nodeChildren (setParent a i x) j = nodeChildren a j := by
  unfold nodeChildren setParent
  rw [modifyNode_get]
  by_cases hij : j = i
  · subst hij; simp only [if_pos rfl]; cases a[j]? <;> rfl
  · simp [hij]

theorem nodeChildren_setDataF (a : Arena) (i : Nat) (f : Option String → Option String) (j : Nat) :
    nodeChildren (setDataF a i f) j = nodeChildren a j := by
  unfold nodeChildren setDataF
  rw [modifyNode_get]
  by_cases hij : j = i
  · subst hij; simp only [if_pos rfl]; cases a[j]? <;> rfl
  · simp [hij]

theorem nodeParent_setChildrenF (a : Arena) (i : Nat) (f : List Nat → List Nat) (j : Nat) :
    nodeParent (setChildrenF a i f) j = nodeParent a j := by
  unfold nodeParent setChildrenF
  rw [modifyNode_get]
  by_cases hij : j = i
  · subst hij; simp only [if_pos rfl]; cases a[j]? <;> rfl
  · simp [hij]

theorem nodeParent_setDataF (a : Arena) (i : Nat) (f : Option String → Option String) (j : Nat) :
    nodeParent (setDataF a i f) j = nodeParent a j := by
  unfold nodeParent setDataF
  rw [modifyNode_get]
  by_cases hij : j = i
  · subst hij; simp only [if_pos rfl]; cases a[j]? <;> rfl
  · simp [hij]

theorem nodeName_setChildrenF (a : Arena) (i : Nat) (f : List Nat → List Nat) (j : Nat) :
    nodeName (setChildrenF a i f) j = nodeName a j := by
  unfold nodeName setChildrenF
  rw [modifyNode_get]
  by_cases hij : j = i
  · subst hij; simp only [if_pos rfl]; cases a[j]? <;> rfl
  · simp [hij]

theorem nodeName_setParent (a : Arena) (i : Nat) (x : Option Nat) (j : Nat) :
    nodeName (setParent a i x) j = nodeName a j := by
  unfold nodeName setParent
  rw [modifyNode_get]
  by_cases hij : j = i
  · subst hij; simp only [if_pos rfl]; cases a[j]? <;> rfl
  · simp [hij]

theorem nodeName_setDataF (a : Arena) (i : Nat) (f : Option String → Option String) (j : Nat) :
    nodeName (setDataF a i f) j = nodeName a j := by
  unfold nodeName setDataF
  rw [modifyNode_get]
  by_cases hij : j = i
  · subst hij; simp only [if_pos rfl]; cases a[j]? <;> rfl
  · simp [hij]

theorem nodeChildren_setChildrenF_self {a : Arena} {i : Nat}
    (h : i < a.length) (f : List Nat → List Nat) :
    nodeChildren (setChildrenF a i f) i = f (nodeChildren a i) := by
  have hr : a[i]? = some a[i] := List.getElem?_eq_getElem h
  unfold nodeChildren setChildrenF
  rw [modifyNode_get_self hr, hr]
  rfl

theorem nodeChildren_setChildrenF_other {a : Arena} {i j : Nat} (hij : j ≠ i)
    (f : List Nat → List Nat) :
    nodeChildren (setChildrenF a i f) j = nodeChildren a j := by
  unfold nodeChildren setChildrenF
  rw [modifyNode_get_other hij]

theorem nodeParent_setParent_self {a : Arena} {i : Nat}
    (h : i < a.length) (x : Option Nat) :
    nodeParent (setParent a i x) i = x := by
  have hr : a[i]? = some a[i] := List.getElem?_eq_getElem h
  unfold nodeParent setParent
  rw [modifyNode_get_self hr]

theorem nodeParent_setParent_other {a : Arena} {i j : Nat} (hij : j ≠ i)
    (x : Option Nat) : nodeParent (setParent a i x) j = nodeParent a j := by
  unfold nodeParent setParent
  rw [modifyNode_get_other hij]

theorem setChildrenF_length (a : Arena) (i : Nat) (f : List Nat → List Nat) :
    (setChildrenF a i f).length = a.length := modifyNode_length a i _

theorem setParent_length (a : Arena) (i : Nat) (x : Option Nat) :
    (setParent a i x).length = a.length := modifyNode_length a i _

theorem setDataF_length (a : Arena) (i : Nat) (f : Option String → Option String) :
    (setDataF a i f).length = a.length := modifyNode_length a i _

/-- Splicing out the first occurrence of an element is `List.erase`. -/
theorem eraseIdx_indexOf_eq_erase (l : List Nat) (c : Nat) :
    l.eraseIdx (l.indexOf c) = l.erase c := by
  induction l with
  | nil => rfl
  | cons x xs ih =>
    by_cases hx : x = c
    · subst hx
      simp [List.indexOf_cons_self, List.erase_cons_head]
    · rw [List.indexOf_cons_ne _ hx, List.erase_cons_tail]
      · simp [List.eraseIdx, ih]
      · simp [hx]

theorem not_mem_children_of_parent_none {a : Arena} (hw : ParentOk a) {c : Nat}
    (hc : nodeParent a c = none) (q : Nat) : c ∉ nodeChildren a q := by
  intro hm
  rw [parentOk_mem hw hm] at hc
  cases hc

/-- `appendChild` preserves the back-link invariant when the appended node is
detached. -/
theorem wf_appendChild {a : Arena} {p c : Nat} (hw : Wf a)
    (hp : p < a.length) (hc : c < a.length) (hpar : nodeParent a c = none) :
    Wf (appendChild a p c) := by
  obtain ⟨hpo, hoo⟩ := hw
  have hnotmem : ∀ q, c ∉ nodeChildren a q := not_mem_children_of_parent_none hpo hpar
  have hlen : (appendChild a p c).length = a.length := by
    unfold appendChild; rw [setParent_length, setChildrenF_length]
  have hch : ∀ q, nodeChildren (appendChild a p c) q =
      if q = p then nodeChildren a p ++ [c] else nodeChildren a q := by
    intro q
    unfold appendChild
    rw [nodeChildren_setParent]
    by_cases hqp : q = p
    · subst hqp; rw [if_pos rfl, nodeChildren_setChildrenF_self hp]
    · rw [if_neg hqp, nodeChildren_setChildrenF_other hqp]
  have hpar' : ∀ n, nodeParent (appendChild a p c) n =
      if n = c then some p else nodeParent a n := by
    intro n
    unfold appendChild
    by_cases hnc : n = c
    · subst hnc
      rw [if_pos rfl, nodeParent_setParent_self (by rw [setChildrenF_length]; exact hc)]
    · rw [if_neg hnc, nodeParent_setParent_other hnc, nodeParent_setChildrenF]
  constructor
  · intro q hq n hn
    rw [hlen] at hq
    rw [hch] at hn
    rw [hpar']
    by_cases hqp : q = p
    · subst hqp
      rw [if_pos rfl] at hn
      rcases List.mem_append.mp hn with hn | hn
      · have := hpo q hp n hn
        rw [if_neg (fun he => hnotmem q (by rw [← he]; exact hn))]
        exact this
      · simp only [List.mem_singleton] at hn
        subst hn
        rw [if_pos rfl]
    · rw [if_neg hqp] at hn
      have := parentOk_mem hpo hn
      rw [if_neg (fun he => hnotmem q (by rw [← he]; exact hn))]
      exact this
  · intro n hn q hq
    rw [hlen] at hn
    rw [hpar'] at hq
    rw [hch]
    by_cases hnc : n = c
    · subst hnc
      rw [if_pos rfl] at hq
      simp only [Option.toList_some, List.mem_singleton] at hq
      subst hq
      rw [if_pos rfl, List.count_append]
      have h0 : (nodeChildren a q).count n = 0 := List.count_eq_zero.mpr (hnotmem q)
      simp [h0]
    · rw [if_neg hnc] at hq
      simp only [Option.mem_toList, Option.mem_def] at hq
      have h1 := onceOk_count hoo hq
      by_cases hqp : q = p
      · subst hqp
        rw [if_pos rfl, List.count_append]
        have h0 : ([c] : List Nat).count n = 0 := by
          simp [List.count_singleton', hnc]
        omega
      · rw [if_neg hqp]
        exact h1

/-- `removeChild` preserves the back-link invariant. -/
theorem wf_removeChild {a a' : Arena} {p c : Nat} (hw : Wf a)
    (hrem : removeChild a p c = some a') : Wf a' := by
  obtain ⟨hpo, hoo⟩ := hw
  unfold removeChild at hrem
  by_cases hm : c ∈ nodeChildren a p
  swap
  · rw [if_neg hm] at hrem; cases hrem
  rw [if_pos hm] at hrem
  have hparc : nodeParent a c = some p := parentOk_mem hpo hm
  have hclt : c < a.length := by
    by_contra hcl
    rw [nodeParent_out a (Nat.le_of_not_lt hcl)] at hparc
    cases hparc
  have ha' : a' = setParent (setChildrenF a p
      (fun l => l.eraseIdx ((nodeChildren a p).indexOf c))) c none := by
    cases hrem; rfl
  subst ha'
  have hlen : (setParent (setChildrenF a p
      (fun l => l.eraseIdx ((nodeChildren a p).indexOf c))) c none).length = a.length := by
    rw [setParent_length, setChildrenF_length]
  have hch : ∀ q, nodeChildren (setParent (setChildrenF a p
      (fun l => l.eraseIdx ((nodeChildren a p).indexOf c))) c none) q =
      if q = p then (nodeChildren a p).erase c else nodeChildren a q := by
    intro q
    rw [nodeChildren_setParent]
    by_cases hqp : q = p
    · subst hqp
      have hplt : q < a.length := by
        by_contra hpl
        rw [nodeChildren_out a (Nat.le_of_not_lt hpl)] at hm
        cases hm
      rw [if_pos rfl, nodeChildren_setChildrenF_self hplt, eraseIdx_indexOf_eq_erase]
    · rw [if_neg hqp, nodeChildren_setChildrenF_other hqp]
  have hpar' : ∀ n, nodeParent (setParent (setChildrenF a p
      (fun l => l.eraseIdx ((nodeChildren a p).indexOf c))) c none) n =
      if n = c then none else nodeParent a n := by
    intro n
    by_cases hnc : n = c
    · subst hnc
      rw [if_pos rfl, nodeParent_setParent_self (by rw [setChildrenF_length]; exact hclt)]
    · rw [if_neg hnc, nodeParent_setParent_other hnc, nodeParent_setChildrenF]
  have hcount : (nodeChildren a p).count c = 1 := onceOk_count hoo hparc
  have hnotmem_erase : c ∉ (nodeChildren a p).erase c := by
    rw [← List.count_eq_zero, List.count_erase_self, hcount]
  constructor
  · intro q hq n hn
    rw [hlen] at hq
    rw [hch] at hn
    rw [hpar']
    by_cases hqp : q = p
    · subst hqp
      rw [if_pos rfl] at hn
      have hnc : n ≠ c := fun he => hnotmem_erase (he ▸ hn)
      rw [if_neg hnc]
      exact hpo q hq n (List.mem_of_mem_erase hn)
    · rw [if_neg hqp] at hn
      have hpn := parentOk_mem hpo hn
      have hnc : n ≠ c := by
        intro he
        subst he
        rw [hparc] at hpn
        exact hqp (Option.some.inj hpn).symm
      rw [if_neg hnc]
      exact hpn
  · intro n hn q hq
    rw [hlen] at hn
    rw [hpar'] at hq
    by_cases hnc : n = c
    · subst hnc
      rw [if_pos rfl] at hq
      simp at hq
    · rw [if_neg hnc] at hq
      simp only [Option.mem_toList, Option.mem_def] at hq
      have h1 := onceOk_count hoo hq
      rw [hch]
      by_cases hqp : q = p
      · subst hqp
        rw [if_pos rfl, List.count_erase_of_ne hnc]
        exact h1
      · rw [if_neg hqp]
        exact h1

theorem count_insertSplice (l : List Nat) (idx c n : Nat) :
    (l.take idx ++ c :: l.drop idx).count n = l.count n + if c == n then 1 else 0 := by
  rw [List.count_append, List.count_cons]
  conv_rhs => rw [← List.take_append_drop idx l, List.count_append]
  omega

theorem mem_insertSplice {l : List Nat} {idx c n : Nat} :
    n ∈ l.take idx ++ c :: l.drop idx ↔ n = c ∨ n ∈ l := by
  constructor
  · intro h
    rcases List.mem_append.mp h with h | h
    · exact Or.inr (List.take_subset idx l h)
    · rcases List.mem_cons.mp h with h | h
      · exact Or.inl h
      · exact Or.inr (List.drop_subset idx l h)
  · intro h
    rcases h with h | h
    · subst h
      exact List.mem_append.mpr (Or.inr (List.mem_cons_self _ _))
    · conv at h => rw [← List.take_append_drop idx l]
      rcases List.mem_append.mp h with h | h
      · exact List.mem_append.mpr (Or.inl h)
      · exact List.mem_append.mpr (Or.inr (List.mem_cons_of_mem _ h))

/-- `insertBefore` preserves the back-link invariant when the inserted node is
detached. -/
theorem wf_insertBefore {a a' : Arena} {p c : Nat} {ref : Option Nat} (hw : Wf a)
    (hp : p < a.length) (hc : c < a.length) (hpar : nodeParent a c = none)
    (hins : insertBefore a p c ref = some a') : Wf a' := by
  obtain ⟨hpo, hoo⟩ := hw
  cases ref with
  | none =>
    unfold insertBefore at hins
    cases hins
    exact wf_appendChild ⟨hpo, hoo⟩ hp hc hpar
  | some r =>
    replace hins : (if r ∈ nodeChildren a p then
        some (setParent (setChildrenF a p
          (fun l => l.take ((nodeChildren a p).indexOf r) ++
            c :: l.drop ((nodeChildren a p).indexOf r))) c (some p))
      else none) = some a' := hins
    by_cases hm : r ∈ nodeChildren a p
    swap
    · rw [if_neg hm] at hins; cases hins
    rw [if_pos hm] at hins
    set idx := (nodeChildren a p).indexOf r with hidx
    have ha' : a' = setParent (setChildrenF a p
        (fun l => l.take idx ++ c :: l.drop idx)) c (some p) := by
      cases hins; rfl
    subst ha'
    have hnotmem : ∀ q, c ∉ nodeChildren a q := not_mem_children_of_parent_none hpo hpar
    have hlen : (setParent (setChildrenF a p
        (fun l => l.take idx ++ c :: l.drop idx)) c (some p)).length = a.length := by
      rw [setParent_length, setChildrenF_length]
    have hch : ∀ q, nodeChildren (setParent (setChildrenF a p
        (fun l => l.take idx ++ c :: l.drop idx)) c (some p)) q =
        if q = p then (nodeChildren a p).take idx ++ c :: (nodeChildren a p).drop idx
        else nodeChildren a q := by
      intro q
      rw [nodeChildren_setParent]
      by_cases hqp : q = p
      · subst hqp; rw [if_pos rfl, nodeChildren_setChildrenF_self hp]
      · rw [if_neg hqp, nodeChildren_setChildrenF_other hqp]
    have hpar' : ∀ n, nodeParent (setParent (setChildrenF a p
        (fun l => l.take idx ++ c :: l.drop idx)) c (some p)) n =
        if n = c then some p else nodeParent a n := by
      intro n
      by_cases hnc : n = c
      · subst hnc
        rw [if_pos rfl, nodeParent_setParent_self (by rw [setChildrenF_length]; exact hc)]
      · rw [if_neg hnc, nodeParent_setParent_other hnc, nodeParent_setChildrenF]
    constructor
    · intro q hq n hn
      rw [hlen] at hq
      rw [hch] at hn
      rw [hpar']
      by_cases hqp : q = p
      · subst hqp
        rw [if_pos rfl] at hn
        rcases mem_insertSplice.mp hn with hn | hn
        · subst hn; rw [if_pos rfl]
        · have := hpo q hq n hn
          rw [if_neg (fun he => hnotmem q (by rw [← he]; exact hn))]
          exact this
      · rw [if_neg hqp] at hn
        have := parentOk_mem hpo hn
        rw [if_neg (fun he => hnotmem q (by rw [← he]; exact hn))]
        exact this
    · intro n hn q hq
      rw [hlen] at hn
      rw [hpar'] at hq
      rw [hch]
      by_cases hnc : n = c
      · subst hnc
        rw [if_pos rfl] at hq
        simp only [Option.toList_some, List.mem_singleton] at hq
        subst hq
        rw [if_pos rfl, count_insertSplice]
        have h0 : (nodeChildren a q).count n = 0 := List.count_eq_zero.mpr (hnotmem q)
        simp [h0]
      · rw [if_neg hnc] at hq
        simp only [Option.mem_toList, Option.mem_def] at hq
        have h1 := onceOk_count hoo hq
        by_cases hqp : q = p
        · subst hqp
          rw [if_pos rfl, count_insertSplice]
          have : (c == n) = false := by simp [Ne.symm hnc]
          rw [this]
          simpa using h1
        · rw [if_neg hqp]
          exact h1

/-- `replaceChild` preserves the back-link invariant when the new node is
detached. -/
theorem wf_replaceChild {a a' : Arena} {p newN oldN : Nat} (hw : Wf a)
    (hp : p < a.length) (hnew : newN < a.length) (hpar : nodeParent a newN = none)
    (hrep : replaceChild a p newN oldN = some a') : Wf a' := by
  obtain ⟨hpo, hoo⟩ := hw
  unfold replaceChild at hrep
  by_cases hm : oldN ∈ nodeChildren a p
  swap
  · rw [if_neg hm] at hrep; cases hrep
  rw [if_pos hm] at hrep
  set l := nodeChildren a p with hl
  set idx := l.indexOf oldN with hidx
  have hparo : nodeParent a oldN = some p := parentOk_mem hpo hm
  have holdlt : oldN < a.length := by
    by_contra hcl
    rw [nodeParent_out a (Nat.le_of_not_lt hcl)] at hparo
    cases hparo
  have hne : oldN ≠ newN := by
    intro he
    rw [he, hpar] at hparo
    cases hparo
  have hnotmem : ∀ q, newN ∉ nodeChildren a q := not_mem_children_of_parent_none hpo hpar
  have hidxlt : idx < l.length := List.indexOf_lt_length.mpr hm
  have hdecomp : l = l.take idx ++ oldN :: l.drop (idx + 1) := by
    conv_lhs => rw [← List.take_append_drop idx l]
    rw [← List.getElem_cons_drop l idx hidxlt, List.getElem_indexOf hidxlt]
  have hset : l.set idx newN = l.take idx ++ newN :: l.drop (idx + 1) :=
    List.set_eq_take_cons_drop newN hidxlt
  have hcount1 : l.count oldN = 1 := onceOk_count hoo hparo
  have holdnot : oldN ∉ l.take idx ++ l.drop (idx + 1) := by
    intro hmem
    have h2 : l.count oldN ≥ 2 := by
      conv_lhs => rw [hdecomp]
      rw [List.count_append, List.count_cons]
      have hpos : 0 < (l.take idx).count oldN + (l.drop (idx + 1)).count oldN := by
        rcases List.mem_append.mp hmem with h | h
        · have := List.count_pos_iff.mpr h
          omega
        · have := List.count_pos_iff.mpr h
          omega
      simp only [beq_self_eq_true, if_true]
      omega
    omega
  have ha' : a' = setParent (setParent (setChildrenF a p
      (fun l => l.set idx newN)) oldN none) newN (some p) := by
    cases hrep; rfl
  subst ha'
  have hlen : (setParent (setParent (setChildrenF a p
      (fun l => l.set idx newN)) oldN none) newN (some p)).length = a.length := by
    rw [setParent_length, setParent_length, setChildrenF_length]
  have hch : ∀ q, nodeChildren (setParent (setParent (setChildrenF a p
      (fun l => l.set idx newN)) oldN none) newN (some p)) q =
      if q = p then l.set idx newN else nodeChildren a q := by
    intro q
    rw [nodeChildren_setParent, nodeChildren_setParent]
    by_cases hqp : q = p
    · subst hqp; rw [if_pos rfl, nodeChildren_setChildrenF_self hp]
    · rw [if_neg hqp, nodeChildren_setChildrenF_other hqp]
  have hpar' : ∀ n, nodeParent (setParent (setParent (setChildrenF a p
      (fun l => l.set idx newN)) oldN none) newN (some p)) n =
      if n = newN then some p else if n = oldN then none else nodeParent a n := by
    intro n
    by_cases hnn : n = newN
    · subst hnn
      rw [if_pos rfl, nodeParent_setParent_self
        (by rw [setParent_length, setChildrenF_length]; exact hnew)]
    · rw [if_neg hnn, nodeParent_setParent_other hnn]
      by_cases hno : n = oldN
      · subst hno
        rw [if_pos rfl, nodeParent_setParent_self
          (by rw [setChildrenF_length]; exact holdlt)]
      · rw [if_neg hno, nodeParent_setParent_other hno, nodeParent_setChildrenF]
  have hmem_set : ∀ n, n ∈ l.set idx newN ↔ n = newN ∨ n ∈ l.take idx ++ l.drop (idx + 1) := by
    intro n
    rw [hset]
    constructor
    · intro h
      rcases List.mem_append.mp h with h | h
      · exact Or.inr (List.mem_append.mpr (Or.inl h))
      · rcases List.mem_cons.mp h with h | h
        · exact Or.inl h
        · exact Or.inr (List.mem_append.mpr (Or.inr h))
    · intro h
      rcases h with h | h
      · subst h; exact List.mem_append.mpr (Or.inr (List.mem_cons_self _ _))
      · rcases List.mem_append.mp h with h | h
        · exact List.mem_append.mpr (Or.inl h)
        · exact List.mem_append.mpr (Or.inr (List.mem_cons_of_mem _ h))
  have hsub : ∀ n, n ∈ l.take idx ++ l.drop (idx + 1) → n ∈ l := by
    intro n h
    rcases List.mem_append.mp h with h | h
    · exact List.take_subset _ _ h
    · exact List.drop_subset _ _ h
  have hcount_set : ∀ n, n ≠ newN → n ≠ oldN →
      (l.set idx newN).count n = l.count n := by
    intro n h1 h2
    rw [hset, List.count_append, List.count_cons]
    conv_rhs => rw [hdecomp, List.count_append, List.count_cons]
    have e1 : (newN == n) = false := by simp [Ne.symm h1]
    have e2 : (oldN == n) = false := by simp [Ne.symm h2]
    rw [e1, e2]
  constructor
  · intro q hq n hn
    rw [hlen] at hq
    rw [hch] at hn
    rw [hpar']
    by_cases hqp : q = p
    · subst hqp
      rw [if_pos rfl] at hn
      rcases (hmem_set n).mp hn with hn | hn
      · subst hn; rw [if_pos rfl]
      · have hnn : n ≠ newN := fun he => hnotmem q (by rw [← he]; exact hsub n hn)
        have hno : n ≠ oldN := fun he => holdnot (by rw [← he]; exact hn)
        rw [if_neg hnn, if_neg hno]
        exact hpo q hq n (hsub n hn)
    · rw [if_neg hqp] at hn
      have hpn := parentOk_mem hpo hn
      have hnn : n ≠ newN := fun he => hnotmem q (by rw [← he]; exact hn)
      have hno : n ≠ oldN := by
        intro he
        rw [he, hparo] at hpn
        exact hqp (Option.some.inj hpn).symm
      rw [if_neg hnn, if_neg hno]
      exact hpn
  · intro n hn q hq
    rw [hlen] at hn
    rw [hpar'] at hq
    rw [hch]
    by_cases hnn : n = newN
    · subst hnn
      rw [if_pos rfl] at hq
      simp only [Option.toList_some, List.mem_singleton] at hq
      subst hq
      rw [if_pos rfl, hset, List.count_append, List.count_cons]
      have h0l : l.count n = 0 := List.count_eq_zero.mpr (hnotmem q)
      have h0 : (l.take idx).count n + (l.drop (idx + 1)).count n = 0 := by
        have := hcount1
        conv at h0l => rw [hdecomp, List.count_append, List.count_cons]
        omega
      simp only [beq_self_eq_true, if_true]
      omega
    · rw [if_neg hnn] at hq
      by_cases hno : n = oldN
      · subst hno
        rw [if_pos rfl] at hq
        simp at hq
      · rw [if_neg hno] at hq
        simp only [Option.mem_toList, Option.mem_def] at hq
        have h1 := onceOk_count hoo hq
        by_cases hqp : q = p
        · subst hqp
          rw [if_pos rfl, hcount_set n hnn hno]
          exact h1
        · rw [if_neg hqp]
          exact h1

/-- The detach-then-append reparenting move preserves the back-link
invariant (no detachment precondition: the move detaches first, exactly as
the adoption-agency and foster-parenting code paths do). -/
theorem wf_moveToEnd {a : Arena} {c dest : Nat} (hw : Wf a)
    (hc : c < a.length) (hdest : dest < a.length) : Wf (moveToEnd a c dest) := by
  cases hpc : nodeParent a c with
  | none =>
    have heq : moveToEnd a c dest = appendChild a dest c := by
      unfold moveToEnd
      simp only [hpc]
    rw [heq]
    exact wf_appendChild hw hdest hc hpc
  | some q =>
    have hm : c ∈ nodeChildren a q := by
      have := onceOk_count hw.2 hpc
      exact List.count_pos_iff.mp (by omega)
    have hrem : removeChild a q c = some (setParent (setChildrenF a q
        (fun l => l.eraseIdx ((nodeChildren a q).indexOf c))) c none) := by
      unfold removeChild
      rw [if_pos hm]
    have heq : moveToEnd a c dest = appendChild (setParent (setChildrenF a q
        (fun l => l.eraseIdx ((nodeChildren a q).indexOf c))) c none) dest c := by
      unfold moveToEnd
      simp only [hpc, hrem, Option.getD_some]
    rw [heq]
    set a1 := setParent (setChildrenF a q
      (fun l => l.eraseIdx ((nodeChildren a q).indexOf c))) c none with ha1
    have hw1 : Wf a1 := wf_removeChild hw hrem
    have hlen1 : a1.length = a.length := by
      rw [ha1, setParent_length, setChildrenF_length]
    have hpar1 : nodeParent a1 c = none := by
      rw [ha1]
      exact nodeParent_setParent_self (by rw [setChildrenF_length]; exact hc) none
    exact wf_appendChild hw1 (by rw [hlen1]; exact hdest) (by rw [hlen1]; exact hc) hpar1

/-- Under the invariant, a node's parent is null exactly when it is a root:
it occurs in no children list. -/
theorem parent_none_iff_root {a : Arena} (hw : Wf a) (n : Nat) :
    nodeParent a n = none ↔ ∀ q, n ∉ nodeChildren a q := by
  constructor
  · intro h q
    exact not_mem_children_of_parent_none hw.1 h q
  · intro h
    cases hp : nodeParent a n with
    | none => rfl
    | some q =>
      have := onceOk_count hw.2 hp
      exact absurd (List.count_pos_iff.mp (by omega)) (h q)

/-- C1.  For the trees built by the parser (nodes in an arena, parent
back-references plus ordered child lists), the parent/child consistency
invariant `Wf` — a node's parent is null exactly when the node occurs in no
children list, and a node with a parent occurs exactly once in that
parent's children — is preserved by each tree operation of `src/node.js`
(`appendChild`, `removeChild`, `insertBefore`, `replaceChild`, each under
its contract: inserted nodes are detached, removed/replaced nodes must be
present) and by the detach-then-insert reparenting move used by the
adoption agency and foster parenting in `src/treebuilder.js`. -/
theorem c1_parent_child_consistency (a : Arena) (p c dest ref newN oldN n : Nat)
    (hw : Wf a) :
    ((p < a.length → c < a.length → nodeParent a c = none → Wf (appendChild a p c)) ∧
     (∀ a', removeChild a p c = some a' → Wf a') ∧
     (∀ a', p < a.length → c < a.length → nodeParent a c = none →
       insertBefore a p c (some ref) = some a' → Wf a') ∧
     (∀ a', insertBefore a p c none = some a' → p < a.length → c < a.length →
       nodeParent a c = none → Wf a') ∧
     (∀ a', p < a.length → newN < a.length → nodeParent a newN = none →
       replaceChild a p newN oldN = some a' → Wf a') ∧
     (c < a.length → dest < a.length → Wf (moveToEnd a c dest)) ∧
     (nodeParent a n = none ↔ ∀ q, n ∉ nodeChildren a q) ∧
     (∀ q, nodeParent a n = some q → (nodeChildren a q).count n = 1)) := by
  refine ⟨?_, ?_, ?_, ?_, ?_, ?_, ?_, ?_⟩
  · intro hp hc hpar
    exact wf_appendChild hw hp hc hpar
  · intro a' h
    exact wf_removeChild hw h
  · intro a' hp hc hpar h
    exact wf_insertBefore hw hp hc hpar h
  · intro a' h hp hc hpar
    exact wf_insertBefore hw hp hc hpar h
  · intro a' hp hn hpar h
    exact wf_replaceChild hw hp hn hpar h
  · intro hc hd
    exact wf_moveToEnd hw hc hd
  · exact parent_none_iff_root hw n
  · intro q hq
    exact onceOk_count hw.2 hq

/-- A tiny concrete arena: node 0 is a root with one child (node 1), node 2
is detached. -/
def c1Arena : Arena :=
  [ { name := "html", ns := some "html", dat := none, attrs := [],
      parent := none, children := [1], tmplContent := none },
    { name := "body", ns := some "html", dat := none, attrs := [],
      parent := some 0, children := [], tmplContent := none },
    { name := "#text", ns := none, dat := some "x", attrs := [],
      parent := none, children := [], tmplContent := none } ]

/-- Witness for C1 at a concrete arena. -/
theorem c1_witness :
    Wf c1Arena ∧
    ((0 < c1Arena.length → 2 < c1Arena.length → nodeParent c1Arena 2 = none →
        Wf (appendChild c1Arena 0 2)) ∧
     (∀ a', removeChild c1Arena 0 2 = some a' → Wf a') ∧
     (∀ a', 0 < c1Arena.length → 2 < c1Arena.length → nodeParent c1Arena 2 = none →
       insertBefore c1Arena 0 2 (some 1) = some a' → Wf a') ∧
     (∀ a', insertBefore c1Arena 0 2 none = some a' → 0 < c1Arena.length →
       2 < c1Arena.length → nodeParent c1Arena 2 = none → Wf a') ∧
     (∀ a', 0 < c1Arena.length → 2 < c1Arena.length → nodeParent c1Arena 2 = none →
       replaceChild c1Arena 0 2 1 = some a' → Wf a') ∧
     (2 < c1Arena.length → 0 < c1Arena.length → Wf (moveToEnd c1Arena 2 0)) ∧
     (nodeParent c1Arena 2 = none ↔ ∀ q, 2 ∉ nodeChildren c1Arena q) ∧
     (∀ q, nodeParent c1Arena 2 = some q → (nodeChildren c1Arena q).count 2 = 1)) :=
  ⟨by decide, c1_parent_child_consistency c1Arena 0 2 0 1 2 1 2 (by decide)⟩

/-! ## Tree builder state (`src/treebuilder.js`) -/

/-- Insertion modes.  Modelled from the spec: the enum lives in
`treebuilder_utils.js`, which is not among the provided sources; the
constructor order follows the `MODE_HANDLERS` table comments of
`src/treebuilder.js`. -/
inductive InsertionMode where
  | INITIAL | BEFORE_HTML | BEFORE_HEAD | IN_HEAD | IN_HEAD_NOSCRIPT
  | AFTER_HEAD | TEXT | IN_BODY | AFTER_BODY | AFTER_AFTER_BODY
  | IN_TABLE | IN_TABLE_TEXT | IN_CAPTION | IN_COLUMN_GROUP | IN_TABLE_BODY
  | IN_ROW | IN_CELL | IN_FRAMESET | AFTER_FRAMESET | AFTER_AFTER_FRAMESET
  | IN_SELECT | IN_TEMPLATE
deriving Repr, DecidableEq

/-- An entry of the active-formatting list (`src/treebuilder.js`
`_append_active_formatting_entry`): tag name, attribute snapshot, the node,
and the attribute signature string. -/
structure AFEntry where
  name : String
  attrs : List (String × String)
  node : Nat
  signature : String
deriving Repr, DecidableEq

/-- An item of `active_formatting`: an entry or the `FORMAT_MARKER`
sentinel. -/
inductive AFItem where
  | marker
  | entry (e : AFEntry)
deriving Repr, DecidableEq

/-- The fragment context handed to the tree builder (`{tag_name,
namespace?}`, spec §6). -/
structure FragmentContext where
  tagName : String
  ns : Option String
deriving Repr, DecidableEq

/-- The mutable state of `TreeBuilder` (constructor of
`src/treebuilder.js`), with node references as arena indices.  The JS
array `open_elements` keeps index 0 at the bottom of the stack. -/
structure Builder where
  arena : Arena
  document : Nat
  mode : InsertionMode
  originalMode : Option InsertionMode
  openElements : List Nat
  activeFormatting : List AFItem
  headElement : Option Nat
  formElement : Option Nat
  framesetOk : Bool
  quirksMode : String
  ignoreLf : Bool
  insertFromTable : Bool
  templateModes : List InsertionMode
  fragmentContext : Option FragmentContext
  fragmentContextElement : Option Nat
  errors : List String
  collectErrors : Bool
  iframeSrcdoc : Bool
deriving Repr, DecidableEq

/-- Modelled from the spec: `TABLE_FOSTER_TARGETS` comes from
`constants.js`, which is not among the provided sources.  §4.3 describes
foster parenting as firing "in table modes" when the target is a table
element; the set holds the table-section tags whose children are
table-structural. -/
def TABLE_FOSTER_TARGETS : List String :=
  ["table", "tbody", "tfoot", "thead", "tr"]

/-- Modelled from the spec: `TABLE_ALLOWED_CHILDREN` comes from
`constants.js` (not among the provided sources); the tags that may be
inserted inside a table without foster parenting. -/
def TABLE_ALLOWED_CHILDREN : List String :=
  ["caption", "col", "colgroup", "tbody", "td", "template", "tfoot", "th",
   "thead", "tr", "style", "script", "input", "form"]

/-- Modelled from the spec (§4.3 scope tests): the default scope
terminator set of `constants.js` (not among the provided sources), the
WHATWG "have an element in scope" list. -/
def DEFAULT_SCOPE_TERMINATORS : List String :=
  ["applet", "caption", "html", "table", "td", "th", "marquee", "object",
   "template"]

/-- Modelled from the spec (§4.2/§4.3): the WHATWG "special" category from
`constants.js` (not among the provided sources). -/
def SPECIAL_ELEMENTS : List String :=
  ["address", "applet", "area", "article", "aside", "base", "basefont",
   "bgsound", "blockquote", "body", "br", "button", "caption", "center",
   "col", "colgroup", "dd", "details", "dir", "div", "dl", "dt", "embed",
   "fieldset", "figcaption", "figure", "footer", "form", "frame",
   "frameset", "h1", "h2", "h3", "h4", "h5", "h6", "head", "header",
   "hgroup", "hr", "html", "iframe", "img", "input", "isindex", "li",
   "link", "listing", "main", "marquee", "menu", "meta", "nav", "noembed",
   "noframes", "noscript", "object", "ol", "p", "param", "plaintext",
   "pre", "script", "section", "select", "source", "style", "summary",
   "table", "tbody", "td", "template", "textarea", "tfoot", "th", "thead",
   "title", "tr", "track", "ul", "wbr", "xmp"]

/-- Modelled from the spec (§4.3 integration points): SVG HTML integration
points from `constants.js` (not among the provided sources). -/
def HTML_INTEGRATION_POINTS : List (String × String) :=
  [("svg", "foreignObject"), ("svg", "desc"), ("svg", "title")]

/-- Modelled from the spec (§4.3 integration points): MathML text
integration points from `constants.js` (not among the provided
sources). -/
def MATHML_TEXT_INTEGRATION_POINTS : List (String × String) :=
  [("math", "mi"), ("math", "mo"), ("math", "mn"), ("math", "ms"),
   ("math", "mtext")]

/-- Modelled from the spec (§4.3 foreign content): the SVG camelCase
tag-name table of `constants.js` (not among the provided sources),
`foreignobject → foreignObject` etc. per WHATWG. -/
def SVG_TAG_NAME_ADJUSTMENTS : List (String × String) :=
  [("altglyph", "altGlyph"), ("altglyphdef", "altGlyphDef"),
   ("altglyphitem", "altGlyphItem"), ("animatecolor", "animateColor"),
   ("animatemotion", "animateMotion"), ("animatetransform", "animateTransform"),
   ("clippath", "clipPath"), ("feblend", "feBlend"),
   ("fecolormatrix", "feColorMatrix"), ("fecomponenttransfer", "feComponentTransfer"),
   ("fecomposite", "feComposite"), ("feconvolvematrix", "feConvolveMatrix"),
   ("fediffuselighting", "feDiffuseLighting"), ("fedisplacementmap", "feDisplacementMap"),
   ("fedistantlight", "feDistantLight"), ("fedropshadow", "feDropShadow"),
   ("feflood", "feFlood"), ("fefunca", "feFuncA"), ("fefuncb", "feFuncB"),
   ("fefuncg", "feFuncG"), ("fefuncr", "feFuncR"),
   ("fegaussianblur", "feGaussianBlur"), ("feimage", "feImage"),
   ("femerge", "feMerge"), ("femergenode", "feMergeNode"),
   ("femorphology", "feMorphology"), ("feoffset", "feOffset"),
   ("fepointlight", "fePointLight"), ("fespecularlighting", "feSpecularLighting"),
   ("fespotlight", "feSpotLight"), ("fetile", "feTile"),
   ("feturbulence", "feTurbulence"), ("foreignobject", "foreignObject"),
   ("glyphref", "glyphRef"), ("lineargradient", "linearGradient"),
   ("radialgradient", "radialGradient"), ("textpath", "textPath")]

/-- `lowerAscii` helper of `src/treebuilder.js` (`String.toLowerCase` on
the ASCII names in play). -/
def lowerAscii (s : String) : String :=
  String.mk (s.data.map
    (fun c => if 'A' ≤ c ∧ c ≤ 'Z' then Char.ofNat (c.toNat + 32) else c))

/-- `isTemplateNode(node)` of `src/treebuilder.js`: the name is
`template` and `templateContent` is non-null. -/
def isTemplateNode (a : Arena) (i : Nat) : Bool :=
  nodeName a i = "template" && (nodeTmpl a i).isSome

/-- Dynamic failures of the embedded JS (property access on
null/undefined, explicit `throw`). -/
inductive JsErr where
  | typeError
  | thrown
  | fuel
deriving Repr, DecidableEq

/-- `_find_last_on_stack(name)`: topmost stack node with the given
name. -/
def findLastOnStack (st : Builder) (name : String) : Option Nat :=
  (st.openElements.reverse).find? (fun i => nodeName st.arena i = name)

/-- `_current_node_or_html()`: the stack top, else the document's `html`
child, else the document's first child. -/
def currentNodeOrHtml (st : Builder) : Option Nat :=
  match st.openElements.getLast? with
  | some top => some top
  | none =>
    match (nodeChildren st.arena st.document).find?
        (fun c => nodeName st.arena c = "html") with
    | some html => some html
    | none => (nodeChildren st.arena st.document).head?

/-- `_should_foster_parenting(target, {forTag, isText})`.  A null target is
only dereferenced after the `insert_from_table` guard, as in the JS. -/
def shouldFosterParenting (st : Builder) (target : Option Nat)
    (forTag : Option String) (isText : Bool) : Except JsErr Bool :=
  if !st.insertFromTable then .ok false
  else
    match target with
    | none => .error .typeError
    | some t =>
      if !(TABLE_FOSTER_TARGETS.contains (nodeName st.arena t)) then .ok false
      else if isText then .ok true
      else
        match forTag with
        | some tag => if TABLE_ALLOWED_CHILDREN.contains tag then .ok false else .ok true
        | none => .ok true

/-- `_appropriate_insertion_location(override_target, {foster_parenting})`
of `src/treebuilder.js`, returning the `[parent, position]` pair. -/
def appropriateInsertionLocation (st : Builder) (override : Option Nat)
    (foster : Bool) : Except JsErr (Nat × Nat) :=
  let target? := match override with
    | some t => some t
    | none => currentNodeOrHtml st
  match target? with
  | none => .error .typeError
  | some target =>
    if foster ∧ TABLE_FOSTER_TARGETS.contains (nodeName st.arena target) then
      let lastTemplate := findLastOnStack st "template"
      let lastTable := findLastOnStack st "table"
      match lastTemplate with
      | some tpl =>
        if lastTable = none ∨
            st.openElements.indexOf tpl >
              st.openElements.indexOf ((lastTable).getD 0) then
          match nodeTmpl st.arena tpl with
          | some tc => .ok (tc, (nodeChildren st.arena tc).length)
          | none => .error .typeError
        else
          match lastTable with
          | none => .ok (target, (nodeChildren st.arena target).length)
          | some tbl =>
            match nodeParent st.arena tbl with
            | none => .ok (target, (nodeChildren st.arena target).length)
            | some par => .ok (par, (nodeChildren st.arena par).indexOf tbl)
      | none =>
        match lastTable with
        | none => .ok (target, (nodeChildren st.arena target).length)
        | some tbl =>
          match nodeParent st.arena tbl with
          | none => .ok (target, (nodeChildren st.arena target).length)
          | some par => .ok (par, (nodeChildren st.arena par).indexOf tbl)
    else
      if isTemplateNode st.arena target then
        match nodeTmpl st.arena target with
        | some tc => .ok (tc, (nodeChildren st.arena tc).length)
        | none => .error .typeError
      else .ok (target, (nodeChildren st.arena target).length)

/-- `_insert_node_at(parent, index, node)`: resolve the reference child at
`index` (null when out of range) and `insert_before`.  A JS `indexOf`
miss surfaces as `-1` and selects a null reference; the arena analogue has
`indexOf = length`, which likewise resolves to a null reference. -/
def insertNodeAt (a : Arena) (parent idx node : Nat) : Except JsErr Arena :=
  let ch := nodeChildren a parent
  match insertBefore a parent node ch[idx]? with
  | some a' => .ok a'
  | none => .error .thrown

/-- C7.  Whenever foster parenting applies (foster parenting is requested
and the resolved insertion target is a table-foster target), the
appropriate insertion location is: the end of the template content of the
last template on the open-elements stack when its stack position exceeds
the last table's (or there is no table); else, when the last table has a
parent, that parent at the table's own index (immediately before the
table); else the end of the current target node. -/
theorem c7_foster_insertion_location (st : Builder) (target tpl tbl par tc : Nat)
    (hres : currentNodeOrHtml st = some target)
    (hfost : TABLE_FOSTER_TARGETS.contains (nodeName st.arena target) = true) :
    ((findLastOnStack st "template" = some tpl →
      (findLastOnStack st "table" = none ∨
        st.openElements.indexOf tpl >
          st.openElements.indexOf ((findLastOnStack st "table").getD 0)) →
      nodeTmpl st.arena tpl = some tc →
      appropriateInsertionLocation st none true =
        .ok (tc, (nodeChildren st.arena tc).length)) ∧
     (findLastOnStack st "table" = some tbl →
      (∀ t, findLastOnStack st "template" = some t →
        ¬ st.openElements.indexOf t > st.openElements.indexOf tbl) →
      nodeParent st.arena tbl = some par →
      appropriateInsertionLocation st none true =
        .ok (par, (nodeChildren st.arena par).indexOf tbl) ∧
      (Wf st.arena →
        (nodeChildren st.arena par)[(nodeChildren st.arena par).indexOf tbl]? =
          some tbl)) ∧
     (findLastOnStack st "table" = some tbl →
      (∀ t, findLastOnStack st "template" = some t →
        ¬ st.openElements.indexOf t > st.openElements.indexOf tbl) →
      nodeParent st.arena tbl = none →
      appropriateInsertionLocation st none true =
        .ok (target, (nodeChildren st.arena target).length)) ∧
     (findLastOnStack st "template" = none → findLastOnStack st "table" = none →
      appropriateInsertionLocation st none true =
        .ok (target, (nodeChildren st.arena target).length))) := by
  have hunf : appropriateInsertionLocation st none true =
      (let lastTemplate := findLastOnStack st "template"
       let lastTable := findLastOnStack st "table"
       match lastTemplate with
       | some tpl =>
         if lastTable = none ∨
             st.openElements.indexOf tpl >
               st.openElements.indexOf ((lastTable).getD 0) then
           match nodeTmpl st.arena tpl with
           | some tc => .ok (tc, (nodeChildren st.arena tc).length)
           | none => .error .typeError
         else
           match lastTable with
           | none => .ok (target, (nodeChildren st.arena target).length)
           | some tbl =>
             match nodeParent st.arena tbl with
             | none => .ok (target, (nodeChildren st.arena target).length)
             | some par => .ok (par, (nodeChildren st.arena par).indexOf tbl)
       | none =>
         match lastTable with
         | none => .ok (target, (nodeChildren st.arena target).length)
         | some tbl =>
           match nodeParent st.arena tbl with
           | none => .ok (target, (nodeChildren st.arena target).length)
           | some par => .ok (par, (nodeChildren st.arena par).indexOf tbl)) := by
    unfold appropriateInsertionLocation
    simp only [hres]
    rw [if_pos (by refine ⟨by simp, ?_⟩; simpa using hfost)]
  refine ⟨?_, ?_, ?_, ?_⟩
  · intro h1 h2 h3
    rw [hunf]
    simp only [h1, h3]
    rw [if_pos h2]
  · intro h1 h2 h3
    constructor
    · rw [hunf]
      cases htpl : findLastOnStack st "template" with
      | none => simp only [h1, h3]
      | some t =>
        have hnot : ¬ (findLastOnStack st "table" = none ∨
            st.openElements.indexOf t >
              st.openElements.indexOf ((findLastOnStack st "table").getD 0)) := by
          rw [h1]
          rintro (h | h)
          · cases h
          · exact h2 t htpl (by simpa using h)
        simp only [h1, h3]
        rw [if_neg (by rw [h1] at hnot; exact hnot)]
    · intro hw
      have hmem : tbl ∈ nodeChildren st.arena par := by
        have := onceOk_count hw.2 h3
        exact List.count_pos_iff.mp (by omega)
      have hlt : (nodeChildren st.arena par).indexOf tbl <
          (nodeChildren st.arena par).length := List.indexOf_lt_length.mpr hmem
      rw [List.getElem?_eq_getElem hlt, List.getElem_indexOf hlt]
  · intro h1 h2 h3
    rw [hunf]
    cases htpl : findLastOnStack st "template" with
    | none => simp only [h1, h3]
    | some t =>
      have hnot : ¬ (findLastOnStack st "table" = none ∨
          st.openElements.indexOf t >
            st.openElements.indexOf ((findLastOnStack st "table").getD 0)) := by
        rw [h1]
        rintro (h | h)
        · cases h
        · exact h2 t htpl (by simpa using h)
      simp only [h1, h3]
      rw [if_neg (by rw [h1] at hnot; exact hnot)]
  · intro h1 h2
    rw [hunf]
    simp only [h1, h2]

/-- Concrete arena for the C7 witness: document → html → table. -/
def c7Arena : Arena :=
  [ { name := "#document", ns := none, dat := none, attrs := [],
      parent := none, children := [1], tmplContent := none },
    { name := "html", ns := some "html", dat := none, attrs := [],
      parent := some 0, children := [2], tmplContent := none },
    { name := "table", ns := some "html", dat := none, attrs := [],
      parent := some 1, children := [], tmplContent := none } ]

/-- Concrete builder state for the C7 witness: open elements html, table;
table insertion redirection active. -/
def c7St : Builder :=
  { arena := c7Arena, document := 0, mode := .IN_TABLE, originalMode := none,
    openElements := [1, 2], activeFormatting := [], headElement := none,
    formElement := none, framesetOk := false, quirksMode := "no-quirks",
    ignoreLf := false, insertFromTable := true, templateModes := [],
    fragmentContext := none, fragmentContextElement := none, errors := [],
    collectErrors := false, iframeSrcdoc := false }

/-- Witness for C7: with a table on the stack whose parent is `html`, the
foster location is the table's parent at the table's index. -/
theorem c7_witness :
    currentNodeOrHtml c7St = some 2 ∧
    TABLE_FOSTER_TARGETS.contains (nodeName c7St.arena 2) = true ∧
    appropriateInsertionLocation c7St none true =
      .ok (1, (nodeChildren c7St.arena 1).indexOf 2) := by
  refine ⟨by decide, by decide, ?_⟩
  have h := (c7_foster_insertion_location c7St 2 0 2 1 0 (by decide) (by decide)).2.1
  exact (h (by decide)
    (fun t ht => by
      rw [show findLastOnStack c7St "template" = none from by decide] at ht
      cases ht)
    (by decide)).1

/-! ## Node construction and element insertion -/

/-- A tag token (`Tag` of `src/tokens.js`): `kind` 0 = start, 1 = end. -/
structure TagTok where
  kind : Nat
  name : String
  attrs : List (String × String)
  selfClosing : Bool
deriving Repr, DecidableEq

/-- The namespace rule of the `Node` constructor in `src/node.js`: keep
the given namespace for `#`-names and `!doctype`, otherwise default to
`html` when null or empty. -/
def jsNodeNs (name : String) (nsArg : Option String) : Option String :=
  if (match name.data with
      | c :: _ => c == '#'
      | [] => false) || name == "!doctype" then nsArg
  else match nsArg with
    | none => some "html"
    | some s => if s = "" then some "html" else some s

/-- The `Node` constructor of `src/node.js`, allocating into the arena; a
`template` in the HTML namespace additionally owns a fresh
`#document-fragment` as its template content. -/
def createNode (a : Arena) (name : String) (attrs : List (String × String))
    (dat : Option String) (nsArg : Option String) : Arena × Nat :=
  let ns := jsNodeNs name nsArg
  if name = "template" ∧ (ns = none ∨ ns = some "html") then
    (a ++ [ { name := name, ns := ns, dat := dat, attrs := attrs,
              parent := none, children := [], tmplContent := some (a.length + 1) },
            { name := "#document-fragment", ns := none, dat := none, attrs := [],
              parent := none, children := [], tmplContent := none } ],
     a.length)
  else
    (a ++ [ { name := name, ns := ns, dat := dat, attrs := attrs,
              parent := none, children := [], tmplContent := none } ],
     a.length)

/-- `_create_element(name, namespace, attrs)`: namespace defaults to
`html` when falsy. -/
def createElement (a : Arena) (name : String) (ns : Option String)
    (attrs : List (String × String)) : Arena × Nat :=
  let nsv := match ns with
    | none => "html"
    | some s => if s = "" then "html" else s
  createNode a name attrs none (some nsv)

/-- `_insert_element(tag, {push, namespace})` of `src/treebuilder.js`. -/
def insertElement (st : Builder) (tag : TagTok) (push : Bool)
    (ns : String := "html") : Except JsErr (Builder × Nat) :=
  let pr := createNode st.arena tag.name tag.attrs none (some ns)
  let st := { st with arena := pr.1 }
  let node := pr.2
  if !st.insertFromTable then
    match currentNodeOrHtml st with
    | none => .error .typeError
    | some target =>
      let parent := if isTemplateNode st.arena target then
          (nodeTmpl st.arena target).getD target
        else target
      .ok ({ st with
              arena := appendChild st.arena parent node,
              openElements := if push then st.openElements ++ [node]
                else st.openElements }, node)
  else
    match shouldFosterParenting st (currentNodeOrHtml st) (some tag.name) false with
    | .error e => .error e
    | .ok foster =>
    match appropriateInsertionLocation st none foster with
    | .error e => .error e
    | .ok loc =>
    match insertNodeAt st.arena loc.1 loc.2 node with
    | .error e => .error e
    | .ok a' =>
      .ok ({ st with
              arena := a',
              openElements := if push then st.openElements ++ [node]
                else st.openElements }, node)

/-- The stop test of the backward scan in
`_reconstruct_active_formatting_elements`: a marker, or an entry whose
node is on the open-elements stack. -/
def afCond (af : List AFItem) (stack : List Nat) (j : Nat) : Bool :=
  match af[j]? with
  | some .marker => true
  | some (.entry e) => stack.contains e.node
  | none => false

/-- Backward scan of `_reconstruct_active_formatting_elements`: starting
just below the top entry, walk down until the stop test holds (resuming
just above it) or the list is exhausted (index 0). -/
def reconstructStart (af : List AFItem) (stack : List Nat) : Nat → Nat
  | 0 => 0
  | i + 1 => if afCond af stack i then i + 1 else reconstructStart af stack i

/-- Forward loop of `_reconstruct_active_formatting_elements`: from the
scan position to the end of the list, skip markers and re-insert each
entry's element, updating the entry's node.  The fuel only bounds the
recursion; `activeFormatting.length + 1` steps always suffice. -/
def reconstructLoop : Nat → Builder → Nat → Except JsErr Builder
  | 0, st, index =>
    if index < st.activeFormatting.length then .error .fuel else .ok st
  | fuel + 1, st, index =>
    match st.activeFormatting[index]? with
    | none => .ok st
    | some .marker => reconstructLoop fuel st (index + 1)
    | some (.entry e) =>
      match insertElement st ⟨0, e.name, e.attrs, false⟩ true "html" with
      | .error er => .error er
      | .ok pr =>
        reconstructLoop fuel
          { pr.1 with activeFormatting :=
              pr.1.activeFormatting.set index (.entry { e with node := pr.2 }) }
          (index + 1)

/-- `_reconstruct_active_formatting_elements()` of `src/treebuilder.js`. -/
def reconstructActiveFormatting (st : Builder) : Except JsErr Builder :=
  match st.activeFormatting.getLast? with
  | none => .ok st
  | some .marker => .ok st
  | some (.entry e) =>
    if st.openElements.contains e.node then .ok st
    else
      reconstructLoop (st.activeFormatting.length + 1) st
        (reconstructStart st.activeFormatting st.openElements
          (st.activeFormatting.length - 1))

/-- `_append_text(text)` of `src/treebuilder.js`: honor the one-shot
`ignore_lf`, coalesce with a preceding `#text` sibling when present,
otherwise insert a fresh text node at the appropriate location (foster
parenting aware). -/
def appendText (st : Builder) (text : String) : Except JsErr Builder :=
  if text = "" then .ok st
  else
    let p :=
      if st.ignoreLf then
        if text.startsWith "\n" then ({ st with ignoreLf := false }, text.drop 1)
        else ({ st with ignoreLf := false }, text)
      else (st, text)
    let st := p.1
    let text := p.2
    if text = "" then .ok st
    else
      match st.openElements.getLast? with
      | none => .ok st
      | some target =>
        if ¬ (TABLE_FOSTER_TARGETS.contains (nodeName st.arena target)) ∧
            ¬ (isTemplateNode st.arena target = true) then
          let ch := nodeChildren st.arena target
          match ch.getLast? with
          | some lastC =>
            if nodeName st.arena lastC = "#text" then
              .ok { st with
                      arena := setDataF st.arena lastC
                        (fun d => some (d.getD "" ++ text)) }
            else
              let pr := createNode st.arena "#text" [] (some text) none
              .ok { st with arena := appendChild pr.1 target pr.2 }
          | none =>
            let pr := createNode st.arena "#text" [] (some text) none
            .ok { st with arena := appendChild pr.1 target pr.2 }
        else
          match shouldFosterParenting st (currentNodeOrHtml st) none true with
          | .error e => .error e
          | .ok foster =>
          match (if foster then reconstructActiveFormatting st else .ok st) with
          | .error e => .error e
          | .ok st =>
          match appropriateInsertionLocation st none foster with
          | .error e => .error e
          | .ok loc =>
          let chp := nodeChildren st.arena loc.1
          let prev? := if loc.2 > 0 then chp[loc.2 - 1]? else none
          match prev? with
          | some prev =>
            if nodeName st.arena prev = "#text" then
              .ok { st with
                      arena := setDataF st.arena prev
                        (fun d => some (d.getD "" ++ text)) }
            else
              let pr := createNode st.arena "#text" [] (some text) none
              match insertNodeAt pr.1 loc.1 loc.2 pr.2 with
              | .error e => .error e
              | .ok a' => .ok { st with arena := a' }
          | none =>
            let pr := createNode st.arena "#text" [] (some text) none
            match insertNodeAt pr.1 loc.1 loc.2 pr.2 with
            | .error e => .error e
            | .ok a' => .ok { st with arena := a' }

/-! ## The no-adjacent-text invariant -/

theorem nodeTmpl_setChildrenF (a : Arena) (i : Nat) (f : List Nat → List Nat) (j : Nat) :
    nodeTmpl (setChildrenF a i f) j = nodeTmpl a j := by
  unfold nodeTmpl setChildrenF
  rw [modifyNode_get]
  by_cases hij : j = i
  · subst hij; simp only [if_pos rfl]; cases a[j]? <;> rfl
  · simp [hij]

theorem nodeTmpl_setParent (a : Arena) (i : Nat) (x : Option Nat) (j : Nat) :
    nodeTmpl (setParent a i x) j = nodeTmpl a j := by
  unfold nodeTmpl setParent
  rw [modifyNode_get]
  by_cases hij : j = i
  · subst hij; simp only [if_pos rfl]; cases a[j]? <;> rfl
  · simp [hij]

theorem nodeTmpl_setDataF (a : Arena) (i : Nat) (f : Option String → Option String) (j : Nat) :
    nodeTmpl (setDataF a i f) j = nodeTmpl a j := by
  unfold nodeTmpl setDataF
  rw [modifyNode_get]
  by_cases hij : j = i
  · subst hij; simp only [if_pos rfl]; cases a[j]? <;> rfl
  · simp [hij]

theorem nodeName_append {a : Arena} (ext : Arena) {i : Nat} (h : i < a.length) :
    nodeName (a ++ ext) i = nodeName a i := by
  unfold nodeName
  rw [List.getElem?_append, if_pos h]

theorem nodeChildren_append {a : Arena} (ext : Arena) {i : Nat} (h : i < a.length) :
    nodeChildren (a ++ ext) i = nodeChildren a i := by
  unfold nodeChildren
  rw [List.getElem?_append, if_pos h]

theorem nodeParent_append {a : Arena} (ext : Arena) {i : Nat} (h : i < a.length) :
    nodeParent (a ++ ext) i = nodeParent a i := by
  unfold nodeParent
  rw [List.getElem?_append, if_pos h]

theorem nodeData_append {a : Arena} (ext : Arena) {i : Nat} (h : i < a.length) :
    nodeData (a ++ ext) i = nodeData a i := by
  unfold nodeData
  rw [List.getElem?_append, if_pos h]

theorem nodeTmpl_append {a : Arena} (ext : Arena) {i : Nat} (h : i < a.length) :
    nodeTmpl (a ++ ext) i = nodeTmpl a i := by
  unfold nodeTmpl
  rw [List.getElem?_append, if_pos h]

/-- Adjacent entries of `l` are never two `#text` nodes. -/
def textAdjOk (a : Arena) (l : List Nat) : Prop :=
  List.Chain' (fun x y => ¬(nodeName a x = "#text" ∧ nodeName a y = "#text")) l

/-- The spec's §3 invariant: in every children list, no two adjacent
entries are both `#text`. -/
def NoAdjText (a : Arena) : Prop :=
  ∀ p < a.length, textAdjOk a (nodeChildren a p)

/-- Every children list mentions only allocated nodes. -/
def ClosedChildren (a : Arena) : Prop :=
  ∀ p < a.length, ∀ n ∈ nodeChildren a p, n < a.length

/-- Every template-content reference mentions an allocated node. -/
def ClosedTmpl (a : Arena) : Prop :=
  ∀ i < a.length, ∀ t, nodeTmpl a i = some t → t < a.length

instance (a : Arena) (l : List Nat) : Decidable (textAdjOk a l) :=
  inferInstanceAs (Decidable (List.Chain'
    (fun x y => ¬(nodeName a x = "#text" ∧ nodeName a y = "#text")) l))

instance (a : Arena) : Decidable (NoAdjText a) :=
  inferInstanceAs (Decidable (∀ p < a.length, textAdjOk a (nodeChildren a p)))

instance (a : Arena) : Decidable (ClosedChildren a) := by
  unfold ClosedChildren; infer_instance

instance (a : Arena) : Decidable (ClosedTmpl a) := by
  unfold ClosedTmpl
  have : ∀ i, Decidable (∀ t, nodeTmpl a i = some t → t < a.length) := by
    intro i
    cases h : nodeTmpl a i with
    | none => exact isTrue (fun t ht => by cases ht)
    | some t0 =>
      by_cases hlt : t0 < a.length
      · exact isTrue (fun t ht => by cases ht; exact hlt)
      · exact isFalse (fun hall => hlt (hall t0 rfl))
  infer_instance

/-- If two arenas agree on the names of the members of `l`, the
no-adjacent-text chain transfers. -/
theorem textAdjOk_congr {a a' : Arena} {l : List Nat}
    (hnm : ∀ x ∈ l, nodeName a' x = nodeName a x) (h : textAdjOk a l) :
    textAdjOk a' l := by
  induction l with
  | nil => exact List.chain'_nil
  | cons x t ih =>
    cases t with
    | nil => simp [textAdjOk]
    | cons y t2 =>
      rw [textAdjOk, List.chain'_cons] at h ⊢
      refine ⟨?_, ih (fun z hz => hnm z (List.mem_cons_of_mem x hz)) h.2⟩
      rw [hnm x (List.mem_cons_self _ _), hnm y (List.mem_cons_of_mem x (List.mem_cons_self _ _))]
      exact h.1

/-- Splicing `x` into a chain at `idx` keeps it a chain when `x` is
compatible with both the element before the splice point and the one at
it. -/
theorem chain'_insertSplice {R : Nat → Nat → Prop} {l : List Nat} {idx x : Nat}
    (hch : List.Chain' R l)
    (hleft : ∀ p ∈ (l.take idx).getLast?, R p x)
    (hright : ∀ q ∈ l[idx]?, R x q) :
    List.Chain' R (l.take idx ++ x :: l.drop idx) := by
  rw [List.chain'_append]
  refine ⟨hch.take idx, ?_, ?_⟩
  · rw [List.chain'_cons']
    refine ⟨fun y hy => ?_, hch.drop idx⟩
    rw [List.head?_drop] at hy
    exact hright y hy
  · intro p hp y hy
    simp only [List.head?_cons, Option.mem_def, Option.some.injEq] at hy
    subst hy
    exact hleft p hp

/-- Appending `x` to a chain keeps it a chain when `x` is compatible with
the last element. -/
theorem chain'_appendSingleton {R : Nat → Nat → Prop} {l : List Nat} {x : Nat}
    (hch : List.Chain' R l) (hlast : ∀ p ∈ l.getLast?, R p x) :
    List.Chain' R (l ++ [x]) := by
  have h := @chain'_insertSplice R l l.length x hch
    (by rwa [List.take_length]) (by simp)
  rwa [List.take_length, List.drop_length] at h

/-- A parented node's parent is allocated. -/
theorem parent_lt_of_onceOk {a : Arena} (hoo : OnceOk a) {n p : Nat}
    (hp : nodeParent a n = some p) : p < a.length := by
  by_contra hc
  have h1 := onceOk_count hoo hp
  rw [nodeChildren_out a (Nat.le_of_not_lt hc)] at h1
  cases h1

theorem setChildrenF_out {a : Arena} {i : Nat} (h : a.length ≤ i)
    (f : List Nat → List Nat) : setChildrenF a i f = a := by
  unfold setChildrenF modifyNode
  rw [List.getElem?_eq_none h]

/-- Extending the arena with fresh, childless, parentless records keeps the
back-link invariant. -/
theorem wf_append_ext {a ext : Arena} (hw : Wf a) (hc : ClosedChildren a)
    (hext : ∀ r ∈ ext, r.children = [] ∧ r.parent = none) : Wf (a ++ ext) := by
  have hch : ∀ j, a.length ≤ j → nodeChildren (a ++ ext) j = [] := by
    intro j hj
    unfold nodeChildren
    rw [List.getElem?_append_right hj]
    cases hje : ext[j - a.length]? with
    | none => rfl
    | some r =>
      have := (hext r (List.getElem?_mem hje)).1
      simp [this]
  have hpar : ∀ j, a.length ≤ j → nodeParent (a ++ ext) j = none := by
    intro j hj
    unfold nodeParent
    rw [List.getElem?_append_right hj]
    cases hje : ext[j - a.length]? with
    | none => rfl
    | some r =>
      have := (hext r (List.getElem?_mem hje)).2
      simp [this]
  constructor
  · intro p hp n hn
    by_cases hpa : p < a.length
    · rw [nodeChildren_append ext hpa] at hn
      have hna : n < a.length := hc p hpa n hn
      rw [nodeParent_append ext hna]
      exact hw.1 p hpa n hn
    · rw [hch p (Nat.le_of_not_lt hpa)] at hn
      cases hn
  · intro n hn p hp
    simp only [Option.mem_toList, Option.mem_def] at hp
    by_cases hna : n < a.length
    · rw [nodeParent_append ext hna] at hp
      have hpa : p < a.length := parent_lt_of_onceOk hw.2 hp
      rw [nodeChildren_append ext hpa]
      exact onceOk_count hw.2 hp
    · rw [hpar n (Nat.le_of_not_lt hna)] at hp
      cases hp

theorem closedChildren_append {a ext : Arena} (hc : ClosedChildren a)
    (hext : ∀ r ∈ ext, r.children = []) : ClosedChildren (a ++ ext) := by
  intro p hp n hn
  by_cases hpa : p < a.length
  · rw [nodeChildren_append ext hpa] at hn
    have := hc p hpa n hn
    simp only [List.length_append]
    omega
  · unfold nodeChildren at hn
    rw [List.getElem?_append_right (Nat.le_of_not_lt hpa)] at hn
    cases hje : ext[p - a.length]? with
    | none => rw [hje] at hn; cases hn
    | some r =>
      rw [hje] at hn
      simp only [Option.map_some', Option.getD_some] at hn
      rw [hext r (List.getElem?_mem hje)] at hn
      cases hn

theorem noAdjText_append {a ext : Arena} (hadj : NoAdjText a)
    (hc : ClosedChildren a) (hext : ∀ r ∈ ext, r.children = []) :
    NoAdjText (a ++ ext) := by
  intro p hp
  by_cases hpa : p < a.length
  · rw [nodeChildren_append ext hpa]
    exact textAdjOk_congr
      (fun x hx => nodeName_append ext (hc p hpa x hx)) (hadj p hpa)
  · unfold nodeChildren
    rw [List.getElem?_append_right (Nat.le_of_not_lt hpa)]
    cases hje : ext[p - a.length]? with
    | none => exact List.chain'_nil
    | some r =>
      simp only [Option.map_some', Option.getD_some, hext r (List.getElem?_mem hje)]
      exact List.chain'_nil

/-- Well-formedness of the builder state threaded through the insertion
helpers: tree invariant, closed references, allocated stack members, no
`#text` formatting entries, allocated document. -/
def StOk (st : Builder) : Prop :=
  Wf st.arena ∧ ClosedChildren st.arena ∧ ClosedTmpl st.arena ∧
  (∀ x ∈ st.openElements, x < st.arena.length) ∧
  (∀ e : AFEntry, AFItem.entry e ∈ st.activeFormatting → e.name ≠ "#text") ∧
  st.document < st.arena.length

theorem createNode_snd (a : Arena) (name : String) (attrs : List (String × String))
    (dat : Option String) (nsArg : Option String) :
    (createNode a name attrs dat nsArg).2 = a.length := by
  unfold createNode
  dsimp only
  split <;> rfl

theorem createNode_exists_ext (a : Arena) (name : String)
    (attrs : List (String × String)) (dat : Option String) (nsArg : Option String) :
    ∃ ext : Arena, (createNode a name attrs dat nsArg).1 = a ++ ext ∧
      0 < ext.length ∧ (∀ r ∈ ext, r.children = [] ∧ r.parent = none) ∧
      (∀ r ∈ ext, ∀ t, r.tmplContent = some t → t < a.length + ext.length) ∧
      nodeName (a ++ ext) a.length = name := by
  unfold createNode
  dsimp only
  split
  · refine ⟨_, rfl, by simp, by simp, ?_, ?_⟩
    · intro r hr t htm
      simp only [List.mem_cons, List.mem_singleton] at hr
      rcases hr with hr | hr | hr
      · subst hr
        simp only at htm
        cases htm
        simp
      · subst hr
        cases htm
      · cases hr
    · unfold nodeName
      rw [List.getElem?_append_right (Nat.le_refl _)]
      simp
  · refine ⟨_, rfl, by simp, by simp, ?_, ?_⟩
    · intro r hr t htm
      simp only [List.mem_singleton] at hr
      subst hr
      cases htm
    · unfold nodeName
      rw [List.getElem?_append_right (Nat.le_refl _)]
      simp

theorem closedTmpl_append_ext {a ext : Arena} (ht : ClosedTmpl a)
    (hexttm : ∀ r ∈ ext, ∀ t, r.tmplContent = some t → t < a.length + ext.length) :
    ClosedTmpl (a ++ ext) := by
  intro i hi t htm
  simp only [List.length_append]
  by_cases hia : i < a.length
  · rw [nodeTmpl_append ext hia] at htm
    have := ht i hia t htm
    omega
  · unfold nodeTmpl at htm
    rw [List.getElem?_append_right (Nat.le_of_not_lt hia)] at htm
    cases hje : ext[i - a.length]? with
    | none => rw [hje] at htm; cases htm
    | some r =>
      rw [hje] at htm
      exact hexttm r (List.getElem?_mem hje) t htm

/-- All the state invariants survive a `new Node(...)` allocation, the old
projections are untouched, and the fresh node is a detached leaf. -/
theorem createNode_preserves {a : Arena} (name : String)
    (attrs : List (String × String)) (dat : Option String) (nsArg : Option String)
    (hw : Wf a) (hc : ClosedChildren a) (ht : ClosedTmpl a) (hadj : NoAdjText a) :
    Wf (createNode a name attrs dat nsArg).1 ∧
    ClosedChildren (createNode a name attrs dat nsArg).1 ∧
    ClosedTmpl (createNode a name attrs dat nsArg).1 ∧
    NoAdjText (createNode a name attrs dat nsArg).1 ∧
    a.length < (createNode a name attrs dat nsArg).1.length ∧
    (∀ i < a.length,
      nodeName (createNode a name attrs dat nsArg).1 i = nodeName a i ∧
      nodeChildren (createNode a name attrs dat nsArg).1 i = nodeChildren a i ∧
      nodeParent (createNode a name attrs dat nsArg).1 i = nodeParent a i ∧
      nodeTmpl (createNode a name attrs dat nsArg).1 i = nodeTmpl a i) ∧
    nodeName (createNode a name attrs dat nsArg).1 a.length = name ∧
    nodeParent (createNode a name attrs dat nsArg).1 a.length = none ∧
    nodeChildren (createNode a name attrs dat nsArg).1 a.length = [] := by
  obtain ⟨ext, heq, hpos, hext, hexttm, hname⟩ :=
    createNode_exists_ext a name attrs dat nsArg
  rw [heq]
  have hr0 : ∃ r0, ext[0]? = some r0 := by
    cases hx : ext[0]? with
    | none =>
      rw [List.getElem?_eq_none_iff] at hx
      omega
    | some r0 => exact ⟨r0, rfl⟩
  obtain ⟨r0, hr0⟩ := hr0
  have hmem0 : r0 ∈ ext := List.getElem?_mem hr0
  refine ⟨wf_append_ext hw hc hext,
    closedChildren_append hc (fun r hr => (hext r hr).1),
    closedTmpl_append_ext ht hexttm,
    noAdjText_append hadj hc (fun r hr => (hext r hr).1),
    by simp only [List.length_append]; omega,
    fun i hi => ⟨nodeName_append ext hi, nodeChildren_append ext hi,
      nodeParent_append ext hi, nodeTmpl_append ext hi⟩,
    hname, ?_, ?_⟩
  · unfold nodeParent
    rw [List.getElem?_append_right (Nat.le_refl _), Nat.sub_self, hr0]
    simp [(hext r0 hmem0).2]
  · unfold nodeChildren
    rw [List.getElem?_append_right (Nat.le_refl _), Nat.sub_self, hr0]
    simp [(hext r0 hmem0).1]

theorem appendChild_length (a : Arena) (p c : Nat) :
    (appendChild a p c).length = a.length := by
  unfold appendChild
  rw [setParent_length, setChildrenF_length]

theorem nodeName_appendChild (a : Arena) (p c x : Nat) :
    nodeName (appendChild a p c) x = nodeName a x := by
  unfold appendChild
  rw [nodeName_setParent, nodeName_setChildrenF]

theorem nodeTmpl_appendChild (a : Arena) (p c x : Nat) :
    nodeTmpl (appendChild a p c) x = nodeTmpl a x := by
  unfold appendChild
  rw [nodeTmpl_setParent, nodeTmpl_setChildrenF]

theorem nodeChildren_appendChild (a : Arena) (p c q : Nat) :
    nodeChildren (appendChild a p c) q =
      if q = p ∧ p < a.length then nodeChildren a q ++ [c]
      else nodeChildren a q := by
  unfold appendChild
  rw [nodeChildren_setParent]
  by_cases hqp : q = p
  · subst hqp
    by_cases hpl : q < a.length
    · rw [nodeChildren_setChildrenF_self hpl, if_pos ⟨rfl, hpl⟩]
    · rw [setChildrenF_out (Nat.le_of_not_lt hpl), if_neg (fun hh => hpl hh.2)]
  · rw [nodeChildren_setChildrenF_other hqp, if_neg (fun hh => hqp hh.1)]

theorem closedChildren_appendChild {a : Arena} {p c : Nat}
    (hc : ClosedChildren a) (hcl : c < a.length) :
    ClosedChildren (appendChild a p c) := by
  intro q hq n hn
  rw [appendChild_length] at hq ⊢
  rw [nodeChildren_appendChild] at hn
  split at hn
  · rcases List.mem_append.mp hn with hn | hn
    · exact hc q hq n hn
    · simp only [List.mem_singleton] at hn
      subst hn
      exact hcl
  · exact hc q hq n hn

theorem closedTmpl_appendChild {a : Arena} {p c : Nat} (ht : ClosedTmpl a) :
    ClosedTmpl (appendChild a p c) := by
  intro i hi t htm
  rw [appendChild_length] at hi ⊢
  rw [nodeTmpl_appendChild] at htm
  exact ht i hi t htm

theorem noAdjText_appendChild {a : Arena} {parent node : Nat}
    (hadj : NoAdjText a)
    (hcond : ∀ lastC ∈ (nodeChildren a parent).getLast?,
      ¬(nodeName a lastC = "#text" ∧ nodeName a node = "#text")) :
    NoAdjText (appendChild a parent node) := by
  intro q hq
  rw [appendChild_length] at hq
  have hnames : ∀ x, nodeName (appendChild a parent node) x = nodeName a x :=
    fun x => nodeName_appendChild a parent node x
  rw [show nodeChildren (appendChild a parent node) q =
      (if q = parent ∧ parent < a.length then nodeChildren a q ++ [node]
       else nodeChildren a q) from nodeChildren_appendChild a parent node q]
  by_cases hqp : q = parent ∧ parent < a.length
  · obtain ⟨rfl, hpl⟩ := hqp
    rw [if_pos ⟨rfl, hpl⟩]
    exact textAdjOk_congr (fun x _ => hnames x)
      (chain'_appendSingleton (hadj q hq) (fun p hp => hcond p hp))
  · rw [if_neg hqp]
    exact textAdjOk_congr (fun x _ => hnames x) (hadj q hq)

theorem insertBefore_ref_eq {a : Arena} {p c r : Nat}
    (hm : r ∈ nodeChildren a p) :
    insertBefore a p c (some r) = some (setParent (setChildrenF a p
      (fun l => l.take ((nodeChildren a p).indexOf r) ++
        c :: l.drop ((nodeChildren a p).indexOf r))) c (some p)) := by
  have hdef : insertBefore a p c (some r) =
      (if r ∈ nodeChildren a p then
        some (setParent (setChildrenF a p
          (fun l => l.take ((nodeChildren a p).indexOf r) ++
            c :: l.drop ((nodeChildren a p).indexOf r))) c (some p))
      else none) := rfl
  rw [hdef, if_pos hm]

theorem insertBefore_ref_miss {a : Arena} {p c r : Nat}
    (hm : r ∉ nodeChildren a p) : insertBefore a p c (some r) = none := by
  have hdef : insertBefore a p c (some r) =
      (if r ∈ nodeChildren a p then
        some (setParent (setChildrenF a p
          (fun l => l.take ((nodeChildren a p).indexOf r) ++
            c :: l.drop ((nodeChildren a p).indexOf r))) c (some p))
      else none) := rfl
  rw [hdef, if_neg hm]

theorem insertBefore_length {a a' : Arena} {p c : Nat} {ref : Option Nat}
    (h : insertBefore a p c ref = some a') : a'.length = a.length := by
  cases ref with
  | none =>
    cases h
    exact appendChild_length a p c
  | some r =>
    by_cases hm : r ∈ nodeChildren a p
    · rw [insertBefore_ref_eq hm] at h
      cases h
      rw [setParent_length, setChildrenF_length]
    · rw [insertBefore_ref_miss hm] at h
      cases h

theorem nodeName_insertBefore {a a' : Arena} {p c : Nat} {ref : Option Nat}
    (h : insertBefore a p c ref = some a') (x : Nat) :
    nodeName a' x = nodeName a x := by
  cases ref with
  | none =>
    cases h
    exact nodeName_appendChild a p c x
  | some r =>
    by_cases hm : r ∈ nodeChildren a p
    · rw [insertBefore_ref_eq hm] at h
      cases h
      rw [nodeName_setParent, nodeName_setChildrenF]
    · rw [insertBefore_ref_miss hm] at h
      cases h

theorem nodeTmpl_insertBefore {a a' : Arena} {p c : Nat} {ref : Option Nat}
    (h : insertBefore a p c ref = some a') (x : Nat) :
    nodeTmpl a' x = nodeTmpl a x := by
  cases ref with
  | none =>
    cases h
    exact nodeTmpl_appendChild a p c x
  | some r =>
    by_cases hm : r ∈ nodeChildren a p
    · rw [insertBefore_ref_eq hm] at h
      cases h
      rw [nodeTmpl_setParent, nodeTmpl_setChildrenF]
    · rw [insertBefore_ref_miss hm] at h
      cases h

theorem nodeChildren_insertBefore_ref {a a' : Arena} {p c r : Nat}
    (hm : r ∈ nodeChildren a p) (hpl : p < a.length)
    (h : insertBefore a p c (some r) = some a') (q : Nat) :
    nodeChildren a' q =
      if q = p then
        (nodeChildren a p).take ((nodeChildren a p).indexOf r) ++
          c :: (nodeChildren a p).drop ((nodeChildren a p).indexOf r)
      else nodeChildren a q := by
  rw [insertBefore_ref_eq hm] at h
  cases h
  rw [nodeChildren_setParent]
  by_cases hqp : q = p
  · subst hqp
    rw [nodeChildren_setChildrenF_self hpl, if_pos rfl]
  · rw [nodeChildren_setChildrenF_other hqp, if_neg hqp]

theorem closedChildren_insertBefore {a a' : Arena} {p c : Nat} {ref : Option Nat}
    (hc : ClosedChildren a) (hcl : c < a.length)
    (h : insertBefore a p c ref = some a') : ClosedChildren a' := by
  cases ref with
  | none =>
    cases h
    exact closedChildren_appendChild hc hcl
  | some r =>
    by_cases hm : r ∈ nodeChildren a p
    · have hpl : p < a.length := by
        by_contra hpc
        rw [nodeChildren_out a (Nat.le_of_not_lt hpc)] at hm
        cases hm
      intro q hq n hn
      rw [insertBefore_length h] at hq ⊢
      rw [nodeChildren_insertBefore_ref hm hpl h] at hn
      split at hn
      · rcases mem_insertSplice.mp hn with hn | hn
        · subst hn; exact hcl
        · exact hc p hpl n hn
      · exact hc q hq n hn
    · rw [insertBefore_ref_miss hm] at h
      cases h

theorem closedTmpl_insertBefore {a a' : Arena} {p c : Nat} {ref : Option Nat}
    (ht : ClosedTmpl a) (h : insertBefore a p c ref = some a') :
    ClosedTmpl a' := by
  intro i hi t htm
  rw [insertBefore_length h] at hi ⊢
  rw [nodeTmpl_insertBefore h] at htm
  exact ht i hi t htm

theorem noAdjText_insertBefore_ref {a a' : Arena} {parent node r : Nat}
    (hadj : NoAdjText a)
    (h : insertBefore a parent node (some r) = some a')
    (hleft : ∀ p ∈ ((nodeChildren a parent).take
        ((nodeChildren a parent).indexOf r)).getLast?,
      ¬(nodeName a p = "#text" ∧ nodeName a node = "#text"))
    (hright : ∀ q ∈ (nodeChildren a parent)[(nodeChildren a parent).indexOf r]?,
      ¬(nodeName a node = "#text" ∧ nodeName a q = "#text")) :
    NoAdjText a' := by
  by_cases hm : r ∈ nodeChildren a parent
  swap
  · rw [insertBefore_ref_miss hm] at h
    cases h
  have hpl : parent < a.length := by
    by_contra hpc
    rw [nodeChildren_out a (Nat.le_of_not_lt hpc)] at hm
    cases hm
  intro q hq
  rw [insertBefore_length h] at hq
  have hnames : ∀ x, nodeName a' x = nodeName a x := nodeName_insertBefore h
  rw [nodeChildren_insertBefore_ref hm hpl h]
  split
  · exact textAdjOk_congr (fun x _ => hnames x)
      (chain'_insertSplice (hadj parent hpl) hleft hright)
  · exact textAdjOk_congr (fun x _ => hnames x) (hadj q hq)

theorem findLastOnStack_spec {st : Builder} {name : String} {i : Nat}
    (h : findLastOnStack st name = some i) :
    i ∈ st.openElements ∧ nodeName st.arena i = name := by
  unfold findLastOnStack at h
  have hmem := List.mem_of_find?_eq_some h
  have hp := List.find?_some h
  refine ⟨List.mem_reverse.mp hmem, ?_⟩
  simpa using hp

theorem currentNodeOrHtml_valid {st : Builder} (hstk : ∀ x ∈ st.openElements, x < st.arena.length)
    (hc : ClosedChildren st.arena) (hdoc : st.document < st.arena.length)
    {t : Nat} (h : currentNodeOrHtml st = some t) : t < st.arena.length := by
  unfold currentNodeOrHtml at h
  cases htop : st.openElements.getLast? with
  | some top =>
    rw [htop] at h
    cases h
    exact hstk t (List.mem_of_mem_getLast? htop)
  | none =>
    rw [htop] at h
    cases hfind : (nodeChildren st.arena st.document).find?
        (fun c => nodeName st.arena c = "html") with
    | some html =>
      rw [hfind] at h
      cases h
      exact hc st.document hdoc t (List.mem_of_find?_eq_some hfind)
    | none =>
      rw [hfind] at h
      cases hhead : (nodeChildren st.arena st.document).head? with
      | none => rw [hhead] at h; cases h
      | some c0 =>
        rw [hhead] at h
        cases h
        exact hc st.document hdoc t (List.mem_of_mem_head? hhead)

/-- What the appropriate insertion location can return: an allocated parent,
and a position that is either the end of its children or the slot of a
`table` child. -/
theorem appropriateInsertionLocation_valid {st : Builder} {foster : Bool}
    {par pos : Nat}
    (hw : Wf st.arena) (hc : ClosedChildren st.arena) (ht : ClosedTmpl st.arena)
    (hstk : ∀ x ∈ st.openElements, x < st.arena.length)
    (hdoc : st.document < st.arena.length)
    (h : appropriateInsertionLocation st none foster = .ok (par, pos)) :
    par < st.arena.length ∧
    (pos = (nodeChildren st.arena par).length ∨
      ((nodeChildren st.arena par)[pos]?.isSome ∧
        ∀ tbl ∈ (nodeChildren st.arena par)[pos]?,
          nodeName st.arena tbl = "table")) := by
  have hloc_tbl : ∀ target : Nat, target < st.arena.length →
      (match findLastOnStack st "table" with
        | none => (Except.ok (target, (nodeChildren st.arena target).length) :
            Except JsErr (Nat × Nat))
        | some tbl =>
          match nodeParent st.arena tbl with
          | none => Except.ok (target, (nodeChildren st.arena target).length)
          | some p2 => Except.ok (p2, (nodeChildren st.arena p2).indexOf tbl)) =
        .ok (par, pos) →
      par < st.arena.length ∧
      (pos = (nodeChildren st.arena par).length ∨
        ((nodeChildren st.arena par)[pos]?.isSome ∧
          ∀ tbl ∈ (nodeChildren st.arena par)[pos]?,
            nodeName st.arena tbl = "table")) := by
    intro target htv hok
    cases htbl : findLastOnStack st "table" with
    | none =>
      simp only [htbl] at hok
      cases hok
      exact ⟨htv, Or.inl rfl⟩
    | some tbl =>
      simp only [htbl] at hok
      obtain ⟨htbl_mem, htbl_name⟩ := findLastOnStack_spec htbl
      cases hpar : nodeParent st.arena tbl with
      | none =>
        simp only [hpar] at hok
        cases hok
        exact ⟨htv, Or.inl rfl⟩
      | some p2 =>
        simp only [hpar] at hok
        have hpe : p2 = par ∧ (nodeChildren st.arena p2).indexOf tbl = pos := by
          simpa using hok
        obtain ⟨he1, he2⟩ := hpe
        subst he1
        subst he2
        have hp2 : p2 < st.arena.length := parent_lt_of_onceOk hw.2 hpar
        have hmem : tbl ∈ nodeChildren st.arena p2 := by
          have := onceOk_count hw.2 hpar
          exact List.count_pos_iff.mp (by omega)
        have hlt : (nodeChildren st.arena p2).indexOf tbl <
            (nodeChildren st.arena p2).length := List.indexOf_lt_length.mpr hmem
        refine ⟨hp2, Or.inr ⟨?_, ?_⟩⟩
        · rw [List.getElem?_eq_getElem hlt]
          rfl
        · intro x hx
          rw [List.getElem?_eq_getElem hlt, List.getElem_indexOf hlt] at hx
          simp only [Option.mem_def, Option.some.injEq] at hx
          subst hx
          exact htbl_name
  unfold appropriateInsertionLocation at h
  dsimp only at h
  cases htgt : currentNodeOrHtml st with
  | none =>
    simp only [htgt] at h
    exact Except.noConfusion h
  | some target =>
    simp only [htgt] at h
    have htv : target < st.arena.length :=
      currentNodeOrHtml_valid hstk hc hdoc htgt
    by_cases hfost : foster = true ∧
        TABLE_FOSTER_TARGETS.contains (nodeName st.arena target) = true
    · rw [if_pos hfost] at h
      cases htpl : findLastOnStack st "template" with
      | some tpl =>
        simp only [htpl] at h
        obtain ⟨htpl_mem, htpl_name⟩ := findLastOnStack_spec htpl
        split at h
        · cases htc : nodeTmpl st.arena tpl with
          | none =>
            simp only [htc] at h
            exact Except.noConfusion h
          | some tc =>
            simp only [htc] at h
            have hpe : tc = par ∧ (nodeChildren st.arena tc).length = pos := by
              simpa using h
            obtain ⟨he1, he2⟩ := hpe
            subst he1
            subst he2
            exact ⟨ht tpl (hstk tpl htpl_mem) tc htc, Or.inl rfl⟩
        · exact hloc_tbl target htv h
      | none =>
        simp only [htpl] at h
        exact hloc_tbl target htv h
    · rw [if_neg hfost] at h
      by_cases htmpl : isTemplateNode st.arena target = true
      · rw [if_pos htmpl] at h
        cases htc : nodeTmpl st.arena target with
        | none =>
          simp only [htc] at h
          exact Except.noConfusion h
        | some tc =>
          simp only [htc] at h
          have hpe : tc = par ∧ (nodeChildren st.arena tc).length = pos := by
            simpa using h
          obtain ⟨he1, he2⟩ := hpe
          subst he1
          subst he2
          exact ⟨ht target htv tc htc, Or.inl rfl⟩
      · rw [if_neg htmpl] at h
        cases h
        exact ⟨htv, Or.inl rfl⟩

theorem insertNodeAt_ok_shape {a : Arena} {parent pos node : Nat} {a' : Arena}
    (h : insertNodeAt a parent pos node = .ok a') :
    insertBefore a parent node (nodeChildren a parent)[pos]? = some a' := by
  unfold insertNodeAt at h
  dsimp only at h
  cases hins : insertBefore a parent node (nodeChildren a parent)[pos]? with
  | none =>
    simp only [hins] at h
    exact Except.noConfusion h
  | some a2 =>
    simp only [hins] at h
    have ha2 : a2 = a' := by simpa using h
    rw [ha2]

/-- `_insert_element` keeps every state invariant and the no-adjacent-text
property when the inserted tag is not a text node. -/
theorem insertElement_preserves {st st' : Builder} {tag : TagTok} {push : Bool}
    {ns : String} {node : Nat}
    (hOk : StOk st) (hadj : NoAdjText st.arena) (hname : tag.name ≠ "#text")
    (h : insertElement st tag push ns = .ok (st', node)) :
    StOk st' ∧ NoAdjText st'.arena ∧
    st'.activeFormatting = st.activeFormatting ∧
    st.arena.length ≤ st'.arena.length := by
  obtain ⟨hw, hc, ht, hstk, haf, hdoc⟩ := hOk
  obtain ⟨hw1, hc1, ht1, hadj1, hlen1, hold, hnmnew, hparnew, hchnew⟩ :=
    createNode_preserves tag.name tag.attrs none (some ns) hw hc ht hadj
  unfold insertElement at h
  dsimp only at h
  set a1 := (createNode st.arena tag.name tag.attrs none (some ns)).1 with ha1
  set node0 := (createNode st.arena tag.name tag.attrs none (some ns)).2 with hnode0
  have hnode0_eq : node0 = st.arena.length :=
    createNode_snd st.arena tag.name tag.attrs none (some ns)
  have hnode0_lt : node0 < a1.length := by rw [hnode0_eq]; exact hlen1
  have hnode0_par : nodeParent a1 node0 = none := by rw [hnode0_eq]; exact hparnew
  have hnode0_nm : nodeName a1 node0 = tag.name := by rw [hnode0_eq]; exact hnmnew
  set st1 : Builder := { st with arena := a1 } with hst1
  have hstk1 : ∀ x ∈ st1.openElements, x < st1.arena.length := fun x hx =>
    lt_of_lt_of_le (hstk x hx) (le_of_lt hlen1)
  have hdoc1 : st1.document < st1.arena.length := lt_of_lt_of_le hdoc (le_of_lt hlen1)
  cases hift : st.insertFromTable with
  | false =>
    rw [hift] at h
    simp only [Bool.not_false, eq_self_iff_true, if_true] at h
    cases htgt : currentNodeOrHtml st1 with
    | none =>
      simp only [htgt] at h
      exact Except.noConfusion h
    | some target =>
      simp only [htgt] at h
      have htv : target < a1.length :=
        currentNodeOrHtml_valid hstk1 hc1 hdoc1 htgt
      simp only [Except.ok.injEq, Prod.mk.injEq] at h
      obtain ⟨hst', hnd⟩ := h
      subst hst'
      subst hnd
      have hparent_lt : (if isTemplateNode a1 target then
          (nodeTmpl a1 target).getD target else target) < a1.length := by
        by_cases htm : isTemplateNode a1 target = true
        · rw [if_pos htm]
          unfold isTemplateNode at htm
          have h2 := (Bool.and_eq_true _ _).mp htm |>.2
          cases htc : nodeTmpl a1 target with
          | none => rw [htc] at h2; cases h2
          | some tc =>
            rw [Option.getD_some]
            exact ht1 target htv tc htc
        · rw [if_neg htm]
          exact htv
      refine ⟨⟨wf_appendChild ⟨hw1.1, hw1.2⟩ hparent_lt hnode0_lt hnode0_par,
        closedChildren_appendChild hc1 hnode0_lt,
        closedTmpl_appendChild ht1, ?_, haf, ?_⟩, ?_, rfl, ?_⟩
      · intro x hx
        simp only [appendChild_length]
        by_cases hpush : push = true
        · rw [if_pos hpush] at hx
          rcases List.mem_append.mp hx with hx | hx
          · exact lt_of_lt_of_le (hstk x hx) (le_of_lt hlen1)
          · simp only [List.mem_singleton] at hx
            subst hx
            exact hnode0_lt
        · rw [if_neg hpush] at hx
          exact lt_of_lt_of_le (hstk x hx) (le_of_lt hlen1)
      · simp only [appendChild_length]
        exact hdoc1
      · exact noAdjText_appendChild hadj1
          (fun lastC _ hboth => hname (by rw [← hnode0_nm]; exact hboth.2))
      · simp only [appendChild_length]
        exact le_of_lt hlen1
  | true =>
    rw [hift] at h
    simp only [Bool.not_true, Bool.false_eq_true, if_false] at h
    cases hfost : shouldFosterParenting st1 (currentNodeOrHtml st1)
        (some tag.name) false with
    | error e =>
      simp only [hfost] at h
      exact Except.noConfusion h
    | ok foster =>
      simp only [hfost] at h
      cases hloc : appropriateInsertionLocation st1 none foster with
      | error e =>
        simp only [hloc] at h
        exact Except.noConfusion h
      | ok loc =>
        simp only [hloc] at h
        cases hia : insertNodeAt a1 loc.1 loc.2 node0 with
        | error e =>
          simp only [hia] at h
          exact Except.noConfusion h
        | ok a2 =>
          simp only [hia] at h
          simp only [Except.ok.injEq, Prod.mk.injEq] at h
          obtain ⟨hst', hnd⟩ := h
          subst hst'
          subst hnd
          have hins := insertNodeAt_ok_shape hia
          have hlen2 : a2.length = a1.length := insertBefore_length hins
          obtain ⟨hpl, hposk⟩ := @appropriateInsertionLocation_valid st1 _ _ _
            hw1 hc1 ht1 hstk1 hdoc1
            (by rw [hloc])
          refine ⟨⟨?_, closedChildren_insertBefore hc1 hnode0_lt hins, ?_, ?_, haf, ?_⟩,
            ?_, rfl, ?_⟩
          · cases hrf : (nodeChildren a1 loc.1)[loc.2]? with
            | none =>
              rw [hrf] at hins
              exact wf_insertBefore ⟨hw1.1, hw1.2⟩ hpl hnode0_lt hnode0_par hins
            | some r =>
              rw [hrf] at hins
              exact wf_insertBefore ⟨hw1.1, hw1.2⟩ hpl hnode0_lt hnode0_par hins
          · exact closedTmpl_insertBefore ht1 hins
          · intro x hx
            rw [hlen2]
            by_cases hpush : push = true
            · rw [if_pos hpush] at hx
              rcases List.mem_append.mp hx with hx | hx
              · exact lt_of_lt_of_le (hstk x hx) (le_of_lt hlen1)
              · simp only [List.mem_singleton] at hx
                subst hx
                exact hnode0_lt
            · rw [if_neg hpush] at hx
              exact lt_of_lt_of_le (hstk x hx) (le_of_lt hlen1)
          · rw [hlen2]
            exact hdoc1
          · cases hrf : (nodeChildren a1 loc.1)[loc.2]? with
            | none =>
              rw [hrf] at hins
              cases hins
              exact noAdjText_appendChild hadj1
                (fun lastC _ hboth => hname (by rw [← hnode0_nm]; exact hboth.2))
            | some r =>
              rw [hrf] at hins
              exact noAdjText_insertBefore_ref hadj1 hins
                (fun p _ hboth => hname (by rw [← hnode0_nm]; exact hboth.2))
                (fun q _ hboth => hname (by rw [← hnode0_nm]; exact hboth.1))
          · rw [hlen2]
            exact le_of_lt hlen1

theorem reconstructLoop_preserves (fuel : Nat) :
    ∀ (st st' : Builder) (index : Nat),
    StOk st → NoAdjText st.arena →
    reconstructLoop fuel st index = .ok st' →
    StOk st' ∧ NoAdjText st'.arena := by
  induction fuel with
  | zero =>
    intro st st' index hOk hadj h
    unfold reconstructLoop at h
    split at h
    · exact Except.noConfusion h
    · cases h
      exact ⟨hOk, hadj⟩
  | succ fuel ih =>
    intro st st' index hOk hadj h
    unfold reconstructLoop at h
    cases haf : st.activeFormatting[index]? with
    | none =>
      simp only [haf] at h
      cases h
      exact ⟨hOk, hadj⟩
    | some item =>
      cases item with
      | marker =>
        simp only [haf] at h
        exact ih st st' (index + 1) hOk hadj h
      | entry e =>
        simp only [haf] at h
        cases hins : insertElement st ⟨0, e.name, e.attrs, false⟩ true "html" with
        | error er =>
          simp only [hins] at h
          exact Except.noConfusion h
        | ok pr =>
          obtain ⟨st1, node⟩ := pr
          simp only [hins] at h
          have hname : e.name ≠ "#text" :=
            hOk.2.2.2.2.1 e (List.getElem?_mem haf)
          obtain ⟨hOk1, hadj1, hafeq, _⟩ :=
            insertElement_preserves hOk hadj hname hins
          refine ih { st1 with activeFormatting :=
              st1.activeFormatting.set index (.entry { e with node := node }) }
            st' (index + 1) ⟨hOk1.1, hOk1.2.1, hOk1.2.2.1, hOk1.2.2.2.1,
            ?_, hOk1.2.2.2.2.2⟩ hadj1 h
          intro e' he'
          rcases List.mem_or_eq_of_mem_set he' with he' | he'
          · rw [hafeq] at he'
            exact hOk.2.2.2.2.1 e' he'
          · cases he'
            exact hname

theorem reconstructActiveFormatting_preserves {st st' : Builder}
    (hOk : StOk st) (hadj : NoAdjText st.arena)
    (h : reconstructActiveFormatting st = .ok st') :
    StOk st' ∧ NoAdjText st'.arena := by
  unfold reconstructActiveFormatting at h
  cases hlast : st.activeFormatting.getLast? with
  | none =>
    simp only [hlast] at h
    cases h
    exact ⟨hOk, hadj⟩
  | some item =>
    cases item with
    | marker =>
      simp only [hlast] at h
      cases h
      exact ⟨hOk, hadj⟩
    | entry e =>
      simp only [hlast] at h
      by_cases hmem : st.openElements.contains e.node = true
      · rw [if_pos hmem] at h
        cases h
        exact ⟨hOk, hadj⟩
      · rw [if_neg hmem] at h
        exact reconstructLoop_preserves _ st st' _ hOk hadj h

/-- Pure data updates change no tree structure. -/
theorem setDataF_preserves {a : Arena} (i : Nat) (f : Option String → Option String)
    (hw : Wf a) (hc : ClosedChildren a) (ht : ClosedTmpl a) (hadj : NoAdjText a) :
    Wf (setDataF a i f) ∧ ClosedChildren (setDataF a i f) ∧
    ClosedTmpl (setDataF a i f) ∧ NoAdjText (setDataF a i f) := by
  have hlen := setDataF_length a i f
  refine ⟨⟨?_, ?_⟩, ?_, ?_, ?_⟩
  · intro p hp n hn
    rw [hlen] at hp
    rw [nodeChildren_setDataF] at hn
    rw [nodeParent_setDataF]
    exact hw.1 p hp n hn
  · intro n hn p hp
    rw [hlen] at hn
    rw [nodeParent_setDataF] at hp
    rw [nodeChildren_setDataF]
    exact hw.2 n hn p hp
  · intro p hp n hn
    rw [hlen] at hp ⊢
    rw [nodeChildren_setDataF] at hn
    exact hc p hp n hn
  · intro j hj t htm
    rw [hlen] at hj ⊢
    rw [nodeTmpl_setDataF] at htm
    exact ht j hj t htm
  · intro p hp
    rw [hlen] at hp
    rw [nodeChildren_setDataF]
    exact textAdjOk_congr (fun x _ => nodeName_setDataF a i f x) (hadj p hp)

/-! ## Text insertion (C2) -/

theorem getLast?_take_pos {α : Type} {l : List α} {n : Nat}
    (h0 : 0 < n) (hle : n ≤ l.length) : (l.take n).getLast? = l[n - 1]? := by
  rw [List.getLast?_eq_getElem?, List.length_take]
  have hm : min n l.length = n := Nat.min_eq_left hle
  rw [hm]
  exact List.getElem?_take_of_lt (by omega)

theorem indexOf_eq_of_count_one {l : List Nat} {x : Nat} {i : Nat}
    (hi : i < l.length) (hx : l[i] = x) (hc : l.count x = 1) :
    l.indexOf x = i := by
  have hmem : x ∈ l := hx ▸ List.getElem_mem hi
  have hj : l.indexOf x < l.length := List.indexOf_lt_length.2 hmem
  have hjx : l[l.indexOf x] = x := List.getElem_indexOf hj
  by_contra hne
  have hdup : l.Duplicate x := by
    rw [List.duplicate_iff_exists_distinct_get]
    rcases Nat.lt_or_ge (l.indexOf x) i with hlt | hge
    · exact ⟨⟨l.indexOf x, hj⟩, ⟨i, hi⟩, hlt, by simp [hjx], by simp [hx]⟩
    · have hlt2 : i < l.indexOf x := by omega
      exact ⟨⟨i, hi⟩, ⟨l.indexOf x, hj⟩, hlt2, by simp [hx], by simp [hjx]⟩
  have := List.duplicate_iff_two_le_count.1 hdup
  omega

theorem nodeData_setDataF_self {a : Arena} {i : Nat} (hi : i < a.length)
    (f : Option String → Option String) :
    nodeData (setDataF a i f) i = f (nodeData a i) := by
  unfold nodeData setDataF
  rw [modifyNode_get, if_pos rfl]
  cases h : a[i]? with
  | none =>
    rw [List.getElem?_eq_none_iff] at h
    omega
  | some r => rfl

/-- Inserting a fresh `#text` node at a valid location whose left neighbour
(when any) is not `#text` and whose occupant (when any) is a `table` keeps
the no-adjacent-text invariant. -/
theorem noAdjText_insert_text_at {a0 : Arena} {text : String} {par pos : Nat}
    {a' : Arena}
    (hw : Wf a0) (hc : ClosedChildren a0) (ht : ClosedTmpl a0)
    (hadj : NoAdjText a0) (hpar : par < a0.length)
    (hposk : pos = (nodeChildren a0 par).length ∨
      ((nodeChildren a0 par)[pos]?.isSome ∧
        ∀ tbl ∈ (nodeChildren a0 par)[pos]?, nodeName a0 tbl = "table"))
    (hprev : ∀ prev, 0 < pos → (nodeChildren a0 par)[pos - 1]? = some prev →
      nodeName a0 prev ≠ "#text")
    (hins : insertNodeAt (createNode a0 "#text" [] (some text) none).1
        par pos (createNode a0 "#text" [] (some text) none).2 = .ok a') :
    NoAdjText a' := by
  obtain ⟨hw1, hc1, ht1, hadj1, hlen1, hold, hnmnew, hparnew, hchnew⟩ :=
    createNode_preserves "#text" [] (some text) none hw hc ht hadj
  have hib := insertNodeAt_ok_shape hins
  have hchp : nodeChildren (createNode a0 "#text" [] (some text) none).1 par
      = nodeChildren a0 par := (hold par hpar).2.1
  rw [hchp] at hib
  rcases hposk with hpos | ⟨hsome, htblname⟩
  · have hnone : (nodeChildren a0 par)[pos]? = none := by
      rw [List.getElem?_eq_none_iff]
      omega
    rw [hnone] at hib
    have hib' : some (appendChild (createNode a0 "#text" [] (some text) none).1
        par (createNode a0 "#text" [] (some text) none).2) = some a' := hib
    have ha' := Option.some.inj hib'
    rw [← ha']
    refine noAdjText_appendChild hadj1 ?_
    intro lastC hmem
    rw [hchp, List.getLast?_eq_getElem?] at hmem
    have hmem' : (nodeChildren a0 par)[(nodeChildren a0 par).length - 1]?
        = some lastC := hmem
    have hlenpos : 0 < (nodeChildren a0 par).length := by
      by_contra hz
      have hout : (nodeChildren a0 par).length ≤ (nodeChildren a0 par).length - 1 := by
        omega
      rw [List.getElem?_eq_none hout] at hmem'
      cases hmem'
    have hnot := hprev lastC (by omega) (by rw [hpos]; exact hmem')
    have hlt : lastC < a0.length :=
      hc par hpar lastC (List.getElem?_mem hmem')
    intro hcontra
    rw [(hold lastC hlt).1] at hcontra
    exact hnot hcontra.1
  · obtain ⟨tbl, htbl⟩ := Option.isSome_iff_exists.mp hsome
    have hmem_tbl : tbl ∈ nodeChildren a0 par := List.getElem?_mem htbl
    have hposlt : pos < (nodeChildren a0 par).length := by
      by_contra hz
      rw [List.getElem?_eq_none (Nat.le_of_not_lt hz)] at htbl
      cases htbl
    have hgetpos : (nodeChildren a0 par)[pos] = tbl := by
      have := List.getElem?_eq_getElem hposlt
      rw [this] at htbl
      exact Option.some.inj htbl
    have hcnt : (nodeChildren a0 par).count tbl = 1 :=
      onceOk_count hw.2 (parentOk_mem hw.1 hmem_tbl)
    have hidx : (nodeChildren a0 par).indexOf tbl = pos :=
      indexOf_eq_of_count_one hposlt hgetpos hcnt
    rw [htbl] at hib
    refine noAdjText_insertBefore_ref hadj1 hib ?_ ?_
    · intro p hp
      rw [hchp, hidx] at hp
      rcases Nat.eq_zero_or_pos pos with hz | hpos0
      · rw [hz] at hp
        simp at hp
      · rw [getLast?_take_pos hpos0 (Nat.le_of_lt hposlt)] at hp
        have hp' : (nodeChildren a0 par)[pos - 1]? = some p := hp
        have hnot := hprev p hpos0 hp'
        have hplt : p < a0.length := hc par hpar p (List.getElem?_mem hp')
        intro hcontra
        rw [(hold p hplt).1] at hcontra
        exact hnot hcontra.1
    · intro q hq
      rw [hchp, hidx] at hq
      have hq' : (nodeChildren a0 par)[pos]? = some q := hq
      rw [htbl] at hq'
      have hqt : tbl = q := Option.some.inj hq'
      have htlt : tbl < a0.length := hc par hpar tbl hmem_tbl
      intro hcontra
      have hname : nodeName (createNode a0 "#text" [] (some text) none).1 tbl
          = "table" := by
        rw [(hold tbl htlt).1]
        exact htblname tbl (Option.mem_def.mpr htbl)
      rw [← hqt, hname] at hcontra
      exact absurd hcontra.2 (by decide)

/-- The body of `_append_text` after new-line stripping: it keeps the
no-adjacent-text invariant, and when the current node's last child is a
`#text` it merges rather than allocating. -/
theorem appendText_rest_ok {st2 st' : Builder} {text : String}
    (hOk : StOk st2) (hadj : NoAdjText st2.arena)
    (hrun :
      (if text = "" then (Except.ok st2 : Except JsErr Builder)
       else
        match st2.openElements.getLast? with
        | none => .ok st2
        | some target =>
          if ¬ (TABLE_FOSTER_TARGETS.contains (nodeName st2.arena target)) ∧
              ¬ (isTemplateNode st2.arena target = true) then
            let ch := nodeChildren st2.arena target
            match ch.getLast? with
            | some lastC =>
              if nodeName st2.arena lastC = "#text" then
                .ok { st2 with
                        arena := setDataF st2.arena lastC
                          (fun d => some (d.getD "" ++ text)) }
              else
                let pr := createNode st2.arena "#text" [] (some text) none
                .ok { st2 with arena := appendChild pr.1 target pr.2 }
            | none =>
              let pr := createNode st2.arena "#text" [] (some text) none
              .ok { st2 with arena := appendChild pr.1 target pr.2 }
          else
            match shouldFosterParenting st2 (currentNodeOrHtml st2) none true with
            | .error e => .error e
            | .ok foster =>
            match (if foster then reconstructActiveFormatting st2 else .ok st2) with
            | .error e => .error e
            | .ok st =>
            match appropriateInsertionLocation st none foster with
            | .error e => .error e
            | .ok loc =>
            let chp := nodeChildren st.arena loc.1
            let prev? := if loc.2 > 0 then chp[loc.2 - 1]? else none
            match prev? with
            | some prev =>
              if nodeName st.arena prev = "#text" then
                .ok { st with
                        arena := setDataF st.arena prev
                          (fun d => some (d.getD "" ++ text)) }
              else
                let pr := createNode st.arena "#text" [] (some text) none
                match insertNodeAt pr.1 loc.1 loc.2 pr.2 with
                | .error e => .error e
                | .ok a' => .ok { st with arena := a' }
            | none =>
              let pr := createNode st.arena "#text" [] (some text) none
              match insertNodeAt pr.1 loc.1 loc.2 pr.2 with
              | .error e => .error e
              | .ok a' => .ok { st with arena := a' }) = .ok st') :
    NoAdjText st'.arena ∧
    (∀ target lastC,
      text ≠ "" →
      st2.openElements.getLast? = some target →
      TABLE_FOSTER_TARGETS.contains (nodeName st2.arena target) = false →
      isTemplateNode st2.arena target = false →
      (nodeChildren st2.arena target).getLast? = some lastC →
      nodeName st2.arena lastC = "#text" →
      st'.arena = setDataF st2.arena lastC (fun d => some (d.getD "" ++ text)) ∧
      st'.openElements = st2.openElements) := by
  obtain ⟨hw, hc, ht, hstk, haf, hdoc⟩ := hOk
  by_cases htext : text = ""
  · rw [if_pos htext] at hrun
    cases hrun
    exact ⟨hadj, fun _ _ hne _ _ _ _ _ => absurd htext hne⟩
  · rw [if_neg htext] at hrun
    cases hlast : st2.openElements.getLast? with
    | none =>
      simp only [hlast] at hrun
      cases hrun
      refine ⟨hadj, ?_⟩
      intro target lastC _ h1 _ _ _ _
      cases h1
    | some target =>
      simp only [hlast] at hrun
      by_cases hcond : ¬ (TABLE_FOSTER_TARGETS.contains (nodeName st2.arena target)) ∧
          ¬ (isTemplateNode st2.arena target = true)
      · rw [if_pos hcond] at hrun
        have htlt : target < st2.arena.length :=
          hstk target (List.mem_of_mem_getLast? hlast)
        cases hchl : (nodeChildren st2.arena target).getLast? with
        | some lastC0 =>
          simp only [hchl] at hrun
          have hclt : lastC0 < st2.arena.length :=
            hc target htlt lastC0 (List.mem_of_mem_getLast? hchl)
          by_cases htxt : nodeName st2.arena lastC0 = "#text"
          · rw [if_pos htxt] at hrun
            cases hrun
            refine ⟨?_, ?_⟩
            · show NoAdjText (setDataF st2.arena lastC0
                (fun d => some (d.getD "" ++ text)))
              exact (setDataF_preserves lastC0
                (fun d => some (d.getD "" ++ text)) hw hc ht hadj).2.2.2
            · intro target' lastC' _ h1 _ _ h4 _
              have ht' : target' = target := (Option.some.inj h1).symm
              rw [ht'] at h4
              rw [hchl] at h4
              have hl' : lastC' = lastC0 := (Option.some.inj h4).symm
              rw [hl']
              exact ⟨rfl, rfl⟩
          · rw [if_neg htxt] at hrun
            cases hrun
            obtain ⟨hw1, hc1, ht1, hadj1, hlen1, hold, hnmnew, hparnew, hchnew⟩ :=
              createNode_preserves "#text" [] (some text) none hw hc ht hadj
            constructor
            · refine noAdjText_appendChild hadj1 ?_
              intro p hp
              rw [(hold target htlt).2.1, hchl] at hp
              have hp' : p = lastC0 := by
                cases hp
                rfl
              rw [hp']
              intro hcontra
              rw [(hold lastC0 hclt).1] at hcontra
              exact htxt hcontra.1
            · intro target' lastC' _ h1 _ _ h4 h5
              have ht' : target' = target := (Option.some.inj h1).symm
              rw [ht'] at h4
              rw [hchl] at h4
              have hl' : lastC' = lastC0 := (Option.some.inj h4).symm
              rw [hl'] at h5
              exact absurd h5 htxt
        | none =>
          simp only [hchl] at hrun
          cases hrun
          obtain ⟨hw1, hc1, ht1, hadj1, hlen1, hold, hnmnew, hparnew, hchnew⟩ :=
            createNode_preserves "#text" [] (some text) none hw hc ht hadj
          constructor
          · refine noAdjText_appendChild hadj1 ?_
            intro p hp
            rw [(hold target htlt).2.1, hchl] at hp
            cases hp
          · intro target' lastC' _ h1 _ _ h4 _
            have ht' : target' = target := (Option.some.inj h1).symm
            rw [ht'] at h4
            rw [hchl] at h4
            cases h4
      · rw [if_neg hcond] at hrun
        have hB : ∀ target' lastC' : Nat,
            text ≠ "" →
            some target = some target' →
            TABLE_FOSTER_TARGETS.contains (nodeName st2.arena target') = false →
            isTemplateNode st2.arena target' = false →
            (nodeChildren st2.arena target').getLast? = some lastC' →
            nodeName st2.arena lastC' = "#text" →
            st'.arena = setDataF st2.arena lastC'
              (fun d => some (d.getD "" ++ text)) ∧
            st'.openElements = st2.openElements := by
          intro target' lastC' _ h1 h2 h3 _ _
          exfalso
          apply hcond
          have ht' : target' = target := (Option.some.inj h1).symm
          rw [ht'] at h2 h3
          refine ⟨?_, ?_⟩
          · intro hcc
            rw [h2] at hcc
            exact Bool.noConfusion hcc
          · intro hcc
            rw [h3] at hcc
            exact Bool.noConfusion hcc
        cases hsf : shouldFosterParenting st2 (currentNodeOrHtml st2) none true with
        | error e =>
          simp only [hsf] at hrun
          exact Except.noConfusion hrun
        | ok foster =>
          simp only [hsf] at hrun
          cases hrec : (if foster then reconstructActiveFormatting st2
              else .ok st2 : Except JsErr Builder) with
          | error e =>
            simp only [hrec] at hrun
            exact Except.noConfusion hrun
          | ok st3 =>
            simp only [hrec] at hrun
            have hOk3 : StOk st3 ∧ NoAdjText st3.arena := by
              by_cases hf : foster
              · rw [if_pos hf] at hrec
                exact reconstructActiveFormatting_preserves
                  ⟨hw, hc, ht, hstk, haf, hdoc⟩ hadj hrec
              · rw [if_neg hf] at hrec
                cases hrec
                exact ⟨⟨hw, hc, ht, hstk, haf, hdoc⟩, hadj⟩
            obtain ⟨⟨hw3, hc3, ht3, hstk3, haf3, hdoc3⟩, hadj3⟩ := hOk3
            cases hloc : appropriateInsertionLocation st3 none foster with
            | error e =>
              simp only [hloc] at hrun
              exact Except.noConfusion hrun
            | ok loc =>
              simp only [hloc] at hrun
              obtain ⟨par, pos⟩ := loc
              dsimp only at hrun
              have hval := appropriateInsertionLocation_valid hw3 hc3 ht3
                hstk3 hdoc3 hloc
              cases hprevq : (if pos > 0 then (nodeChildren st3.arena par)[pos - 1]?
                  else none) with
              | some prev =>
                simp only [hprevq] at hrun
                have hprevlt : 0 < pos := by
                  by_contra hz
                  rw [if_neg hz] at hprevq
                  cases hprevq
                rw [if_pos hprevlt] at hprevq
                by_cases hpt : nodeName st3.arena prev = "#text"
                · rw [if_pos hpt] at hrun
                  cases hrun
                  refine ⟨?_, hB⟩
                  show NoAdjText (setDataF st3.arena prev
                    (fun d => some (d.getD "" ++ text)))
                  exact (setDataF_preserves prev
                    (fun d => some (d.getD "" ++ text)) hw3 hc3 ht3 hadj3).2.2.2
                · rw [if_neg hpt] at hrun
                  cases hia : insertNodeAt
                      (createNode st3.arena "#text" [] (some text) none).1 par pos
                      (createNode st3.arena "#text" [] (some text) none).2 with
                  | error e =>
                    simp only [hia] at hrun
                    exact Except.noConfusion hrun
                  | ok a2 =>
                    simp only [hia] at hrun
                    cases hrun
                    refine ⟨?_, hB⟩
                    refine noAdjText_insert_text_at hw3 hc3 ht3 hadj3
                      hval.1 hval.2 ?_ hia
                    intro prev' hpos0 hsome'
                    rw [hprevq] at hsome'
                    cases hsome'
                    exact hpt
              | none =>
                simp only [hprevq] at hrun
                cases hia : insertNodeAt
                    (createNode st3.arena "#text" [] (some text) none).1 par pos
                    (createNode st3.arena "#text" [] (some text) none).2 with
                | error e =>
                  simp only [hia] at hrun
                  exact Except.noConfusion hrun
                | ok a2 =>
                  simp only [hia] at hrun
                  cases hrun
                  refine ⟨?_, hB⟩
                  refine noAdjText_insert_text_at hw3 hc3 ht3 hadj3
                    hval.1 hval.2 ?_ hia
                  intro prev' hpos0 hsome'
                  rw [if_pos hpos0] at hprevq
                  rw [hprevq] at hsome'
                  cases hsome'

/-- C2.  `_append_text` (src/src/treebuilder.js lines 1448-1482) keeps the
no-adjacent-text invariant of §3: no two adjacent children of any parent
are both `#text`.  Moreover it coalesces: when the current node's last
child is already a `#text` node (and no foster parenting applies), the new
character data is appended to that child's data — no node is allocated and
no children list changes. -/
theorem c2_text_coalescing (st st' : Builder) (text : String)
    (hOk : StOk st) (hadj : NoAdjText st.arena)
    (hrun : appendText st text = .ok st') :
    NoAdjText st'.arena ∧
    (∀ target lastC,
      st.ignoreLf = false →
      text ≠ "" →
      st.openElements.getLast? = some target →
      TABLE_FOSTER_TARGETS.contains (nodeName st.arena target) = false →
      isTemplateNode st.arena target = false →
      (nodeChildren st.arena target).getLast? = some lastC →
      nodeName st.arena lastC = "#text" →
      st'.arena.length = st.arena.length ∧
      (∀ p, nodeChildren st'.arena p = nodeChildren st.arena p) ∧
      nodeData st'.arena lastC =
        some ((nodeData st.arena lastC).getD "" ++ text)) := by
  unfold appendText at hrun
  by_cases htext : text = ""
  · rw [if_pos htext] at hrun
    cases hrun
    exact ⟨hadj, fun _ _ _ hne _ _ _ _ _ => absurd htext hne⟩
  · rw [if_neg htext] at hrun
    dsimp only at hrun
    cases higl : st.ignoreLf with
    | true =>
      rw [higl] at hrun
      rw [if_pos rfl] at hrun
      have hOk2 : StOk { st with ignoreLf := false } := hOk
      have hadj2 : NoAdjText ({ st with ignoreLf := false } : Builder).arena := hadj
      cases hsw : text.startsWith "\n" with
      | true =>
        rw [hsw, if_pos rfl] at hrun
        dsimp only at hrun
        have hres := appendText_rest_ok hOk2 hadj2 hrun
        refine ⟨hres.1, ?_⟩
        intro _ _ h0 _ _ _ _ _ _
        cases h0
      | false =>
        rw [hsw, if_neg Bool.false_ne_true] at hrun
        dsimp only at hrun
        have hres := appendText_rest_ok hOk2 hadj2 hrun
        refine ⟨hres.1, ?_⟩
        intro _ _ h0 _ _ _ _ _ _
        cases h0
    | false =>
      rw [higl] at hrun
      rw [if_neg Bool.false_ne_true] at hrun
      dsimp only at hrun
      have hres := appendText_rest_ok hOk hadj hrun
      refine ⟨hres.1, ?_⟩
      intro target lastC _ hne h1 h2 h3 h4 h5
      have hB := hres.2 target lastC hne h1 h2 h3 h4 h5
      rw [hB.1]
      have hlt : target < st.arena.length :=
        hOk.2.2.2.1 target (List.mem_of_mem_getLast? h1)
      have hlc : lastC < st.arena.length :=
        hOk.2.1 target hlt lastC (List.mem_of_mem_getLast? h4)
      refine ⟨setDataF_length st.arena lastC _, ?_, ?_⟩
      · intro p
        exact nodeChildren_setDataF st.arena lastC _ p
      · rw [nodeData_setDataF_self hlc]

def c2Arena : Arena :=
  [{ name := "#document", ns := none, dat := none, attrs := [], parent := none,
     children := [1], tmplContent := none },
   { name := "html", ns := some "http://www.w3.org/1999/xhtml", dat := none,
     attrs := [], parent := some 0, children := [2], tmplContent := none },
   { name := "#text", ns := none, dat := some "a", attrs := [],
     parent := some 1, children := [], tmplContent := none }]

def c2St : Builder :=
  { arena := c2Arena, document := 0, mode := .IN_BODY, originalMode := none,
    openElements := [1], activeFormatting := [], headElement := none,
    formElement := none, framesetOk := true, quirksMode := "no-quirks",
    ignoreLf := false, insertFromTable := false, templateModes := [],
    fragmentContext := none, fragmentContextElement := none, errors := [],
    collectErrors := false, iframeSrcdoc := false }

def c2Post : Builder :=
  { c2St with arena := setDataF c2St.arena 2 (fun d => some (d.getD "" ++ "b")) }

theorem c2St_noAdjText : NoAdjText c2St.arena := by
  intro p hp
  have hp3 : p < 3 := hp
  interval_cases p
  · exact List.chain'_singleton _
  · exact List.chain'_singleton _
  · exact List.chain'_nil

/-- Witness for C2 at a concrete state: appending `"b"` to a tree whose
`html` node ends in the text child `"a"` merges into that child. -/
theorem c2_witness :
    StOk c2St ∧ NoAdjText c2St.arena ∧
    (NoAdjText c2Post.arena ∧
      (∀ target lastC,
        c2St.ignoreLf = false →
        "b" ≠ "" →
        c2St.openElements.getLast? = some target →
        TABLE_FOSTER_TARGETS.contains (nodeName c2St.arena target) = false →
        isTemplateNode c2St.arena target = false →
        (nodeChildren c2St.arena target).getLast? = some lastC →
        nodeName c2St.arena lastC = "#text" →
        c2Post.arena.length = c2St.arena.length ∧
        (∀ p, nodeChildren c2Post.arena p = nodeChildren c2St.arena p) ∧
        nodeData c2Post.arena lastC =
          some ((nodeData c2St.arena lastC).getD "" ++ "b"))) :=
  ⟨⟨by decide, by decide, by decide, by decide,
      fun e he => absurd he (List.not_mem_nil _), by decide⟩,
   c2St_noAdjText,
   c2_text_coalescing c2St c2Post "b"
     ⟨by decide, by decide, by decide, by decide,
       fun e he => absurd he (List.not_mem_nil _), by decide⟩
     c2St_noAdjText (by rfl)⟩

/-! ## Numeric character references (C4): `src/src/parser.js` 150-192 -/

/-- `NUMERIC_REPLACEMENTS` (src/src/parser.js lines 150-179): the
Windows-1252 remap table plus the NUL replacement.  Every value is a
non-empty string, so JS's truthiness test `if (replacement)` takes the
entry whenever the key is present. -/
def NUMERIC_REPLACEMENTS : List (Nat × String) :=
  [(0x00, "�"), (0x80, "€"), (0x82, "‚"), (0x83, "ƒ"),
   (0x84, "„"), (0x85, "…"), (0x86, "†"), (0x87, "‡"),
   (0x88, "ˆ"), (0x89, "‰"), (0x8A, "Š"), (0x8B, "‹"),
   (0x8C, "Œ"), (0x8E, "Ž"), (0x91, "‘"), (0x92, "’"),
   (0x93, "“"), (0x94, "”"), (0x95, "•"), (0x96, "–"),
   (0x97, "—"), (0x98, "˜"), (0x99, "™"), (0x9A, "š"),
   (0x9B, "›"), (0x9C, "œ"), (0x9E, "ž"), (0x9F, "Ÿ")]

/-- The numeric value of a digit character in the given base, as
`Number.parseInt` reads digits (`0-9`, then letters of either case). -/
def digitVal (c : Char) (base : Nat) : Option Nat :=
  let v :=
    if '0' ≤ c ∧ c ≤ '9' then some (c.toNat - '0'.toNat)
    else if 'a' ≤ c ∧ c ≤ 'z' then some (c.toNat - 'a'.toNat + 10)
    else if 'A' ≤ c ∧ c ≤ 'Z' then some (c.toNat - 'A'.toNat + 10)
    else none
  match v with
  | some d => if d < base then some d else none
  | none => none

/-- `Number.parseInt(text, base)` as the entity decoder uses it: the call
sites pass strings of base-digits collected by the scanner (no sign, no
blanks), and parseInt reads the longest digit prefix, `NaN` when there is
none. -/
def jsParseIntNat (s : String) (base : Nat) : Option Nat :=
  let ds := s.data.takeWhile (fun c => (digitVal c base).isSome)
  if ds = [] then none
  else some (ds.foldl (fun acc c => acc * base + (digitVal c base).getD 0) 0)

/-- The body of `decodeNumericEntity` after `parseInt`
(src/src/parser.js lines 185-191): remap table first, then the
over-range and surrogate checks, else `String.fromCodePoint`. -/
def decodeCodepoint (cp : Nat) : String :=
  match NUMERIC_REPLACEMENTS.lookup cp with
  | some replacement => replacement
  | none =>
    if cp > 0x10FFFF then "�"
    else if 0xD800 ≤ cp ∧ cp ≤ 0xDFFF then "�"
    else String.singleton (Char.ofNat cp)

/-- `decodeNumericEntity(text, { isHex })` (src/src/parser.js lines
181-192).  When `parseInt` yields `NaN`, `String.fromCodePoint(NaN)`
throws a RangeError; the call sites always pass at least one digit. -/
def decodeNumericEntity (text : String) (isHex : Bool) : Except JsErr String :=
  let base := if isHex then 16 else 10
  match jsParseIntNat text base with
  | none => .error .thrown
  | some cp => .ok (decodeCodepoint cp)

/-- Modelled from the spec: the Unicode noncharacters the spec's §4.1
sentence refers to (U+FDD0-U+FDEF and the final two code points of each
plane). -/
def isNoncharacter (cp : Nat) : Bool :=
  (0xFDD0 ≤ cp && cp ≤ 0xFDEF) || cp % 0x10000 = 0xFFFE || cp % 0x10000 = 0xFFFF

theorem lookup_none_of_large {cp : Nat} (h : 0xA0 ≤ cp) :
    NUMERIC_REPLACEMENTS.lookup cp = none := by
  have hkeys : ∀ e ∈ NUMERIC_REPLACEMENTS, e.1 < 0xA0 := by decide
  rw [List.lookup_eq_none_iff]
  intro e he
  have := hkeys e he
  simp only [bne_iff_ne, ne_eq]
  omega

/-- C4 (amended).  `decodeNumericEntity`: a parsed code point is first
looked up in the Windows-1252 remap table (so `&#x80;` yields U+20AC and
U+0000 yields U+FFFD), then code points above U+10FFFF and surrogates
yield U+FFFD; EVERY other code point — in particular every noncharacter
that is a valid code point, both the U+FDD0-U+FDEF block and the
plane-final U+xFFFE/U+xFFFF pairs, contrary to the claim — comes back
unchanged via `String.fromCodePoint`. -/
theorem c4_numeric_entity_decoding (text : String) (isHex : Bool) (cp : Nat)
    (hparse : jsParseIntNat text (if isHex then 16 else 10) = some cp) :
    decodeNumericEntity text isHex = .ok (decodeCodepoint cp) ∧
    (∀ replacement, NUMERIC_REPLACEMENTS.lookup cp = some replacement →
      decodeCodepoint cp = replacement) ∧
    decodeCodepoint 0x80 = "€" ∧
    decodeCodepoint 0x00 = "�" ∧
    (NUMERIC_REPLACEMENTS.lookup cp = none → 0x10FFFF < cp →
      decodeCodepoint cp = "�") ∧
    (NUMERIC_REPLACEMENTS.lookup cp = none → 0xD800 ≤ cp → cp ≤ 0xDFFF →
      decodeCodepoint cp = "�") ∧
    (NUMERIC_REPLACEMENTS.lookup cp = none → cp ≤ 0x10FFFF →
      ¬(0xD800 ≤ cp ∧ cp ≤ 0xDFFF) →
      decodeCodepoint cp = String.singleton (Char.ofNat cp)) ∧
    (isNoncharacter cp = true → cp ≤ 0x10FFFF →
      decodeCodepoint cp = String.singleton (Char.ofNat cp)) := by
  refine ⟨?_, ?_, by rfl, by rfl, ?_, ?_, ?_, ?_⟩
  · unfold decodeNumericEntity
    dsimp only
    rw [hparse]
  · intro replacement hr
    unfold decodeCodepoint
    rw [hr]
  · intro hnone hbig
    unfold decodeCodepoint
    rw [hnone]
    rw [if_pos hbig]
  · intro hnone h1 h2
    unfold decodeCodepoint
    rw [hnone]
    rw [if_neg (by omega), if_pos ⟨h1, h2⟩]
  · intro hnone hle hnsur
    unfold decodeCodepoint
    rw [hnone]
    rw [if_neg (by omega), if_neg hnsur]
  · intro hnc hle
    have hnc1 : ((0xFDD0 ≤ cp ∧ cp ≤ 0xFDEF) ∨ cp % 0x10000 = 0xFFFE) ∨
        cp % 0x10000 = 0xFFFF := by
      simpa [isNoncharacter, Bool.or_eq_true, Bool.and_eq_true,
        decide_eq_true_eq] using hnc
    unfold decodeCodepoint
    rw [lookup_none_of_large (by omega)]
    rw [if_neg (by omega), if_neg (by omega)]

/-- C4 counterexample: `&#xFDD0;` decodes to the noncharacter U+FDD0
itself, not to U+FFFD as the claim requires for noncharacters. -/
theorem c4_counterexample :
    isNoncharacter 0xFDD0 = true ∧
    decodeNumericEntity "fdd0" true = .ok (String.singleton (Char.ofNat 0xFDD0)) ∧
    String.singleton (Char.ofNat 0xFDD0) ≠ "�" :=
  ⟨by decide, by rfl, by decide⟩

/-- Witness for C4 at `&#x80;`: the remapped euro sign. -/
theorem c4_witness :
    jsParseIntNat "80" (if true then 16 else 10) = some 0x80 ∧
    (decodeNumericEntity "80" true = .ok (decodeCodepoint 0x80) ∧
     (∀ replacement, NUMERIC_REPLACEMENTS.lookup 0x80 = some replacement →
        decodeCodepoint 0x80 = replacement) ∧
     decodeCodepoint 0x80 = "€" ∧
     decodeCodepoint 0x00 = "�" ∧
     (NUMERIC_REPLACEMENTS.lookup 0x80 = none → 0x10FFFF < 0x80 →
        decodeCodepoint 0x80 = "�") ∧
     (NUMERIC_REPLACEMENTS.lookup 0x80 = none → 0xD800 ≤ 0x80 → 0x80 ≤ 0xDFFF →
        decodeCodepoint 0x80 = "�") ∧
     (NUMERIC_REPLACEMENTS.lookup 0x80 = none → 0x80 ≤ 0x10FFFF →
        ¬(0xD800 ≤ 0x80 ∧ 0x80 ≤ 0xDFFF) →
        decodeCodepoint 0x80 = String.singleton (Char.ofNat 0x80)) ∧
     (isNoncharacter 0x80 = true → 0x80 ≤ 0x10FFFF →
        decodeCodepoint 0x80 = String.singleton (Char.ofNat 0x80))) :=
  ⟨by decide, c4_numeric_entity_decoding "80" true 0x80 (by decide)⟩

/-! ## Fragment parsing setup (C8): the TreeBuilder constructor and the
tokenizer override of `parseDocument` -/

/-- `_adjust_svg_tag_name(name)` (src/src/treebuilder.js): look the
lowercased name up in the SVG case table; every table value is non-empty,
so the `|| name` fallback only fires on a miss. -/
def adjustSvgTagName (name : String) : String :=
  match SVG_TAG_NAME_ADJUSTMENTS.lookup (lowerAscii name) with
  | some adjusted => adjusted
  | none => name

/-- JS truthiness of the context's `namespace` field: `null`/`undefined`
(None) and the empty string are falsy. -/
def nsTruthy : Option String → Bool
  | none => false
  | some s => !(s == "")

/-- `new TreeBuilder(fragment_context, iframe_srcdoc, collect_errors)`
(src/src/treebuilder.js lines 1131-1190): allocate the document, and in
fragment mode create the `html` root, the foreign context element when the
context namespace is truthy and not `html`, pick the insertion mode from
the lowercased context name (the table modes only for a null or `html`
namespace), and clear `frameset_ok`. -/
def newTreeBuilder (fragment_context : Option FragmentContext)
    (iframe_srcdoc collect_errors : Bool) : Builder :=
  let docName := match fragment_context with
    | some _ => "#document-fragment"
    | none => "#document"
  let pr0 := createNode [] docName [] none none
  let base : Builder :=
    { arena := pr0.1, document := pr0.2, mode := .INITIAL, originalMode := none,
      openElements := [], activeFormatting := [], headElement := none,
      formElement := none, framesetOk := true, quirksMode := "no-quirks",
      ignoreLf := false, insertFromTable := false, templateModes := [],
      fragmentContext := fragment_context, fragmentContextElement := none,
      errors := [], collectErrors := collect_errors,
      iframeSrcdoc := iframe_srcdoc }
  match fragment_context with
  | none => base
  | some fc =>
    let pr1 := createElement base.arena "html" none []
    let a2 := appendChild pr1.1 base.document pr1.2
    let st1 := { base with
      arena := a2
      openElements := [pr1.2] }
    let name := lowerAscii fc.tagName
    let st2 :=
      if nsTruthy fc.ns ∧ fc.ns ≠ some "html" then
        let adjustedName :=
          if fc.ns = some "svg" then adjustSvgTagName fc.tagName
          else fc.tagName
        let pr2 := createElement st1.arena adjustedName fc.ns []
        let a3 := appendChild pr2.1 pr1.2 pr2.2
        { st1 with
          arena := a3
          openElements := st1.openElements ++ [pr2.2]
          fragmentContextElement := some pr2.2 }
      else st1
    let mode :=
      if name = "html" then InsertionMode.BEFORE_HEAD
      else if (fc.ns = none ∨ fc.ns = some "html") ∧
          ["tbody", "thead", "tfoot"].contains name then
        InsertionMode.IN_TABLE_BODY
      else if (fc.ns = none ∨ fc.ns = some "html") ∧ name = "tr" then
        InsertionMode.IN_ROW
      else if (fc.ns = none ∨ fc.ns = some "html") ∧
          ["td", "th"].contains name then
        InsertionMode.IN_CELL
      else if (fc.ns = none ∨ fc.ns = some "html") ∧ name = "caption" then
        InsertionMode.IN_CAPTION
      else if (fc.ns = none ∨ fc.ns = some "html") ∧ name = "colgroup" then
        InsertionMode.IN_COLUMN_GROUP
      else if (fc.ns = none ∨ fc.ns = some "html") ∧ name = "table" then
        InsertionMode.IN_TABLE
      else InsertionMode.IN_BODY
    { st2 with mode := mode, framesetOk := false }

/-- Tokenizer state numbers (src/src/tokenizer.js statics). -/
def TOK_RAWTEXT : Nat := 44

def TOK_PLAINTEXT : Nat := 48

/-- The two `TokenizerOpts` fields the fragment override of
`parseDocument` writes. -/
structure TokOpts where
  initialState : Option Nat
  initialRawtextTag : Option String
deriving Repr, DecidableEq

/-- The fragment tokenizer-state override of `parseDocument`
(src/src/parser.js lines 17-27): it requires a FALSY context namespace
(`fragmentContext && !fragmentContext.namespace`). -/
def fragmentTokenizerOpts (fragmentContext : Option FragmentContext)
    (opts : TokOpts) : TokOpts :=
  match fragmentContext with
  | none => opts
  | some fc =>
    if nsTruthy fc.ns then opts
    else
      let tagName := lowerAscii fc.tagName
      if tagName = "textarea" ∨ tagName = "title" ∨ tagName = "style" then
        { opts with
          initialState := some TOK_RAWTEXT
          initialRawtextTag := some tagName }
      else if tagName = "plaintext" ∨ tagName = "script" then
        { opts with
          initialState := some TOK_PLAINTEXT
          initialRawtextTag := none }
      else opts

/-- C8 (amended).  Fragment setup: `frameset_ok` is cleared and `html`
always maps to BEFORE_HEAD, but the table modes (tr→IN_ROW and friends)
apply only when the context namespace is null or `"html"` — any other
context name, and every non-`html` name in a foreign namespace, yields
IN_BODY.  The tokenizer override of `parseDocument` fires only for a
FALSY context namespace (so not for the string `"html"`): RAWTEXT with
the lowercased tag for textarea/title/style, PLAINTEXT for
plaintext/script. -/
theorem c8_fragment_setup (fc : FragmentContext) (isrc cerr : Bool)
    (opts : TokOpts) :
    (newTreeBuilder (some fc) isrc cerr).framesetOk = false ∧
    (lowerAscii fc.tagName = "html" →
      (newTreeBuilder (some fc) isrc cerr).mode = .BEFORE_HEAD) ∧
    ((fc.ns = none ∨ fc.ns = some "html") →
      (lowerAscii fc.tagName = "tr" →
        (newTreeBuilder (some fc) isrc cerr).mode = .IN_ROW) ∧
      ((lowerAscii fc.tagName = "tbody" ∨ lowerAscii fc.tagName = "thead" ∨
          lowerAscii fc.tagName = "tfoot") →
        (newTreeBuilder (some fc) isrc cerr).mode = .IN_TABLE_BODY) ∧
      ((lowerAscii fc.tagName = "td" ∨ lowerAscii fc.tagName = "th") →
        (newTreeBuilder (some fc) isrc cerr).mode = .IN_CELL) ∧
      (lowerAscii fc.tagName = "caption" →
        (newTreeBuilder (some fc) isrc cerr).mode = .IN_CAPTION) ∧
      (lowerAscii fc.tagName = "colgroup" →
        (newTreeBuilder (some fc) isrc cerr).mode = .IN_COLUMN_GROUP) ∧
      (lowerAscii fc.tagName = "table" →
        (newTreeBuilder (some fc) isrc cerr).mode = .IN_TABLE) ∧
      (lowerAscii fc.tagName ∉ ["html", "tbody", "thead", "tfoot", "tr",
          "td", "th", "caption", "colgroup", "table"] →
        (newTreeBuilder (some fc) isrc cerr).mode = .IN_BODY)) ∧
    (¬(fc.ns = none ∨ fc.ns = some "html") →
      lowerAscii fc.tagName ≠ "html" →
      (newTreeBuilder (some fc) isrc cerr).mode = .IN_BODY) ∧
    (nsTruthy fc.ns = false →
      ((lowerAscii fc.tagName = "textarea" ∨ lowerAscii fc.tagName = "title" ∨
          lowerAscii fc.tagName = "style") →
        fragmentTokenizerOpts (some fc) opts =
          { opts with
            initialState := some TOK_RAWTEXT
            initialRawtextTag := some (lowerAscii fc.tagName) }) ∧
      ((lowerAscii fc.tagName = "plaintext" ∨ lowerAscii fc.tagName = "script") →
        fragmentTokenizerOpts (some fc) opts =
          { opts with
            initialState := some TOK_PLAINTEXT
            initialRawtextTag := none })) ∧
    (nsTruthy fc.ns = true → fragmentTokenizerOpts (some fc) opts = opts) := by
  refine ⟨rfl, ?_, ?_, ?_, ?_, ?_⟩
  · intro h
    unfold newTreeBuilder
    dsimp only
    rw [if_pos h]
  · intro hns
    refine ⟨?_, ?_, ?_, ?_, ?_, ?_, ?_⟩
    · intro h
      unfold newTreeBuilder
      dsimp only
      rw [if_neg (by rw [h]; decide),
        if_neg (by rw [h]; exact fun hc => absurd hc.2 (by decide)),
        if_pos ⟨hns, h⟩]
    · intro h
      unfold newTreeBuilder
      dsimp only
      rcases h with h | h | h <;>
        rw [if_neg (by rw [h]; decide), if_pos ⟨hns, by rw [h]; decide⟩]
    · intro h
      unfold newTreeBuilder
      dsimp only
      rcases h with h | h <;>
        rw [if_neg (by rw [h]; decide),
          if_neg (by rw [h]; exact fun hc => absurd hc.2 (by decide)),
          if_neg (by rw [h]; exact fun hc => absurd hc.2 (by decide)),
          if_pos ⟨hns, by rw [h]; decide⟩]
    · intro h
      unfold newTreeBuilder
      dsimp only
      rw [if_neg (by rw [h]; decide),
        if_neg (by rw [h]; exact fun hc => absurd hc.2 (by decide)),
        if_neg (by rw [h]; exact fun hc => absurd hc.2 (by decide)),
        if_neg (by rw [h]; exact fun hc => absurd hc.2 (by decide)),
        if_pos ⟨hns, h⟩]
    · intro h
      unfold newTreeBuilder
      dsimp only
      rw [if_neg (by rw [h]; decide),
        if_neg (by rw [h]; exact fun hc => absurd hc.2 (by decide)),
        if_neg (by rw [h]; exact fun hc => absurd hc.2 (by decide)),
        if_neg (by rw [h]; exact fun hc => absurd hc.2 (by decide)),
        if_neg (by rw [h]; exact fun hc => absurd hc.2 (by decide)),
        if_pos ⟨hns, h⟩]
    · intro h
      unfold newTreeBuilder
      dsimp only
      rw [if_neg (by rw [h]; decide),
        if_neg (by rw [h]; exact fun hc => absurd hc.2 (by decide)),
        if_neg (by rw [h]; exact fun hc => absurd hc.2 (by decide)),
        if_neg (by rw [h]; exact fun hc => absurd hc.2 (by decide)),
        if_neg (by rw [h]; exact fun hc => absurd hc.2 (by decide)),
        if_neg (by rw [h]; exact fun hc => absurd hc.2 (by decide)),
        if_pos ⟨hns, h⟩]
    · intro hno
      unfold newTreeBuilder
      dsimp only
      have hone : ∀ s : String, lowerAscii fc.tagName = s →
          s ∈ (["html", "tbody", "thead", "tfoot", "tr", "td", "th",
            "caption", "colgroup", "table"] : List String) → False :=
        fun s hs hmem => hno (hs ▸ hmem)
      have h2 : ¬(["tbody", "thead", "tfoot"].contains
          (lowerAscii fc.tagName) = true) := by
        intro hc
        have hm := List.mem_of_elem_eq_true hc
        simp only [List.mem_cons, List.not_mem_nil, or_false] at hm
        rcases hm with he | he | he <;> exact hone _ he (by decide)
      have h4 : ¬(["td", "th"].contains (lowerAscii fc.tagName) = true) := by
        intro hc
        have hm := List.mem_of_elem_eq_true hc
        simp only [List.mem_cons, List.not_mem_nil, or_false] at hm
        rcases hm with he | he <;> exact hone _ he (by decide)
      rw [if_neg (fun he => hone _ he (by decide)),
        if_neg (fun hc => h2 hc.2),
        if_neg (fun hc => hone _ hc.2 (by decide)),
        if_neg (fun hc => h4 hc.2),
        if_neg (fun hc => hone _ hc.2 (by decide)),
        if_neg (fun hc => hone _ hc.2 (by decide)),
        if_neg (fun hc => hone _ hc.2 (by decide))]
  · intro hns hname
    unfold newTreeBuilder
    dsimp only
    rw [if_neg hname,
      if_neg (fun hc => hns hc.1),
      if_neg (fun hc => hns hc.1),
      if_neg (fun hc => hns hc.1),
      if_neg (fun hc => hns hc.1),
      if_neg (fun hc => hns hc.1),
      if_neg (fun hc => hns hc.1)]
  · intro hfalse
    constructor
    · intro h
      unfold fragmentTokenizerOpts
      dsimp only
      rw [hfalse, if_neg Bool.false_ne_true, if_pos h]
    · intro h
      unfold fragmentTokenizerOpts
      dsimp only
      rw [hfalse, if_neg Bool.false_ne_true,
        if_neg (by rcases h with h | h <;> rw [h] <;> decide),
        if_pos h]
  · intro htrue
    unfold fragmentTokenizerOpts
    dsimp only
    rw [htrue, if_pos rfl]

/-- C8 counterexample: a `tr` context in the `svg` namespace yields
IN_BODY (the claim says IN_ROW), and a `textarea` context whose namespace
is the truthy string `"html"` gets no tokenizer override (the claim says
HTML-namespace contexts get RAWTEXT). -/
theorem c8_counterexample :
    (newTreeBuilder (some { tagName := "tr", ns := some "svg" }) false
        false).mode = InsertionMode.IN_BODY ∧
    (newTreeBuilder (some { tagName := "tr", ns := some "svg" }) false
        false).mode ≠ InsertionMode.IN_ROW ∧
    fragmentTokenizerOpts (some { tagName := "textarea", ns := some "html" })
        { initialState := none, initialRawtextTag := none } =
      { initialState := none, initialRawtextTag := none } := by
  refine ⟨by decide, by decide, by decide⟩

/-- Witness for C8: a `td` context in the null namespace parses as a cell
with `frameset_ok` cleared. -/
theorem c8_witness :
    (newTreeBuilder (some { tagName := "td", ns := none }) false
        false).framesetOk = false ∧
    (newTreeBuilder (some { tagName := "td", ns := none }) false
        false).mode = InsertionMode.IN_CELL :=
  ⟨(c8_fragment_setup { tagName := "td", ns := none } false false
      { initialState := none, initialRawtextTag := none }).1,
   ((c8_fragment_setup { tagName := "td", ns := none } false false
      { initialState := none, initialRawtextTag := none }).2.2.1
      (Or.inl rfl)).2.2.1 (Or.inl (by decide))⟩

/-! ## The strict-mode facade (C9): `JustHTML` of src/unnamed/part_003 -/

/-- What `parseDocument` hands back to the facade: the root and the
error list (`[...tokenizer.errors, ...treeBuilder.errors]`), produced
only after `tokenizer.run` has consumed the whole input and
`treeBuilder.finish()` has completed. -/
structure ParseOutcome where
  root : Nat
  errors : List String
deriving Repr, DecidableEq

/-- `StrictModeError` (src/unnamed/part_003): carries the error it was
built from (`this.error = error`). -/
structure StrictModeError where
  firstError : String
deriving Repr, DecidableEq

/-- The facade object the constructor builds. -/
structure JustHTMLRec where
  root : Nat
  errors : List String
  collectErrors : Bool
  strict : Bool
deriving Repr, DecidableEq

/-- The `JustHTML` constructor (src/unnamed/part_003 lines 56-106) on an
already-decoded string, parameterized over the completed `parseDocument`
outcome (a function of the collect-errors flag the constructor passes):
`shouldCollect = collectErrors || strict`, fields from the parse, and
`if (this.strict && this.errors.length) throw new
StrictModeError(this.errors[0])` — the throw happens after `parseDocument`
has returned.  `errors[0]` is modelled as `getD 0`; the guard makes the
list non-empty. -/
def justHTML (parse : Bool → ParseOutcome) (collectErrors strict : Bool) :
    Except StrictModeError JustHTMLRec :=
  let shouldCollect := collectErrors || strict
  let parsed := parse shouldCollect
  if strict = true ∧ parsed.errors ≠ [] then
    .error { firstError := parsed.errors.getD 0 "" }
  else
    .ok { root := parsed.root, errors := parsed.errors,
          collectErrors := collectErrors, strict := strict }

/-- C9.  With `strict`, construction fails exactly when the completed
parse recorded at least one error, and the failure carries the first
recorded error; without `strict`, construction never fails and yields the
parse's tree together with its error list.  The failure is computed from
the finished `parseDocument` outcome, so it can only be raised after the
whole input has been tokenized and tree construction has completed. -/
theorem c9_strict_mode (parse : Bool → ParseOutcome)
    (collectErrors strict : Bool) :
    ((∃ e, justHTML parse collectErrors strict = .error e) ↔
      strict = true ∧ (parse (collectErrors || strict)).errors ≠ []) ∧
    (∀ e, justHTML parse collectErrors strict = .error e →
      e.firstError = (parse (collectErrors || strict)).errors.getD 0 "") ∧
    (strict = false →
      justHTML parse collectErrors strict =
        .ok { root := (parse (collectErrors || strict)).root,
              errors := (parse (collectErrors || strict)).errors,
              collectErrors := collectErrors, strict := strict }) := by
  unfold justHTML
  dsimp only
  by_cases hcond : strict = true ∧ (parse (collectErrors || strict)).errors ≠ []
  · rw [if_pos hcond]
    refine ⟨⟨fun _ => hcond, fun _ => ⟨_, rfl⟩⟩, ?_, ?_⟩
    · intro e he
      have : ({ firstError :=
          (parse (collectErrors || strict)).errors.getD 0 "" } :
            StrictModeError) = e := by
        exact Except.error.inj he
      rw [← this]
    · intro hfalse
      rw [hcond.1] at hfalse
      cases hfalse
  · rw [if_neg hcond]
    refine ⟨⟨?_, fun hc => absurd hc hcond⟩, ?_, fun _ => rfl⟩
    · intro he
      obtain ⟨e, he⟩ := he
      exact Except.noConfusion he
    · intro e he
      exact Except.noConfusion he

/-- Witness for C9: two recorded errors and `strict` set — construction
fails carrying the first. -/
theorem c9_witness :
    ((∃ e, justHTML (fun _ => ({ root := 0, errors := ["e1", "e2"] } :
        ParseOutcome)) false true = .error e) ↔
      true = true ∧
        ((fun _ => ({ root := 0, errors := ["e1", "e2"] } : ParseOutcome))
          (false || true)).errors ≠ []) ∧
    (∀ e, justHTML (fun _ => ({ root := 0, errors := ["e1", "e2"] } :
        ParseOutcome)) false true = .error e →
      e.firstError = "e1") ∧
    (true = false →
      justHTML (fun _ => ({ root := 0, errors := ["e1", "e2"] } :
          ParseOutcome)) false true =
        .ok { root := 0, errors := ["e1", "e2"],
              collectErrors := false, strict := true }) :=
  c9_strict_mode (fun _ => ({ root := 0, errors := ["e1", "e2"] } :
    ParseOutcome)) false true

/-! ## Attribute finalization and entity decoding (C3):
`src/src/tokenizer.js` 549-574 and `src/src/parser.js` 40-148, 208-338 -/

/-- `LEGACY_ENTITIES` (src/src/parser.js lines 40-148): the names that may
appear without a terminating semicolon. -/
def LEGACY_ENTITIES : List String :=
  ["gt", "lt", "amp", "quot", "nbsp", "AMP", "QUOT", "GT", "LT", "COPY",
   "REG", "AElig", "Aacute", "Acirc", "Agrave", "Aring", "Atilde",
   "Auml", "Ccedil", "ETH", "Eacute", "Ecirc", "Egrave", "Euml",
   "Iacute", "Icirc", "Igrave", "Iuml", "Ntilde", "Oacute", "Ocirc",
   "Ograve", "Oslash", "Otilde", "Ouml", "THORN", "Uacute", "Ucirc",
   "Ugrave", "Uuml", "Yacute", "aacute", "acirc", "acute", "aelig",
   "agrave", "aring", "atilde", "auml", "brvbar", "ccedil", "cedil",
   "cent", "copy", "curren", "deg", "divide", "eacute", "ecirc",
   "egrave", "eth", "euml", "frac12", "frac14", "frac34", "iacute",
   "icirc", "iexcl", "igrave", "iquest", "iuml", "laquo", "macr",
   "micro", "middot", "not", "ntilde", "oacute", "ocirc", "ograve",
   "ordf", "ordm", "oslash", "otilde", "ouml", "para", "plusmn", "pound",
   "raquo", "reg", "sect", "shy", "sup1", "sup2", "sup3", "szlig",
   "thorn", "times", "uacute", "ucirc", "ugrave", "uml", "uuml",
   "yacute", "yen", "yuml"]

/-- `isAsciiAlpha` (src/src/parser.js): char codes 0x41-0x5A, 0x61-0x7A. -/
def isAsciiAlphaCh (c : Char) : Bool :=
  ('A' ≤ c && c ≤ 'Z') || ('a' ≤ c && c ≤ 'z')

/-- `isAsciiDigit`: char codes 0x30-0x39. -/
def isAsciiDigitCh (c : Char) : Bool := '0' ≤ c && c ≤ '9'

/-- `isAsciiAlnum`. -/
def isAsciiAlnumCh (c : Char) : Bool := isAsciiAlphaCh c || isAsciiDigitCh c

/-- `"0123456789abcdefABCDEF".includes(ch)`. -/
def isHexDigitCh (c : Char) : Bool :=
  isAsciiDigitCh c || ('a' ≤ c && c ≤ 'f') || ('A' ≤ c && c ≤ 'F')

/-- `text.indexOf(c, i)` on the character list, `none` for JS `-1`. -/
def indexOfFrom (cs : List Char) (c : Char) (i : Nat) : Option Nat :=
  match (cs.drop i).findIdx? (fun x => x = c) with
  | some k => some (i + k)
  | none => none

/-- `while (j < length && p(text[j])) j += 1`: the index after the run. -/
def scanWhile (cs : List Char) (p : Char → Bool) (j : Nat) : Nat :=
  j + ((cs.drop j).takeWhile p).length

/-- The longest-prefix legacy lookup both fallback loops of
`decodeEntitiesInText` run (`for k = entityName.length; k > 0; k -= 1`):
the match and its length, trying lengths in decreasing order. -/
def legacyBest (ne : String → Option String) (entityName : List Char) :
    Option (String × Nat) :=
  (List.range entityName.length).reverse.findSome? (fun k0 =>
    let k := k0 + 1
    let pfx := String.mk (entityName.take k)
    if LEGACY_ENTITIES.contains pfx then
      match ne pfx with
      | some v => some (v, k)
      | none => none
    else none)

/-- The body of `decodeEntitiesInText`'s while loop (src/src/parser.js
lines 208-338), fueled: the index `i` strictly increases every iteration,
so `length + 1` units of fuel always suffice.  `ne` stands for the
`NAMED_ENTITIES` table of the absent `entities-data.js` (present names
map to their non-empty expansions). -/
def decodeEntitiesLoop (ne : String → Option String) (inAttribute : Bool)
    (cs : List Char) : Nat → Nat → List String → Except JsErr (List String)
  | 0, _, _ => .error .fuel
  | fuel + 1, i, acc =>
    if i < cs.length then
      match indexOfFrom cs '&' i with
      | none => .ok (acc ++ [String.mk (cs.drop i)])
      | some nextAmp =>
        let acc := if nextAmp > i then
            acc ++ [String.mk ((cs.drop i).take (nextAmp - i))]
          else acc
        let i := nextAmp
        let j := i + 1
        let isNumStart := match cs[j]? with
          | some ch => ch == '#'
          | none => false
        if isNumStart then
          let j := j + 1
          let pr := match cs[j]? with
            | some ch => if ch = 'x' ∨ ch = 'X' then (true, j + 1) else (false, j)
            | none => (false, j)
          let isHex := pr.1
          let digitStart := pr.2
          let j := if isHex then scanWhile cs isHexDigitCh digitStart
            else scanWhile cs isAsciiDigitCh digitStart
          let hasSemicolon := match cs[j]? with
            | some ch => ch == ';'
            | none => false
          let digitText := (cs.drop digitStart).take (j - digitStart)
          let iNext := if hasSemicolon then j + 1 else j
          if digitText ≠ [] then
            match decodeNumericEntity (String.mk digitText) isHex with
            | .error e => .error e
            | .ok s => decodeEntitiesLoop ne inAttribute cs fuel iNext (acc ++ [s])
          else
            decodeEntitiesLoop ne inAttribute cs fuel iNext
              (acc ++ [String.mk ((cs.drop i).take (iNext - i))])
        else
          let j := scanWhile cs isAsciiAlnumCh j
          let entityName := (cs.drop (i + 1)).take (j - (i + 1))
          let hasSemicolon := match cs[j]? with
            | some ch => ch == ';'
            | none => false
          if entityName = [] then
            decodeEntitiesLoop ne inAttribute cs fuel (i + 1) (acc ++ ["&"])
          else
            let nameStr := String.mk entityName
            match (if hasSemicolon then ne nameStr else none) with
            | some v => decodeEntitiesLoop ne inAttribute cs fuel (j + 1) (acc ++ [v])
            | none =>
              match (if hasSemicolon && !inAttribute then
                  legacyBest ne entityName else none) with
              | some (v, bestLen) =>
                decodeEntitiesLoop ne inAttribute cs fuel (i + 1 + bestLen)
                  (acc ++ [v])
              | none =>
                match (if LEGACY_ENTITIES.contains nameStr then ne nameStr
                    else none) with
                | some v =>
                  let nextBlocked := inAttribute && (match cs[j]? with
                    | some ch => isAsciiAlnumCh ch || ch == '='
                    | none => false)
                  if nextBlocked then
                    decodeEntitiesLoop ne inAttribute cs fuel (i + 1) (acc ++ ["&"])
                  else
                    decodeEntitiesLoop ne inAttribute cs fuel j (acc ++ [v])
                | none =>
                  match legacyBest ne entityName with
                  | some (v, bestLen) =>
                    if inAttribute then
                      decodeEntitiesLoop ne inAttribute cs fuel (i + 1)
                        (acc ++ ["&"])
                    else
                      decodeEntitiesLoop ne inAttribute cs fuel (i + 1 + bestLen)
                        (acc ++ [v])
                  | none =>
                    if hasSemicolon then
                      decodeEntitiesLoop ne inAttribute cs fuel (j + 1)
                        (acc ++ [String.mk ((cs.drop i).take (j + 1 - i))])
                    else
                      decodeEntitiesLoop ne inAttribute cs fuel (i + 1)
                        (acc ++ ["&"])
    else .ok acc

/-- `decodeEntitiesInText(text, { inAttribute })` (src/src/parser.js line
208): run the loop from index 0 and join the pieces. -/
def decodeEntitiesInText (ne : String → Option String) (text : String)
    (inAttribute : Bool) : Except JsErr String :=
  match decodeEntitiesLoop ne inAttribute text.data (text.data.length + 1) 0 [] with
  | .error e => .error e
  | .ok parts => .ok (String.join parts)

/-- A string with no ampersand decodes to itself: the loop's first
iteration finds no `&` and pushes the whole remainder. -/
theorem decodeEntitiesInText_no_amp (ne : String → Option String)
    (text : String) (inAttribute : Bool) (h : '&' ∉ text.data) :
    decodeEntitiesInText ne text inAttribute = .ok text := by
  by_cases hnil : text.data = []
  · have ht : text = "" := by
      cases text
      simp_all
    rw [ht]
    rfl
  · have hlen : 0 < text.data.length := List.length_pos.mpr hnil
    have hfind : text.data.findIdx? (fun x => decide (x = '&')) = none :=
      List.findIdx?_eq_none_iff.mpr (fun x hx => by
        simp only [decide_eq_false_iff_not]
        exact fun he => h (he ▸ hx))
    have hidx : indexOfFrom text.data '&' 0 = none := by
      unfold indexOfFrom
      rw [List.drop_zero, hfind]
    have hmk : String.mk text.data = text := by
      cases text
      rfl
    have hloop : decodeEntitiesLoop ne inAttribute text.data
        (text.data.length + 1) 0 [] = .ok ([] ++ [String.mk (text.data.drop 0)]) := by
      unfold decodeEntitiesLoop
      rw [if_pos hlen, hidx]
    unfold decodeEntitiesInText
    rw [hloop]
    simp [String.join, hmk]

/-- The tokenizer's per-tag attribute accumulator (`currentAttrName`,
`currentAttrValue`, `currentAttrValueHasAmp`, `currentTagAttrs`), the
attrs object as an insertion-ordered association list. -/
structure AttrAccum where
  currentAttrName : String
  currentAttrValue : String
  currentAttrValueHasAmp : Bool
  currentTagAttrs : List (String × String)
deriving Repr, DecidableEq

/-- `_startNewAttribute` (src/src/tokenizer.js lines 549-553). -/
def startNewAttribute (st : AttrAccum) : AttrAccum :=
  { st with currentAttrName := "", currentAttrValue := "",
            currentAttrValueHasAmp := false }

/-- The value step shared by the three ATTRIBUTE_VALUE states
(src/src/tokenizer.js lines 965-1046): flag `&`, replace NUL with U+FFFD,
append the character. -/
def attrValueAppend (st : AttrAccum) (c : Char) : AttrAccum :=
  let st1 := if c = '&' then { st with currentAttrValueHasAmp := true } else st
  if c = Char.ofNat 0 then
    { st1 with currentAttrValue := st1.currentAttrValue ++ "�" }
  else
    { st1 with currentAttrValue := st1.currentAttrValue.push c }

/-- `_finishAttribute` (src/src/tokenizer.js lines 555-574): nothing to do
without a pending name; an existing key of the same name discards the
later attribute (the `duplicate-attribute` error call `_emitError` is a
no-op); otherwise the value is entity-decoded when an `&` was seen and
stored under the new key. -/
def finishAttribute (ne : String → Option String) (st : AttrAccum) :
    Except JsErr AttrAccum :=
  if st.currentAttrName = "" then .ok st
  else
    let name := st.currentAttrName
    let st1 := { st with currentAttrName := "" }
    if (st1.currentTagAttrs.map Prod.fst).contains name then
      .ok { st1 with currentAttrValue := "", currentAttrValueHasAmp := false }
    else
      let value := st1.currentAttrValue
      let st2 := { st1 with currentAttrValue := "" }
      match (if st2.currentAttrValueHasAmp then
          decodeEntitiesInText ne value true else .ok value) with
      | .error e => .error e
      | .ok v =>
        .ok { st2 with
              currentAttrValueHasAmp := false
              currentTagAttrs := st2.currentTagAttrs ++ [(name, v)] }

/-- C3.  `_finishAttribute`: a completed attribute whose name already
exists on the current tag is discarded whole (first occurrence wins, the
stored value unchanged); a new name stores the value with in-attribute
entity decoding applied (when no `&` was ever seen the decode is the
identity, so the stored value is the decoded value in every case); the
tag's keys stay pairwise distinct.  The `&`-flag discipline of the value
states and `_startNewAttribute` is what sustains the hypothesis `hamp`. -/
theorem c3_attribute_dedup (ne : String → Option String) (st st' : AttrAccum)
    (hrun : finishAttribute ne st = .ok st')
    (hnodup : (st.currentTagAttrs.map Prod.fst).Nodup)
    (hamp : st.currentAttrValueHasAmp = false → '&' ∉ st.currentAttrValue.data) :
    (st'.currentTagAttrs.map Prod.fst).Nodup ∧
    ((st.currentTagAttrs.map Prod.fst).contains st.currentAttrName = true →
      st'.currentTagAttrs = st.currentTagAttrs) ∧
    (st.currentAttrName ≠ "" →
      (st.currentTagAttrs.map Prod.fst).contains st.currentAttrName = false →
      ∃ v, decodeEntitiesInText ne st.currentAttrValue true = .ok v ∧
        st'.currentTagAttrs =
          st.currentTagAttrs ++ [(st.currentAttrName, v)]) ∧
    (∀ c, (attrValueAppend st c).currentAttrValueHasAmp = false →
      '&' ∉ (attrValueAppend st c).currentAttrValue.data) ∧
    (startNewAttribute st).currentAttrValueHasAmp = false ∧
    (startNewAttribute st).currentAttrValue = "" := by
  have happend : ∀ c, (attrValueAppend st c).currentAttrValueHasAmp = false →
      '&' ∉ (attrValueAppend st c).currentAttrValue.data := by
    intro c hfa
    unfold attrValueAppend at hfa ⊢
    by_cases hc : c = '&'
    · rw [if_pos hc] at hfa
      by_cases hz : c = Char.ofNat 0
      · rw [if_pos hz] at hfa
        cases hfa
      · rw [if_neg hz] at hfa
        cases hfa
    · rw [if_neg hc] at hfa ⊢
      have hold : '&' ∉ st.currentAttrValue.data := by
        by_cases hz : c = Char.ofNat 0
        · rw [if_pos hz] at hfa
          exact hamp hfa
        · rw [if_neg hz] at hfa
          exact hamp hfa
      by_cases hz : c = Char.ofNat 0
      · rw [if_pos hz]
        intro hmem
        simp only [String.data_append] at hmem
        rcases List.mem_append.mp hmem with hm | hm
        · exact hold hm
        · exact absurd hm (by decide)
      · rw [if_neg hz]
        intro hmem
        simp only [String.data_push] at hmem
        rcases List.mem_append.mp hmem with hm | hm
        · exact hold hm
        · simp only [List.mem_singleton] at hm
          exact hc hm.symm
  unfold finishAttribute at hrun
  by_cases hname : st.currentAttrName = ""
  · rw [if_pos hname] at hrun
    cases hrun
    exact ⟨hnodup, fun _ => rfl, fun hne => absurd hname hne,
      happend, rfl, rfl⟩
  · rw [if_neg hname] at hrun
    dsimp only at hrun
    by_cases hdup : (st.currentTagAttrs.map Prod.fst).contains
        st.currentAttrName = true
    · rw [if_pos hdup] at hrun
      cases hrun
      exact ⟨hnodup, fun _ => rfl,
        fun _ hfalse => absurd hdup (by rw [hfalse]; exact Bool.false_ne_true),
        happend, rfl, rfl⟩
    · rw [if_neg hdup] at hrun
      have hdupf : (st.currentTagAttrs.map Prod.fst).contains
          st.currentAttrName = false := Bool.eq_false_iff.mpr hdup
      have hsnoc : ∀ v, ((st.currentTagAttrs ++
          [(st.currentAttrName, v)]).map Prod.fst).Nodup := by
        intro v
        rw [List.map_append]
        rw [List.nodup_append]
        refine ⟨hnodup, List.nodup_singleton _, ?_⟩
        intro b hb hbb
        simp only [List.map_cons, List.map_nil, List.mem_singleton] at hbb
        subst hbb
        have hct : (st.currentTagAttrs.map Prod.fst).contains
            st.currentAttrName = true :=
          List.elem_eq_true_of_mem hb
        rw [hct] at hdupf
        cases hdupf
      cases hha : st.currentAttrValueHasAmp with
      | true =>
        rw [hha] at hrun
        rw [if_pos rfl] at hrun
        cases hdec : decodeEntitiesInText ne st.currentAttrValue true with
        | error e =>
          rw [hdec] at hrun
          exact Except.noConfusion hrun
        | ok v =>
          rw [hdec] at hrun
          cases hrun
          refine ⟨hsnoc v, ?_, ?_, happend, rfl, rfl⟩
          · intro hct
            rw [hct] at hdupf
            cases hdupf
          · intro _ _
            exact ⟨v, rfl, rfl⟩
      | false =>
        rw [hha] at hrun
        rw [if_neg Bool.false_ne_true] at hrun
        have hdec : decodeEntitiesInText ne st.currentAttrValue true =
            .ok st.currentAttrValue :=
          decodeEntitiesInText_no_amp ne st.currentAttrValue true (hamp hha)
        cases hrun
        refine ⟨hsnoc st.currentAttrValue, ?_, ?_, happend, rfl, rfl⟩
        · intro hct
          rw [hct] at hdupf
          cases hdupf
        · intro _ _
          exact ⟨st.currentAttrValue, hdec, rfl⟩

def c3St : AttrAccum :=
  { currentAttrName := "id", currentAttrValue := "a",
    currentAttrValueHasAmp := false, currentTagAttrs := [("x", "1")] }

def c3Post : AttrAccum :=
  { currentAttrName := "", currentAttrValue := "",
    currentAttrValueHasAmp := false,
    currentTagAttrs := [("x", "1"), ("id", "a")] }

/-- Witness for C3: finishing a fresh `id="a"` next to an existing `x`
stores it decoded and keeps the keys distinct. -/
theorem c3_witness :
    finishAttribute (fun _ => none) c3St = .ok c3Post ∧
    ((c3Post.currentTagAttrs.map Prod.fst).Nodup ∧
     ((c3St.currentTagAttrs.map Prod.fst).contains c3St.currentAttrName = true →
       c3Post.currentTagAttrs = c3St.currentTagAttrs) ∧
     (c3St.currentAttrName ≠ "" →
       (c3St.currentTagAttrs.map Prod.fst).contains c3St.currentAttrName = false →
       ∃ v, decodeEntitiesInText (fun _ => none) c3St.currentAttrValue true =
           .ok v ∧
         c3Post.currentTagAttrs =
           c3St.currentTagAttrs ++ [(c3St.currentAttrName, v)]) ∧
     (∀ c, (attrValueAppend c3St c).currentAttrValueHasAmp = false →
       '&' ∉ (attrValueAppend c3St c).currentAttrValue.data) ∧
     (startNewAttribute c3St).currentAttrValueHasAmp = false ∧
     (startNewAttribute c3St).currentAttrValue = "") :=
  ⟨rfl, c3_attribute_dedup (fun _ => none) c3St c3Post rfl (by decide)
    (fun _ => by decide)⟩

/-! ## Encoding sniffing (C5): `src/src/encoding.js` -/

/-- The ASCII whitespace byte set of encoding.js. -/
def ASCII_WHITESPACE : List Nat := [0x09, 0x0A, 0x0C, 0x0D, 0x20]

def isWsByte (b : Nat) : Bool := ASCII_WHITESPACE.contains b

/-- `asciiLowerByte`. -/
def asciiLowerByte (b : Nat) : Nat :=
  if 0x41 ≤ b ∧ b ≤ 0x5A then b ||| 0x20 else b

/-- `isAsciiAlphaByte`. -/
def isAsciiAlphaByte (b : Nat) : Bool :=
  let c := asciiLowerByte b
  0x61 ≤ c && c ≤ 0x7A

/-- `skipAsciiWhitespace(data, i)`. -/
def skipWsFrom (data : List Nat) (i : Nat) : Nat :=
  i + ((data.drop i).takeWhile isWsByte).length

/-- `stripAsciiWhitespace` on a present value. -/
def stripAsciiWs (value : List Nat) : List Nat :=
  ((value.dropWhile isWsByte).reverse.dropWhile isWsByte).reverse

/-- `asciiDecodeIgnore`: keep bytes ≤ 0x7F as characters. -/
def asciiDecodeIgnore (bytes : List Nat) : String :=
  String.mk ((bytes.filter (fun b => b ≤ 0x7F)).map Char.ofNat)

/-- `indexOfByte(data, byte, start)`, `none` for `-1`. -/
def indexOfByteFrom (data : List Nat) (b : Nat) (start : Nat) : Option Nat :=
  match (data.drop start).findIdx? (fun x => x == b) with
  | some k => some (start + k)
  | none => none

/-- `indexOfSubarray(data, pattern, start)`: the first `i ≥ start` where
`pattern` occurs, `none` for `-1`. -/
def indexOfSubarray (data pat : List Nat) (start : Nat) : Option Nat :=
  (List.range (data.length + 1)).find? (fun i =>
    decide (start ≤ i) && decide (i + pat.length ≤ data.length) &&
    ((data.drop i).take pat.length == pat))

/-- `bytesEqualLower(data, start, end, asciiLowerPattern)`. -/
def bytesEqualLower (data : List Nat) (start endIdx : Nat) (pat : List Nat) :
    Bool :=
  ((data.drop start).take (endIdx - start)).map asciiLowerByte == pat

/-- `bytesEqualIgnoreAsciiCase(data, asciiLowerPattern)`. -/
def bytesEqualIgnoreAsciiCase (data pat : List Nat) : Bool :=
  data.map asciiLowerByte == pat

/-- JS `String.prototype.trim` on the ASCII whitespace the encoding labels
use. -/
def jsTrim (s : String) : String :=
  let ws := fun c : Char => c = ' ' ∨ c = '\t' ∨ c = '\n' ∨ c = '\r' ∨
    c = Char.ofNat 0x0C
  String.mk (((s.data.dropWhile ws).reverse.dropWhile ws).reverse)

/-- `normalizeEncodingLabel(label)` (src/src/encoding.js lines 81-118) on
a string-or-null label. -/
def normalizeEncodingLabel (label : Option String) : Option String :=
  match label with
  | none => none
  | some label0 =>
    if label0 = "" then none
    else
      let t := jsTrim label0
      if t = "" then none
      else
        let s := lowerAscii t
        if s = "utf-7" ∨ s = "utf7" ∨ s = "x-utf-7" then some "windows-1252"
        else if s = "utf-8" ∨ s = "utf8" then some "utf-8"
        else if s = "iso-8859-1" ∨ s = "iso8859-1" ∨ s = "latin1" ∨
            s = "latin-1" ∨ s = "l1" ∨ s = "cp819" ∨ s = "ibm819" then
          some "windows-1252"
        else if s = "windows-1252" ∨ s = "windows1252" ∨ s = "cp1252" ∨
            s = "x-cp1252" then some "windows-1252"
        else if s = "iso-8859-2" ∨ s = "iso8859-2" ∨ s = "latin2" ∨
            s = "latin-2" then some "iso-8859-2"
        else if s = "euc-jp" ∨ s = "eucjp" then some "euc-jp"
        else if s = "utf-16" ∨ s = "utf16" then some "utf-16"
        else if s = "utf-16le" ∨ s = "utf16le" then some "utf-16le"
        else if s = "utf-16be" ∨ s = "utf16be" then some "utf-16be"
        else none

/-- `normalizeMetaDeclaredEncoding`: UTF-16/32 declared in a meta is read
as UTF-8. -/
def normalizeMetaDeclaredEncoding (label : Option String) : Option String :=
  match normalizeEncodingLabel label with
  | none => none
  | some enc =>
    if enc = "utf-16" ∨ enc = "utf-16le" ∨ enc = "utf-16be" ∨
        enc = "utf-32" ∨ enc = "utf-32le" ∨ enc = "utf-32be" then
      some "utf-8"
    else some enc

/-- `sniffBOM(data)` (src/src/encoding.js lines 141-146). -/
def sniffBOM (data : List Nat) : Option String × Nat :=
  if data.take 3 = [0xEF, 0xBB, 0xBF] then (some "utf-8", 3)
  else if data.take 2 = [0xFF, 0xFE] then (some "utf-16le", 2)
  else if data.take 2 = [0xFE, 0xFF] then (some "utf-16be", 2)
  else (none, 0)

def BYTES_DASH_DASH_GT : List Nat := [0x2D, 0x2D, 0x3E]

def BYTES_META : List Nat := [0x6D, 0x65, 0x74, 0x61]

def BYTES_CHARSET : List Nat := [0x63, 0x68, 0x61, 0x72, 0x73, 0x65, 0x74]

def BYTES_HTTP_EQUIV : List Nat :=
  [0x68, 0x74, 0x74, 0x70, 0x2D, 0x65, 0x71, 0x75, 0x69, 0x76]

def BYTES_CONTENT : List Nat := [0x63, 0x6F, 0x6E, 0x74, 0x65, 0x6E, 0x74]

def BYTES_CONTENT_TYPE : List Nat :=
  [0x63, 0x6F, 0x6E, 0x74, 0x65, 0x6E, 0x74, 0x2D, 0x74, 0x79, 0x70, 0x65]

/-- `extractCharsetFromContent(contentBytes)` (src/src/encoding.js lines
148-188). -/
def extractCharsetFromContent (contentBytes : List Nat) : Option (List Nat) :=
  if contentBytes = [] then none
  else
    let normalized := contentBytes.map (fun ch =>
      if isWsByte ch then 0x20 else asciiLowerByte ch)
    match indexOfSubarray normalized BYTES_CHARSET 0 with
    | none => none
    | some idx =>
      let i1 := skipWsFrom normalized (idx + BYTES_CHARSET.length)
      match normalized[i1]? with
      | none => none
      | some b =>
        if b ≠ 0x3D then none
        else
          let i2 := skipWsFrom normalized (i1 + 1)
          match normalized[i2]? with
          | none => none
          | some q0 =>
            if q0 = 0x22 ∨ q0 = 0x27 then
              let start := i2 + 1
              match indexOfByteFrom normalized q0 start with
              | none => none
              | some iEnd => some ((normalized.drop start).take (iEnd - start))
            else
              let start := i2
              let iEnd := start + ((normalized.drop start).takeWhile (fun ch =>
                !(isWsByte ch || ch == 0x3B))).length
              some ((normalized.drop start).take (iEnd - start))

/-- The tag-skipping loop of `prescanForMetaCharset` (used for end tags
and non-`meta` tags): quote-aware scan to the first unquoted `>`, bounded
by the scan caps; returns the final `(k, nonComment)`.  Structural on the
remaining bytes, which start at `k`. -/
def skipTagLoop (maxTotal maxNC : Nat) :
    List Nat → Nat → Nat → Option Nat → Nat × Nat
  | [], k, nc, _ => (k, nc)
  | ch :: rest, k, nc, quoteSt =>
    if k < maxTotal ∧ nc < maxNC then
      match quoteSt with
      | none =>
        if ch = 0x22 ∨ ch = 0x27 then
          skipTagLoop maxTotal maxNC rest (k + 1) (nc + 1) (some ch)
        else if ch = 0x3E then (k + 1, nc + 1)
        else skipTagLoop maxTotal maxNC rest (k + 1) (nc + 1) none
      | some q =>
        if ch = q then skipTagLoop maxTotal maxNC rest (k + 1) (nc + 1) none
        else skipTagLoop maxTotal maxNC rest (k + 1) (nc + 1) (some q)
    else (k, nc)

/-- What the meta attribute loop of `prescanForMetaCharset` ends with:
whether it saw `>`, the index after the loop, the three tracked attribute
values, and whether the unclosed-quote escape already bumped the outer
position once (the outer loop bumps once more). -/
structure MetaScan where
  sawGt : Bool
  k : Nat
  charset : Option (List Nat)
  httpEquiv : Option (List Nat)
  content : Option (List Nat)
  extraBump : Bool
deriving Repr, DecidableEq

/-- The attribute loop of the `meta` branch (src/src/encoding.js lines
276-340): attributes are scanned with whitespace/`=`/quote handling, and
the last `charset`, `http-equiv` and `content` sightings win.  The index
`k` strictly increases per iteration, so `data.length + 1` fuel always
suffices; running out behaves like the scan caps. -/
def metaAttrsLoop (data : List Nat) (maxTotal : Nat) :
    Nat → Nat → Option (List Nat) → Option (List Nat) → Option (List Nat) →
    MetaScan
  | 0, k, cs, he, co =>
    { sawGt := false, k := k, charset := cs, httpEquiv := he,
      content := co, extraBump := false }
  | fuel + 1, k, cs, he, co =>
    match data[k]? with
    | none =>
      { sawGt := false, k := k, charset := cs, httpEquiv := he,
        content := co, extraBump := false }
    | some ch =>
      if ¬ (k < maxTotal) then
        { sawGt := false, k := k, charset := cs, httpEquiv := he,
          content := co, extraBump := false }
      else if ch = 0x3E then
        { sawGt := true, k := k + 1, charset := cs, httpEquiv := he,
          content := co, extraBump := false }
      else if ch = 0x3C then
        { sawGt := false, k := k, charset := cs, httpEquiv := he,
          content := co, extraBump := false }
      else if isWsByte ch || ch == 0x2F then
        metaAttrsLoop data maxTotal fuel (k + 1) cs he co
      else
        let attrStart := k
        let attrEnd := attrStart + ((data.drop k).takeWhile (fun c =>
          !(isWsByte c || c == 0x3D || c == 0x3E || c == 0x2F ||
            c == 0x3C))).length
        let k1 := skipWsFrom data attrEnd
        let record := fun (value : Option (List Nat)) (cs0 he0 co0 :
            Option (List Nat)) =>
          if bytesEqualLower data attrStart attrEnd BYTES_CHARSET then
            (value.map stripAsciiWs, he0, co0)
          else if bytesEqualLower data attrStart attrEnd BYTES_HTTP_EQUIV then
            (cs0, value, co0)
          else if bytesEqualLower data attrStart attrEnd BYTES_CONTENT then
            (cs0, he0, value)
          else (cs0, he0, co0)
        match data[k1]? with
        | none =>
          let tr := record none cs he co
          metaAttrsLoop data maxTotal fuel k1 tr.1 tr.2.1 tr.2.2
        | some b =>
          if b = 0x3D then
            let k2 := skipWsFrom data (k1 + 1)
            match data[k2]? with
            | none =>
              { sawGt := false, k := k2, charset := cs, httpEquiv := he,
                content := co, extraBump := false }
            | some q =>
              if q = 0x22 ∨ q = 0x27 then
                match indexOfByteFrom data q (k2 + 1) with
                | none =>
                  { sawGt := false, k := k2, charset := none,
                    httpEquiv := none, content := none, extraBump := true }
                | some endQuote =>
                  let value := (data.drop (k2 + 1)).take (endQuote - (k2 + 1))
                  let tr := record (some value) cs he co
                  metaAttrsLoop data maxTotal fuel (endQuote + 1)
                    tr.1 tr.2.1 tr.2.2
              else
                let valEnd := k2 + ((data.drop k2).takeWhile (fun c =>
                  !(isWsByte c || c == 0x3E || c == 0x3C))).length
                let value := (data.drop k2).take (valEnd - k2)
                let tr := record (some value) cs he co
                metaAttrsLoop data maxTotal fuel valEnd tr.1 tr.2.1 tr.2.2
          else
            let tr := record none cs he co
            metaAttrsLoop data maxTotal fuel k1 tr.1 tr.2.1 tr.2.2

/-- The outer loop of `prescanForMetaCharset` (src/src/encoding.js lines
190-369), fueled: the position `i` strictly increases every iteration, so
`data.length + 1` fuel always suffices. -/
def prescanLoop (data : List Nat) : Nat → Nat → Nat → Option String
  | 0, _, _ => none
  | fuel + 1, i, nonComment =>
    if i < data.length ∧ i < 65536 ∧ nonComment < 1024 then
      match data[i]? with
      | none => none
      | some b =>
        if b ≠ 0x3C then prescanLoop data fuel (i + 1) (nonComment + 1)
        else
          let isComment := decide (i + 3 < data.length) &&
            data[i + 1]? == some 0x21 && data[i + 2]? == some 0x2D &&
            data[i + 3]? == some 0x2D
          if isComment then
            match indexOfSubarray data BYTES_DASH_DASH_GT (i + 4) with
            | none => none
            | some endIdx => prescanLoop data fuel (endIdx + 3) nonComment
          else
            let j := i + 1
            if data[j]? == some 0x2F then
              let pr := skipTagLoop 65536 1024 (data.drop i) i nonComment none
              prescanLoop data fuel pr.1 pr.2
            else
              match data[j]? with
              | none => prescanLoop data fuel (i + 1) (nonComment + 1)
              | some bj =>
                if ¬ isAsciiAlphaByte bj then
                  prescanLoop data fuel (i + 1) (nonComment + 1)
                else
                  let nameEnd := j +
                    ((data.drop j).takeWhile isAsciiAlphaByte).length
                  if ¬ bytesEqualLower data j nameEnd BYTES_META then
                    let pr := skipTagLoop 65536 1024 (data.drop i) i
                      nonComment none
                    prescanLoop data fuel pr.1 pr.2
                  else
                    let ms := metaAttrsLoop data 65536 (data.length + 1)
                      nameEnd none none none
                    if ms.sawGt then
                      match (match ms.charset with
                        | some cbytes =>
                          if cbytes ≠ [] then
                            normalizeMetaDeclaredEncoding
                              (some (asciiDecodeIgnore cbytes))
                          else none
                        | none => none) with
                      | some enc => some enc
                      | none =>
                        match (match ms.httpEquiv, ms.content with
                          | some heBytes, some coBytes =>
                            if bytesEqualIgnoreAsciiCase heBytes
                                BYTES_CONTENT_TYPE then
                              match extractCharsetFromContent coBytes with
                              | some extracted =>
                                normalizeMetaDeclaredEncoding
                                  (some (asciiDecodeIgnore extracted))
                              | none => none
                            else none
                          | _, _ => none) with
                        | some enc => some enc
                        | none =>
                          prescanLoop data fuel ms.k
                            (nonComment + (ms.k - i))
                    else
                      prescanLoop data fuel
                        (i + 1 + (if ms.extraBump then 1 else 0))
                        (nonComment + 1 + (if ms.extraBump then 1 else 0))
    else none

/-- `prescanForMetaCharset(data)`. -/
def prescanForMetaCharset (data : List Nat) : Option String :=
  prescanLoop data (data.length + 1) 0 0

/-- `sniffHTMLEncoding(data, { transportEncoding })` (src/src/encoding.js
lines 371-382): transport label, then BOM, then meta prescan, then
windows-1252. -/
def sniffHTMLEncoding (data : List Nat) (transportEncoding : Option String) :
    String × Nat :=
  match normalizeEncodingLabel transportEncoding with
  | some transport => (transport, 0)
  | none =>
    let bom := sniffBOM data
    match bom.1 with
    | some bomEnc => (bomEnc, bom.2)
    | none =>
      match prescanForMetaCharset data with
      | some metaEnc => (metaEnc, 0)
      | none => ("windows-1252", 0)

/-- C5.  `sniffHTMLEncoding` tries its sources in exactly this order: a
transport label that normalizes wins with BOM length 0; else a leading
BOM (EF BB BF → utf-8/3, FF FE → utf-16le/2, FE FF → utf-16be/2); else a
successful meta prescan with BOM length 0; else windows-1252 with BOM
length 0. -/
theorem c5_sniff_priority (data : List Nat) (transport : Option String) :
    (∀ enc, normalizeEncodingLabel transport = some enc →
      sniffHTMLEncoding data transport = (enc, 0)) ∧
    (normalizeEncodingLabel transport = none →
      ∀ bomEnc bomLen, sniffBOM data = (some bomEnc, bomLen) →
        sniffHTMLEncoding data transport = (bomEnc, bomLen)) ∧
    (normalizeEncodingLabel transport = none → sniffBOM data = (none, 0) →
      ∀ metaEnc, prescanForMetaCharset data = some metaEnc →
        sniffHTMLEncoding data transport = (metaEnc, 0)) ∧
    (normalizeEncodingLabel transport = none → sniffBOM data = (none, 0) →
      prescanForMetaCharset data = none →
      sniffHTMLEncoding data transport = ("windows-1252", 0)) ∧
    (data.take 3 = [0xEF, 0xBB, 0xBF] → sniffBOM data = (some "utf-8", 3)) ∧
    (data.take 3 ≠ [0xEF, 0xBB, 0xBF] → data.take 2 = [0xFF, 0xFE] →
      sniffBOM data = (some "utf-16le", 2)) ∧
    (data.take 3 ≠ [0xEF, 0xBB, 0xBF] → data.take 2 = [0xFE, 0xFF] →
      sniffBOM data = (some "utf-16be", 2)) ∧
    (data.take 3 ≠ [0xEF, 0xBB, 0xBF] → data.take 2 ≠ [0xFF, 0xFE] →
      data.take 2 ≠ [0xFE, 0xFF] → sniffBOM data = (none, 0)) := by
  refine ⟨?_, ?_, ?_, ?_, ?_, ?_, ?_, ?_⟩
  · intro enc henc
    unfold sniffHTMLEncoding
    rw [henc]
  · intro hnone bomEnc bomLen hbom
    unfold sniffHTMLEncoding
    rw [hnone]
    dsimp only
    rw [hbom]
  · intro hnone hbom metaEnc hmeta
    unfold sniffHTMLEncoding
    rw [hnone]
    dsimp only
    rw [hbom]
    dsimp only
    rw [hmeta]
  · intro hnone hbom hmeta
    unfold sniffHTMLEncoding
    rw [hnone]
    dsimp only
    rw [hbom]
    dsimp only
    rw [hmeta]
  · intro h
    unfold sniffBOM
    rw [if_pos h]
  · intro h1 h2
    unfold sniffBOM
    rw [if_neg h1, if_pos h2]
  · intro h1 h2
    unfold sniffBOM
    rw [if_neg h1, if_neg ?hn, if_pos h2]
    case hn =>
      intro hff
      rw [h2] at hff
      exact absurd hff (by decide)
  · intro h1 h2 h3
    unfold sniffBOM
    rw [if_neg h1, if_neg h2, if_neg h3]

/-- Witness for C5: the transport label beats a UTF-16 BOM, the BOM is
used without a label, and a `<meta charset="utf-8">` prescan is used when
neither applies. -/
theorem c5_witness :
    normalizeEncodingLabel (some "UTF-8") = some "utf-8" ∧
    sniffHTMLEncoding [0xFF, 0xFE] (some "UTF-8") = ("utf-8", 0) ∧
    sniffHTMLEncoding [0xFF, 0xFE] none = ("utf-16le", 2) ∧
    sniffHTMLEncoding [0x3C, 0x6D, 0x65, 0x74, 0x61, 0x20, 0x63, 0x68, 0x61,
      0x72, 0x73, 0x65, 0x74, 0x3D, 0x22, 0x75, 0x74, 0x66, 0x2D, 0x38, 0x22,
      0x3E] none = ("utf-8", 0) :=
  ⟨by decide,
   (c5_sniff_priority [0xFF, 0xFE] (some "UTF-8")).1 "utf-8" (by decide),
   (c5_sniff_priority [0xFF, 0xFE] none).2.1 (by decide) "utf-16le" 2
     (by decide),
   (c5_sniff_priority [0x3C, 0x6D, 0x65, 0x74, 0x61, 0x20, 0x63, 0x68, 0x61,
      0x72, 0x73, 0x65, 0x74, 0x3D, 0x22, 0x75, 0x74, 0x66, 0x2D, 0x38, 0x22,
      0x3E] none).2.2.1 (by decide) (by decide) "utf-8" (by decide)⟩

/-! ## The adoption agency (C6): `src/src/treebuilder.js` 1687-1811 -/

/-- `_node_attribute_value(node, name)`: the first attribute whose
lowercased name matches (`value || ""` collapses a falsy value to the
empty string). -/
def nodeAttributeValue (a : Arena) (i : Nat) (name : String) : Option String :=
  let target := lowerAscii name
  match (nodeAttrs a i).find? (fun pr => lowerAscii pr.1 == target) with
  | some pr => some pr.2
  | none => none

/-- `_is_html_integration_point(node)` (src/src/treebuilder.js line
2032): `math annotation-xml` with an html-ish `encoding` attribute, or a
member of the HTML integration point set. -/
def isHtmlIntegrationPoint (a : Arena) (i : Nat) : Bool :=
  if nodeNs a i == some "math" && nodeName a i == "annotation-xml" then
    match nodeAttributeValue a i "encoding" with
    | some enc =>
      if enc = "" then false
      else
        let encLower := lowerAscii enc
        encLower == "text/html" || encLower == "application/xhtml+xml"
    | none => false
  else
    match nodeNs a i with
    | some ns => HTML_INTEGRATION_POINTS.contains (ns, nodeName a i)
    | none => false

/-- `_is_mathml_text_integration_point(node)`. -/
def isMathmlTextIntegrationPoint (a : Arena) (i : Nat) : Bool :=
  if nodeNs a i != some "math" then false
  else MATHML_TEXT_INTEGRATION_POINTS.contains ("math", nodeName a i)

/-- The stack walk of `_has_element_in_scope(target, terminators,
checkIntegrationPoints)` (src/src/treebuilder.js line 1201), from the
current node downwards. -/
def scopeLoop (a : Arena) (target : String) (terms : List String)
    (checkIP : Bool) : List Nat → Bool
  | [] => false
  | node :: rest =>
    if nodeName a node = target then true
    else
      let ns := nodeNs a node
      if ns = some "html" ∨ ns = none then
        if terms.contains (nodeName a node) then false
        else scopeLoop a target terms checkIP rest
      else if checkIP &&
          (isHtmlIntegrationPoint a node || isMathmlTextIntegrationPoint a node) then
        false
      else scopeLoop a target terms checkIP rest

def hasElementInScope (st : Builder) (target : String) (terms : List String)
    (checkIP : Bool) : Bool :=
  scopeLoop st.arena target terms checkIP st.openElements.reverse

/-- `_pop_until_inclusive(name)` on the reversed stack (top first). -/
def popUntilAux (a : Arena) (name : String) : List Nat → List Nat
  | [] => []
  | top :: rest =>
    if nodeName a top = name then rest else popUntilAux a name rest

def popUntilInclusive (st : Builder) (name : String) : Builder :=
  { st with openElements := (popUntilAux st.arena name st.openElements.reverse).reverse }

/-- The pop-through-the-formatting-element loop of the no-furthest-block
branch (`if (popped === formattingElement) break`, by identity). -/
def popUntilNodeAux (target : Nat) : List Nat → List Nat
  | [] => []
  | top :: rest => if top = target then rest else popUntilNodeAux target rest

def popUntilNode (st : Builder) (target : Nat) : Builder :=
  { st with openElements := (popUntilNodeAux target st.openElements.reverse).reverse }

def afIsMarker : AFItem → Bool
  | .marker => true
  | .entry _ => false

/-- `_find_active_formatting_index(name)`: scan from the top, stop at the
first marker, return the index of the first name match. -/
def findAFIndex (af : List AFItem) (name : String) : Option Nat :=
  let seg := af.reverse.takeWhile (fun it => !(afIsMarker it))
  match seg.findIdx? (fun it => match it with
    | .entry e => e.name == name
    | .marker => false) with
  | some p => some (af.length - 1 - p)
  | none => none

/-- `_has_active_formatting_entry(name)`: same walk, Boolean. -/
def hasActiveFormattingEntry (af : List AFItem) (name : String) : Bool :=
  (findAFIndex af name).isSome

/-- `_find_active_formatting_index_by_node(node)`: scan from the top,
markers skipped, match by node identity. -/
def findAFIndexByNode (af : List AFItem) (node : Nat) : Option Nat :=
  match af.reverse.findIdx? (fun it => match it with
    | .entry e => e.node == node
    | .marker => false) with
  | some p => some (af.length - 1 - p)
  | none => none

/-- `_remove_formatting_entry(index)`: throws on an out-of-range index. -/
def removeFormattingEntry (af : List AFItem) (index : Nat) :
    Except JsErr (List AFItem) :=
  if index < af.length then .ok (af.eraseIdx index) else .error .thrown

/-- `_is_special_element(node)`. -/
def isSpecialElement (a : Arena) (i : Nat) : Bool :=
  match nodeNs a i with
  | some ns => if ns ≠ "html" then false else SPECIAL_ELEMENTS.contains (nodeName a i)
  | none => SPECIAL_ELEMENTS.contains (nodeName a i)

/-- JS `Array.prototype.splice(start, 0, x)` index normalization: a
negative start counts from the end, clamped at 0; a large start clamps to
the length. -/
def spliceInsertIdx (len : Nat) (idx : Int) : Nat :=
  if idx < 0 then (len - (-idx).toNat)
  else min idx.toNat len

/-- The child-moving loop of the adoption agency (`while
(furthestBlock.has_child_nodes())`): move the first child of the furthest
block onto the new formatting element.  Fueled; each iteration shortens
the furthest block's child list as long as the destination is a
different node, so one unit per child suffices. -/
def moveChildrenLoop (fb newFmt : Nat) : Nat → Arena → Except JsErr Arena
  | 0, _ => .error .fuel
  | fuel + 1, a =>
    match (nodeChildren a fb).head? with
    | none => .ok a
    | some child =>
      match removeChild a fb child with
      | none => .error .thrown
      | some a1 => moveChildrenLoop fb newFmt fuel (appendChild a1 newFmt child)

/-- The inner loop of `_adoption_agency` (src/src/treebuilder.js lines
1741-1776).  `cnt` is `innerLoopCounter`.  JS reads below index 0 (or of
a vanished node) as `undefined` and the member accesses that follow
throw; those states surface as `.error .typeError`.  The index of `node`
drops by one every iteration, so stack-length fuel suffices. -/
def adoptionInner (fmtEl furthestBlock : Nat) :
    Nat → Builder → Nat → Nat → Int → Nat → Except JsErr (Builder × Nat × Int)
  | 0, _, _, _, _, _ => .error .fuel
  | fuel + 1, st, node, lastNode, bookmark, cnt =>
    let c := cnt + 1
    if ¬ (st.openElements.contains node = true) then .error .typeError
    else
      let nodeIndex := st.openElements.indexOf node
      if nodeIndex = 0 then .error .typeError
      else
        match st.openElements[nodeIndex - 1]? with
        | none => .error .typeError
        | some node1 =>
          if node1 = fmtEl then .ok (st, lastNode, bookmark)
          else
            let nfi0 := findAFIndexByNode st.activeFormatting node1
            match (if c > 3 then nfi0 else none) with
            | some nfi =>
              match removeFormattingEntry st.activeFormatting nfi with
              | .error e => .error e
              | .ok af1 =>
                let bookmark1 := if (nfi : Int) < bookmark then bookmark - 1
                  else bookmark
                let st1 := { st with activeFormatting := af1 }
                let idx := st1.openElements.indexOf node1
                let stack1 := st1.openElements.eraseIdx idx
                match stack1[idx]? with
                | none => .error .typeError
                | some node2 =>
                  adoptionInner fmtEl furthestBlock fuel
                    { st1 with openElements := stack1 } node2 lastNode
                    bookmark1 c
            | none =>
              match nfi0 with
              | none =>
                let idx := st.openElements.indexOf node1
                let stack1 := st.openElements.eraseIdx idx
                match stack1[idx]? with
                | none => .error .typeError
                | some node2 =>
                  adoptionInner fmtEl furthestBlock fuel
                    { st with openElements := stack1 } node2 lastNode
                    bookmark c
              | some nfi =>
                match st.activeFormatting[nfi]? with
                | some (.entry e) =>
                  let pr := createElement st.arena e.name
                    (nodeNs st.arena e.node) e.attrs
                  let newEl := pr.2
                  let af1 := st.activeFormatting.set nfi
                    (.entry { e with node := newEl })
                  let stack1 := st.openElements.set
                    (st.openElements.indexOf node1) newEl
                  let bookmark1 := if lastNode = furthestBlock
                    then ((nfi : Int) + 1) else bookmark
                  let a2 := moveToEnd pr.1 lastNode newEl
                  adoptionInner fmtEl furthestBlock fuel
                    { st with
                      arena := a2
                      activeFormatting := af1
                      openElements := stack1 } newEl newEl bookmark1 c
                | _ => .error .typeError

/-- `if (last_node.parent) last_node.parent.removeChild(last_node)`. -/
def detachFromParent (a : Arena) (n : Nat) : Arena :=
  match nodeParent a n with
  | some p => (removeChild a p n).getD a
  | none => a

/-- Steps 15-19 of one outer adoption-agency iteration: clone the
formatting entry's element, move the furthest block's children into the
clone, append the clone, and splice the entry and the clone's stack slot
back in at the bookmark. -/
def adoptionFinish (st2 : Builder) (fmtIdx fmtEl furthestBlock : Nat)
    (bookmark : Int) (a2 : Arena) : Except JsErr Builder :=
  match st2.activeFormatting[fmtIdx]? with
  | some (.entry e2) =>
    let pr := createElement a2 e2.name (nodeNs a2 e2.node) e2.attrs
    let newFmt := pr.2
    let af1 := st2.activeFormatting.set fmtIdx
      (.entry { e2 with node := newFmt })
    match moveChildrenLoop furthestBlock newFmt
        ((nodeChildren pr.1 furthestBlock).length + 1) pr.1 with
    | .error err => .error err
    | .ok a3 =>
      let a4 := appendChild a3 furthestBlock newFmt
      match removeFormattingEntry af1 fmtIdx with
      | .error err => .error err
      | .ok af2 =>
        let entryNew : AFItem := .entry { e2 with node := newFmt }
        let insIdx := spliceInsertIdx af2.length (bookmark - 1)
        let af3 := af2.take insIdx ++ entryNew :: af2.drop insIdx
        let stack1 :=
          if st2.openElements.contains fmtEl then
            st2.openElements.eraseIdx (st2.openElements.indexOf fmtEl)
          else st2.openElements
        let fbIns :=
          if stack1.contains furthestBlock then
            stack1.indexOf furthestBlock + 1
          else 0
        let stack2 := stack1.take fbIns ++ newFmt :: stack1.drop fbIns
        .ok { st2 with
          arena := a4
          activeFormatting := af3
          openElements := stack2 }
  | _ => .error .typeError

/-- Steps 13-19 after the inner loop of one outer iteration: place
`last_node` under the common ancestor (foster-parented when required),
then rebuild the formatting element via `adoptionFinish`.  Stale-index
reads deliberately re-index the mutated arrays, as the JS does; a JS
`undefined` read whose members are then accessed surfaces as
`.error .typeError`. -/
def adoptionReplace (st2 : Builder)
    (fmtOpenIdx fmtIdx fmtEl furthestBlock lastNode : Nat)
    (bookmark : Int) : Except JsErr Builder :=
  match st2.openElements[fmtOpenIdx - 1]? with
  | none => .error .typeError
  | some commonAncestor =>
    let a1 := detachFromParent st2.arena lastNode
    let st3 := { st2 with arena := a1 }
    match shouldFosterParenting st3 (some commonAncestor)
        (some (nodeName a1 lastNode)) false with
    | .error e => .error e
    | .ok foster =>
      match (if foster then
          (match appropriateInsertionLocation st3
              (some commonAncestor) true with
           | .error e => .error e
           | .ok loc => insertNodeAt a1 loc.1 loc.2 lastNode)
        else if isTemplateNode a1 commonAncestor then
          (match nodeTmpl a1 commonAncestor with
           | some tc => .ok (appendChild a1 tc lastNode)
           | none => .error .typeError)
        else .ok (appendChild a1 commonAncestor lastNode) :
          Except JsErr Arena) with
      | .error e => .error e
      | .ok a2 => adoptionFinish st2 fmtIdx fmtEl furthestBlock bookmark a2

/-- One iteration of the `for (outer = 0; outer < 8; ...)` loop of
`_adoption_agency` and the recursion to the next; the Nat argument is the
number of iterations left, 8 at entry. -/
def adoptionOuter (subject : String) : Nat → Builder → Except JsErr Builder
  | 0, st => .ok st
  | n + 1, st =>
    match findAFIndex st.activeFormatting subject with
    | none => .ok st
    | some fmtIdx =>
      match st.activeFormatting[fmtIdx]? with
      | none => .error .typeError
      | some .marker => .ok st
      | some (.entry fe) =>
        let fmtEl := fe.node
        if ¬ (st.openElements.contains fmtEl = true) then
          match removeFormattingEntry st.activeFormatting fmtIdx with
          | .error e => .error e
          | .ok af1 => .ok { st with activeFormatting := af1 }
        else if ¬ (hasElementInScope st (nodeName st.arena fmtEl)
            DEFAULT_SCOPE_TERMINATORS true = true) then
          .ok st
        else
          let fmtOpenIdx := st.openElements.indexOf fmtEl
          match (st.openElements.drop (fmtOpenIdx + 1)).find?
              (fun nd => isSpecialElement st.arena nd) with
          | none =>
            let st1 := popUntilNode st fmtEl
            match removeFormattingEntry st1.activeFormatting fmtIdx with
            | .error e => .error e
            | .ok af1 => .ok { st1 with activeFormatting := af1 }
          | some furthestBlock =>
            match adoptionInner fmtEl furthestBlock
                (st.openElements.length + 1) st furthestBlock furthestBlock
                ((fmtIdx : Int) + 1) 0 with
            | .error e => .error e
            | .ok (st2, lastNode, bookmark) =>
              match adoptionReplace st2 fmtOpenIdx fmtIdx fmtEl
                  furthestBlock lastNode bookmark with
              | .error e => .error e
              | .ok stNext => adoptionOuter subject n stNext

/-- `_adoption_agency(subject)` (src/src/treebuilder.js line 1687): the
fast path pops through a matching current node with no formatting entry;
otherwise the outer loop runs at most 8 times. -/
def adoptionAgency (st : Builder) (subject : String) : Except JsErr Builder :=
  if (match st.openElements.getLast? with
      | some top => nodeName st.arena top == subject
      | none => false) &&
     !(hasActiveFormattingEntry st.activeFormatting subject) then
    .ok (popUntilInclusive st subject)
  else
    adoptionOuter subject 8 st

theorem removeChild_length {a a' : Arena} {p c : Nat}
    (h : removeChild a p c = some a') : a'.length = a.length := by
  unfold removeChild at h
  by_cases hm : c ∈ nodeChildren a p
  · rw [if_pos hm] at h
    cases h
    rw [setParent_length, setChildrenF_length]
  · rw [if_neg hm] at h
    cases h

theorem moveToEnd_length (a : Arena) (c dest : Nat) :
    (moveToEnd a c dest).length = a.length := by
  unfold moveToEnd
  dsimp only
  rw [appendChild_length]
  cases hp : nodeParent a c with
  | none => rfl
  | some q =>
    dsimp only
    cases hr : removeChild a q c with
    | none => rw [Option.getD_none]
    | some a1 =>
      rw [Option.getD_some]
      exact removeChild_length hr

theorem moveChildrenLoop_length {fb newFmt : Nat} :
    ∀ {fuel : Nat} {a a' : Arena},
    moveChildrenLoop fb newFmt fuel a = .ok a' → a'.length = a.length := by
  intro fuel
  induction fuel with
  | zero =>
    intro a a' h
    exact Except.noConfusion h
  | succ n ih =>
    intro a a' h
    unfold moveChildrenLoop at h
    cases hh : (nodeChildren a fb).head? with
    | none =>
      rw [hh] at h
      cases h
      rfl
    | some child =>
      simp only [hh] at h
      cases hr : removeChild a fb child with
      | none =>
        rw [hr] at h
        exact Except.noConfusion h
      | some a1 =>
        rw [hr] at h
        have := ih h
        rw [this, appendChild_length, removeChild_length hr]

/-- The child-moving loop cannot run out of fuel: when the destination is
a different node, every step shortens the source's child list. -/
theorem moveChildrenLoop_ne_fuel {fb newFmt : Nat} (hne : newFmt ≠ fb) :
    ∀ {fuel : Nat} {a : Arena}, (nodeChildren a fb).length < fuel →
    moveChildrenLoop fb newFmt fuel a ≠ .error .fuel := by
  intro fuel
  induction fuel with
  | zero =>
    intro a h
    exact absurd h (Nat.not_lt_zero _)
  | succ n ih =>
    intro a hlen hcon
    unfold moveChildrenLoop at hcon
    cases hh : (nodeChildren a fb).head? with
    | none =>
      simp only [hh] at hcon
      exact Except.noConfusion hcon
    | some child =>
      simp only [hh] at hcon
      cases hr : removeChild a fb child with
      | none =>
        rw [hr] at hcon
        exact JsErr.noConfusion (Except.error.inj hcon)
      | some a1 =>
        rw [hr] at hcon
        have hcon1 : moveChildrenLoop fb newFmt n (appendChild a1 newFmt child) =
            .error .fuel := hcon
        have hmem : child ∈ nodeChildren a fb := List.mem_of_mem_head? hh
        have hfb : fb < a.length := by
          by_contra hc
          rw [nodeChildren_out a (Nat.le_of_not_lt hc)] at hmem
          cases hmem
        have ha1 : a1 = setParent (setChildrenF a fb
            (fun l => l.eraseIdx ((nodeChildren a fb).indexOf child)))
            child none := by
          unfold removeChild at hr
          rw [if_pos hmem] at hr
          exact (Option.some.inj hr).symm
        have hch1 : nodeChildren a1 fb =
            (nodeChildren a fb).eraseIdx ((nodeChildren a fb).indexOf child) := by
          rw [ha1, nodeChildren_setParent]
          exact nodeChildren_setChildrenF_self hfb _
        have hch2 : nodeChildren (appendChild a1 newFmt child) fb =
            nodeChildren a1 fb := by
          unfold appendChild
          rw [nodeChildren_setParent]
          exact nodeChildren_setChildrenF_other (fun he => hne he.symm) _
        have hidx : (nodeChildren a fb).indexOf child < (nodeChildren a fb).length :=
          List.indexOf_lt_length.2 hmem
        refine ih ?_ hcon1
        rw [hch2, hch1, List.length_eraseIdx_of_lt hidx]
        omega

theorem createElement_snd (a : Arena) (name : String) (ns : Option String)
    (attrs : List (String × String)) :
    (createElement a name ns attrs).2 = a.length := by
  unfold createElement
  dsimp only
  exact createNode_snd a name attrs none _

theorem createElement_length_lt (a : Arena) (name : String) (ns : Option String)
    (attrs : List (String × String)) :
    a.length < (createElement a name ns attrs).1.length := by
  unfold createElement
  dsimp only
  obtain ⟨ext, heq, hpos, -, -, -⟩ := createNode_exists_ext a name attrs none _
  rw [heq, List.length_append]
  omega

/-- The inner loop of the adoption agency never exhausts its fuel: the
index of `node` on a duplicate-free stack drops by one every iteration,
and both rewriting branches keep the stack duplicate-free and closed. -/
theorem adoptionInner_ne_fuel (fmtEl furthestBlock : Nat) :
    ∀ (fuel : Nat) (st : Builder) (node lastNode : Nat) (bookmark : Int)
      (cnt : Nat),
    st.openElements.Nodup →
    (∀ x ∈ st.openElements, x < st.arena.length) →
    node ∈ st.openElements →
    fmtEl ∈ st.openElements →
    st.openElements.indexOf fmtEl < st.openElements.indexOf node →
    st.openElements.indexOf node < fuel →
    adoptionInner fmtEl furthestBlock fuel st node lastNode bookmark cnt ≠
        .error .fuel ∧
    (∀ st2 ln bm,
      adoptionInner fmtEl furthestBlock fuel st node lastNode bookmark cnt =
        .ok (st2, ln, bm) →
      st2.openElements.Nodup ∧
      (∀ x ∈ st2.openElements, x < st2.arena.length) ∧
      st.arena.length ≤ st2.arena.length) := by
  intro fuel
  induction fuel with
  | zero =>
    intro st node lastNode bookmark cnt _ _ _ _ _ hlt
    exact absurd hlt (Nat.not_lt_zero _)
  | succ fuel ih =>
    intro st node lastNode bookmark cnt hnodup hclosed hnode hfmt hflt hmeas
    have hcont : st.openElements.contains node = true :=
      List.elem_eq_true_of_mem hnode
    have hni_lt : st.openElements.indexOf node < st.openElements.length :=
      List.indexOf_lt_length.2 hnode
    have hni_pos : st.openElements.indexOf node ≠ 0 := by omega
    obtain ⟨node1, hget⟩ : ∃ x,
        st.openElements[st.openElements.indexOf node - 1]? = some x :=
      ⟨_, List.getElem?_eq_getElem (by omega)⟩
    have hmem1 : node1 ∈ st.openElements := List.getElem?_mem hget
    unfold adoptionInner
    dsimp only
    rw [if_neg (fun hC => hC hcont), if_neg hni_pos, hget]
    dsimp only
    by_cases heq : node1 = fmtEl
    · rw [if_pos heq]
      refine ⟨fun hcon => Except.noConfusion hcon, ?_⟩
      intro st2 ln bm hok
      have h1 : st = st2 := congrArg (fun pr => pr.1) (Except.ok.inj hok)
      rw [← h1]
      exact ⟨hnodup, hclosed, Nat.le_refl _⟩
    · rw [if_neg heq]
      have hidx1 : st.openElements.indexOf node1 =
          st.openElements.indexOf node - 1 := by
        apply indexOf_eq_of_count_one (by omega) ?_
          (List.count_eq_one_of_mem hnodup hmem1)
        have := hget
        rw [List.getElem?_eq_getElem (by omega)] at this
        exact Option.some.inj this
      have hfmt_lt : st.openElements.indexOf fmtEl < st.openElements.length :=
        List.indexOf_lt_length.2 hfmt
      have hfmt_get? : st.openElements[st.openElements.indexOf fmtEl]? =
          some fmtEl := by
        rw [List.getElem?_eq_getElem hfmt_lt]
        exact congrArg some (List.getElem_indexOf hfmt_lt)
      have hflt1 : st.openElements.indexOf fmtEl <
          st.openElements.indexOf node - 1 := by
        have hne : st.openElements.indexOf fmtEl ≠
            st.openElements.indexOf node - 1 := by
          intro he
          apply heq
          rw [he] at hfmt_get?
          rw [hget] at hfmt_get?
          exact Option.some.inj hfmt_get?
        omega
      have hnode_get? : st.openElements[st.openElements.indexOf node]? =
          some node := by
        rw [List.getElem?_eq_getElem hni_lt]
        exact congrArg some (List.getElem_indexOf hni_lt)
      have hstep_get : (st.openElements.eraseIdx
          (st.openElements.indexOf node - 1))[st.openElements.indexOf node
            - 1]? = some node := by
        rw [List.getElem?_eraseIdx_of_ge _ _ _ (Nat.le_refl _)]
        rw [show st.openElements.indexOf node - 1 + 1 =
          st.openElements.indexOf node from by omega]
        exact hnode_get?
      have herase : ∀ (af1 : List AFItem) (bm1 : Int),
          (adoptionInner fmtEl furthestBlock fuel
            { st with
              activeFormatting := af1
              openElements := st.openElements.eraseIdx
                (st.openElements.indexOf node - 1) } node lastNode bm1
            (cnt + 1) ≠ .error .fuel) ∧
          (∀ st2 ln bm,
            adoptionInner fmtEl furthestBlock fuel
              { st with
                activeFormatting := af1
                openElements := st.openElements.eraseIdx
                  (st.openElements.indexOf node - 1) } node lastNode bm1
              (cnt + 1) = .ok (st2, ln, bm) →
            st2.openElements.Nodup ∧
            (∀ x ∈ st2.openElements, x < st2.arena.length) ∧
            st.arena.length ≤ st2.arena.length) := by
        intro af1 bm1
        have hsub := List.eraseIdx_sublist st.openElements
          (st.openElements.indexOf node - 1)
        have hnodup1 : (st.openElements.eraseIdx
            (st.openElements.indexOf node - 1)).Nodup := hsub.nodup hnodup
        have hlen1 : (st.openElements.eraseIdx
            (st.openElements.indexOf node - 1)).length =
            st.openElements.length - 1 :=
          List.length_eraseIdx_of_lt (by omega)
        have hfmt1? : (st.openElements.eraseIdx
            (st.openElements.indexOf node - 1))[st.openElements.indexOf
              fmtEl]? = some fmtEl := by
          rw [List.getElem?_eraseIdx_of_lt _ _ _ hflt1]
          exact hfmt_get?
        have hnodem : node ∈ st.openElements.eraseIdx
            (st.openElements.indexOf node - 1) := List.getElem?_mem hstep_get
        have hfmtm : fmtEl ∈ st.openElements.eraseIdx
            (st.openElements.indexOf node - 1) := List.getElem?_mem hfmt1?
        have hnodeidx : (st.openElements.eraseIdx
            (st.openElements.indexOf node - 1)).indexOf node =
            st.openElements.indexOf node - 1 := by
          apply indexOf_eq_of_count_one (by omega) ?_
            (List.count_eq_one_of_mem hnodup1 hnodem)
          have := hstep_get
          rw [List.getElem?_eq_getElem (by omega)] at this
          exact Option.some.inj this
        have hfmtidx : (st.openElements.eraseIdx
            (st.openElements.indexOf node - 1)).indexOf fmtEl =
            st.openElements.indexOf fmtEl := by
          apply indexOf_eq_of_count_one (by omega) ?_
            (List.count_eq_one_of_mem hnodup1 hfmtm)
          have := hfmt1?
          rw [List.getElem?_eq_getElem (by omega)] at this
          exact Option.some.inj this
        exact ih { st with
            activeFormatting := af1
            openElements := st.openElements.eraseIdx
              (st.openElements.indexOf node - 1) } node lastNode bm1 (cnt + 1)
          hnodup1 (fun x hx => hclosed x (hsub.mem hx)) hnodem hfmtm
          (by rw [hnodeidx, hfmtidx]; omega)
          (by rw [hnodeidx]; omega)
      cases hsel : (if cnt + 1 > 3 then
          findAFIndexByNode st.activeFormatting node1 else none) with
      | some nfi =>
        dsimp only
        cases hrem : removeFormattingEntry st.activeFormatting nfi with
        | error e =>
          dsimp only
          have he : e = .thrown := by
            unfold removeFormattingEntry at hrem
            by_cases hin : nfi < st.activeFormatting.length
            · rw [if_pos hin] at hrem
              exact Except.noConfusion hrem
            · rw [if_neg hin] at hrem
              exact (Except.error.inj hrem).symm
          subst he
          exact ⟨fun hcon => JsErr.noConfusion (Except.error.inj hcon),
            fun st2 ln bm hok => Except.noConfusion hok⟩
        | ok af1 =>
          dsimp only
          rw [hidx1, hstep_get]
          dsimp only
          exact herase af1 _
      | none =>
        dsimp only
        cases hsel2 : findAFIndexByNode st.activeFormatting node1 with
        | none =>
          dsimp only
          rw [hidx1, hstep_get]
          dsimp only
          exact herase st.activeFormatting bookmark
        | some nfi =>
          dsimp only
          cases haf : st.activeFormatting[nfi]? with
          | none =>
            exact ⟨fun hcon => JsErr.noConfusion (Except.error.inj hcon),
              fun st2 ln bm hok => Except.noConfusion hok⟩
          | some item =>
            cases item with
            | marker =>
              exact ⟨fun hcon => JsErr.noConfusion (Except.error.inj hcon),
                fun st2 ln bm hok => Except.noConfusion hok⟩
            | entry e =>
              dsimp only
              rw [hidx1]
              have hnew : (createElement st.arena e.name
                  (nodeNs st.arena e.node) e.attrs).2 = st.arena.length :=
                createElement_snd _ _ _ _
              have hgrow : st.arena.length < (createElement st.arena e.name
                  (nodeNs st.arena e.node) e.attrs).1.length :=
                createElement_length_lt _ _ _ _
              have ha2 : (moveToEnd (createElement st.arena e.name
                  (nodeNs st.arena e.node) e.attrs).1 lastNode
                  (createElement st.arena e.name
                    (nodeNs st.arena e.node) e.attrs).2).length =
                  (createElement st.arena e.name
                    (nodeNs st.arena e.node) e.attrs).1.length :=
                moveToEnd_length _ _ _
              have hnotmem : (createElement st.arena e.name
                  (nodeNs st.arena e.node) e.attrs).2 ∉ st.openElements := by
                intro hm
                have := hclosed _ hm
                omega
              have hnodup1 : (st.openElements.set
                  (st.openElements.indexOf node - 1)
                  (createElement st.arena e.name
                    (nodeNs st.arena e.node) e.attrs).2).Nodup :=
                hnodup.set hnotmem
              have hself? : (st.openElements.set
                  (st.openElements.indexOf node - 1)
                  (createElement st.arena e.name
                    (nodeNs st.arena e.node) e.attrs).2)[
                  st.openElements.indexOf node - 1]? =
                  some (createElement st.arena e.name
                    (nodeNs st.arena e.node) e.attrs).2 :=
                List.getElem?_set_self (by omega)
              have hfmt?1 : (st.openElements.set
                  (st.openElements.indexOf node - 1)
                  (createElement st.arena e.name
                    (nodeNs st.arena e.node) e.attrs).2)[
                  st.openElements.indexOf fmtEl]? = some fmtEl := by
                rw [List.getElem?_set_ne (by omega)]
                exact hfmt_get?
              have hnewmem := List.getElem?_mem hself?
              have hfmtmem := List.getElem?_mem hfmt?1
              have hnewidx : (st.openElements.set
                  (st.openElements.indexOf node - 1)
                  (createElement st.arena e.name
                    (nodeNs st.arena e.node) e.attrs).2).indexOf
                  (createElement st.arena e.name
                    (nodeNs st.arena e.node) e.attrs).2 =
                  st.openElements.indexOf node - 1 := by
                apply indexOf_eq_of_count_one ?_ ?_
                  (List.count_eq_one_of_mem hnodup1 hnewmem)
                · rw [List.length_set]
                  omega
                · have := hself?
                  rw [List.getElem?_eq_getElem
                    (by rw [List.length_set]; omega)] at this
                  exact Option.some.inj this
              have hfmtidx2 : (st.openElements.set
                  (st.openElements.indexOf node - 1)
                  (createElement st.arena e.name
                    (nodeNs st.arena e.node) e.attrs).2).indexOf fmtEl =
                  st.openElements.indexOf fmtEl := by
                apply indexOf_eq_of_count_one ?_ ?_
                  (List.count_eq_one_of_mem hnodup1 hfmtmem)
                · rw [List.length_set]
                  omega
                · have := hfmt?1
                  rw [List.getElem?_eq_getElem
                    (by rw [List.length_set]; omega)] at this
                  exact Option.some.inj this
              have hclosed1 : ∀ x ∈ st.openElements.set
                  (st.openElements.indexOf node - 1)
                  (createElement st.arena e.name
                    (nodeNs st.arena e.node) e.attrs).2,
                  x < (moveToEnd (createElement st.arena e.name
                    (nodeNs st.arena e.node) e.attrs).1 lastNode
                    (createElement st.arena e.name
                      (nodeNs st.arena e.node) e.attrs).2).length := by
                intro x hx
                rcases List.mem_or_eq_of_mem_set hx with hx | hx
                · have := hclosed x hx
                  omega
                · rw [hx]
                  omega
              obtain ⟨hne2, hok2⟩ := ih
                { st with
                  arena := moveToEnd (createElement st.arena e.name
                    (nodeNs st.arena e.node) e.attrs).1 lastNode
                    (createElement st.arena e.name
                      (nodeNs st.arena e.node) e.attrs).2
                  activeFormatting := st.activeFormatting.set nfi
                    (.entry { e with node := (createElement st.arena e.name
                      (nodeNs st.arena e.node) e.attrs).2 })
                  openElements := st.openElements.set
                    (st.openElements.indexOf node - 1)
                    (createElement st.arena e.name
                      (nodeNs st.arena e.node) e.attrs).2 }
                (createElement st.arena e.name
                  (nodeNs st.arena e.node) e.attrs).2
                (createElement st.arena e.name
                  (nodeNs st.arena e.node) e.attrs).2
                (if lastNode = furthestBlock then ((nfi : Int) + 1)
                  else bookmark)
                (cnt + 1)
                hnodup1 hclosed1 hnewmem hfmtmem
                (by rw [hnewidx, hfmtidx2]; omega)
                (by rw [hnewidx]; omega)
              refine ⟨hne2, ?_⟩
              intro st2 ln bm hok
              obtain ⟨hA, hB, hC⟩ := hok2 st2 ln bm hok
              have hstep : st.arena.length ≤ (moveToEnd (createElement
                  st.arena e.name (nodeNs st.arena e.node) e.attrs).1 lastNode
                  (createElement st.arena e.name
                    (nodeNs st.arena e.node) e.attrs).2).length := by
                omega
              exact ⟨hA, hB, Nat.le_trans hstep hC⟩

theorem removeFormattingEntry_err {af : List AFItem} {idx : Nat} {e : JsErr}
    (h : removeFormattingEntry af idx = .error e) : e = .thrown := by
  unfold removeFormattingEntry at h
  split at h
  · exact Except.noConfusion h
  · exact (Except.error.inj h).symm

theorem shouldFosterParenting_err {st : Builder} {target : Option Nat}
    {forTag : Option String} {isText : Bool} {e : JsErr}
    (h : shouldFosterParenting st target forTag isText = .error e) :
    e = .typeError := by
  unfold shouldFosterParenting at h
  repeat' split at h
  all_goals
    first
    | exact Except.noConfusion h
    | exact (Except.error.inj h).symm

theorem appropriateInsertionLocation_err {st : Builder} {o : Option Nat}
    {f : Bool} {e : JsErr}
    (h : appropriateInsertionLocation st o f = .error e) : e = .typeError := by
  unfold appropriateInsertionLocation at h
  dsimp only at h
  repeat' split at h
  all_goals
    first
    | exact Except.noConfusion h
    | exact (Except.error.inj h).symm

theorem insertNodeAt_err {a : Arena} {p i c : Nat} {e : JsErr}
    (h : insertNodeAt a p i c = .error e) : e = .thrown := by
  unfold insertNodeAt at h
  dsimp only at h
  split at h
  · exact Except.noConfusion h
  · exact (Except.error.inj h).symm

theorem insertNodeAt_length {a a' : Arena} {p i c : Nat}
    (h : insertNodeAt a p i c = .ok a') : a'.length = a.length := by
  unfold insertNodeAt at h
  dsimp only at h
  cases hr : insertBefore a p c (nodeChildren a p)[i]? with
  | none =>
    rw [hr] at h
    exact Except.noConfusion h
  | some a1 =>
    rw [hr] at h
    rw [← Except.ok.inj h]
    exact insertBefore_length hr

theorem detachFromParent_length (a : Arena) (n : Nat) :
    (detachFromParent a n).length = a.length := by
  unfold detachFromParent
  cases hp : nodeParent a n with
  | none => rfl
  | some p =>
    dsimp only
    cases hr : removeChild a p n with
    | none => rw [Option.getD_none]
    | some a1 =>
      rw [Option.getD_some]
      exact removeChild_length hr

theorem nodup_insert_take_drop {l : List Nat} {x : Nat} (i : Nat)
    (hnd : l.Nodup) (hx : x ∉ l) : (l.take i ++ x :: l.drop i).Nodup := by
  have hperm : (l.take i ++ x :: l.drop i).Perm (x :: (l.take i ++ l.drop i)) :=
    List.perm_middle
  rw [List.take_append_drop] at hperm
  exact hperm.nodup_iff.2 (List.nodup_cons.2 ⟨hx, hnd⟩)

theorem mem_insert_take_drop {l : List Nat} {x y : Nat} {i : Nat}
    (h : y ∈ l.take i ++ x :: l.drop i) : y = x ∨ y ∈ l := by
  rcases List.mem_append.1 h with h | h
  · exact Or.inr (List.mem_of_mem_take h)
  · rcases List.mem_cons.1 h with h | h
    · exact Or.inl h
    · exact Or.inr (List.mem_of_mem_drop h)

theorem adoptionFinish_spec {st2 : Builder} {fmtIdx fmtEl furthestBlock : Nat}
    {bookmark : Int} {a2 : Arena}
    (hnodup : st2.openElements.Nodup)
    (hclosed : ∀ x ∈ st2.openElements, x < st2.arena.length)
    (hfb : furthestBlock < st2.arena.length)
    (ha2 : a2.length = st2.arena.length) :
    adoptionFinish st2 fmtIdx fmtEl furthestBlock bookmark a2 ≠
        .error .fuel ∧
    ∀ st', adoptionFinish st2 fmtIdx fmtEl furthestBlock bookmark a2 =
        .ok st' →
      st'.openElements.Nodup ∧
      ∀ x ∈ st'.openElements, x < st'.arena.length := by
  unfold adoptionFinish
  cases haf : st2.activeFormatting[fmtIdx]? with
  | none =>
    exact ⟨fun hcon => JsErr.noConfusion (Except.error.inj hcon),
      fun st' hok => Except.noConfusion hok⟩
  | some item =>
    cases item with
    | marker =>
      exact ⟨fun hcon => JsErr.noConfusion (Except.error.inj hcon),
        fun st' hok => Except.noConfusion hok⟩
    | entry e2 =>
      dsimp only
      have hnew : (createElement a2 e2.name (nodeNs a2 e2.node) e2.attrs).2 =
          a2.length := createElement_snd _ _ _ _
      have hgrow : a2.length < (createElement a2 e2.name
          (nodeNs a2 e2.node) e2.attrs).1.length :=
        createElement_length_lt _ _ _ _
      have hne : (createElement a2 e2.name (nodeNs a2 e2.node) e2.attrs).2 ≠
          furthestBlock := by omega
      cases hmv : moveChildrenLoop furthestBlock
          (createElement a2 e2.name (nodeNs a2 e2.node) e2.attrs).2
          ((nodeChildren (createElement a2 e2.name
            (nodeNs a2 e2.node) e2.attrs).1 furthestBlock).length + 1)
          (createElement a2 e2.name (nodeNs a2 e2.node) e2.attrs).1 with
      | error err =>
        have herr : err ≠ .fuel := fun he =>
          moveChildrenLoop_ne_fuel hne (Nat.lt_succ_self _) (he ▸ hmv)
        exact ⟨fun hcon => herr (Except.error.inj hcon),
          fun st' hok => Except.noConfusion hok⟩
      | ok a3 =>
        dsimp only
        cases hrem : removeFormattingEntry (st2.activeFormatting.set fmtIdx
            (.entry { e2 with node := (createElement a2 e2.name
              (nodeNs a2 e2.node) e2.attrs).2 })) fmtIdx with
        | error err =>
          have herr := removeFormattingEntry_err hrem
          subst herr
          exact ⟨fun hcon => JsErr.noConfusion (Except.error.inj hcon),
            fun st' hok => Except.noConfusion hok⟩
        | ok af2 =>
          dsimp only
          refine ⟨fun hcon => Except.noConfusion hcon, fun st' hok => ?_⟩
          rw [← Except.ok.inj hok]
          dsimp only
          have ha3 : a3.length = (createElement a2 e2.name
              (nodeNs a2 e2.node) e2.attrs).1.length :=
            moveChildrenLoop_length hmv
          have ha4 : (appendChild a3 furthestBlock
              (createElement a2 e2.name
                (nodeNs a2 e2.node) e2.attrs).2).length = a3.length :=
            appendChild_length _ _ _
          have hsub : (if st2.openElements.contains fmtEl = true then
              st2.openElements.eraseIdx (st2.openElements.indexOf fmtEl)
            else st2.openElements).Sublist st2.openElements := by
            split
            · exact List.eraseIdx_sublist _ _
            · exact List.Sublist.refl _
          have hnotmem : (createElement a2 e2.name
              (nodeNs a2 e2.node) e2.attrs).2 ∉
              (if st2.openElements.contains fmtEl = true then
                st2.openElements.eraseIdx (st2.openElements.indexOf fmtEl)
              else st2.openElements) := by
            intro hm
            have := hclosed _ (hsub.mem hm)
            omega
          constructor
          · exact nodup_insert_take_drop _ (hsub.nodup hnodup) hnotmem
          · intro x hx
            rcases mem_insert_take_drop hx with hx | hx
            · rw [hx]
              omega
            · have := hclosed x (hsub.mem hx)
              omega

theorem adoptionReplace_spec {st2 : Builder}
    {fmtOpenIdx fmtIdx fmtEl furthestBlock lastNode : Nat} {bookmark : Int}
    (hnodup : st2.openElements.Nodup)
    (hclosed : ∀ x ∈ st2.openElements, x < st2.arena.length)
    (hfb : furthestBlock < st2.arena.length) :
    adoptionReplace st2 fmtOpenIdx fmtIdx fmtEl furthestBlock lastNode
        bookmark ≠ .error .fuel ∧
    ∀ st', adoptionReplace st2 fmtOpenIdx fmtIdx fmtEl furthestBlock lastNode
        bookmark = .ok st' →
      st'.openElements.Nodup ∧
      ∀ x ∈ st'.openElements, x < st'.arena.length := by
  unfold adoptionReplace
  cases hca : st2.openElements[fmtOpenIdx - 1]? with
  | none =>
    exact ⟨fun hcon => JsErr.noConfusion (Except.error.inj hcon),
      fun st' hok => Except.noConfusion hok⟩
  | some commonAncestor =>
    dsimp only
    have ha1 : (detachFromParent st2.arena lastNode).length =
        st2.arena.length := detachFromParent_length _ _
    cases hfos : shouldFosterParenting
        { st2 with arena := detachFromParent st2.arena lastNode }
        (some commonAncestor)
        (some (nodeName (detachFromParent st2.arena lastNode) lastNode))
        false with
    | error e =>
      have herr := shouldFosterParenting_err hfos
      subst herr
      exact ⟨fun hcon => JsErr.noConfusion (Except.error.inj hcon),
        fun st' hok => Except.noConfusion hok⟩
    | ok foster =>
      dsimp only
      by_cases hf : foster = true
      · rw [if_pos hf]
        cases hloc : appropriateInsertionLocation
            { st2 with arena := detachFromParent st2.arena lastNode }
            (some commonAncestor) true with
        | error e =>
          have herr := appropriateInsertionLocation_err hloc
          subst herr
          exact ⟨fun hcon => JsErr.noConfusion (Except.error.inj hcon),
            fun st' hok => Except.noConfusion hok⟩
        | ok loc =>
          dsimp only
          cases hins : insertNodeAt (detachFromParent st2.arena lastNode)
              loc.1 loc.2 lastNode with
          | error e =>
            have herr := insertNodeAt_err hins
            subst herr
            exact ⟨fun hcon => JsErr.noConfusion (Except.error.inj hcon),
              fun st' hok => Except.noConfusion hok⟩
          | ok a2 =>
            exact adoptionFinish_spec hnodup hclosed hfb
              ((insertNodeAt_length hins).trans ha1)
      · rw [if_neg hf]
        by_cases htpl : isTemplateNode (detachFromParent st2.arena lastNode)
            commonAncestor = true
        · rw [if_pos htpl]
          cases htc : nodeTmpl (detachFromParent st2.arena lastNode)
              commonAncestor with
          | none =>
            exact ⟨fun hcon => JsErr.noConfusion (Except.error.inj hcon),
              fun st' hok => Except.noConfusion hok⟩
          | some tc =>
            dsimp only
            exact adoptionFinish_spec hnodup hclosed hfb
              ((appendChild_length _ _ _).trans ha1)
        · rw [if_neg htpl]
          exact adoptionFinish_spec hnodup hclosed hfb
            ((appendChild_length _ _ _).trans ha1)

/-- The outer loop of the adoption agency never exhausts the inner fuel:
every iteration's inner run and replacement step are fuel-safe and
re-establish the stack invariants for the next iteration. -/
theorem adoptionOuter_ne_fuel (subject : String) :
    ∀ (n : Nat) (st : Builder),
    st.openElements.Nodup →
    (∀ x ∈ st.openElements, x < st.arena.length) →
    adoptionOuter subject n st ≠ .error .fuel := by
  intro n
  induction n with
  | zero =>
    intro st _ _ hcon
    exact Except.noConfusion hcon
  | succ n ih =>
    intro st hnodup hclosed hcon
    unfold adoptionOuter at hcon
    cases hfa : findAFIndex st.activeFormatting subject with
    | none =>
      simp only [hfa] at hcon
      exact Except.noConfusion hcon
    | some fmtIdx =>
      simp only [hfa] at hcon
      cases haf : st.activeFormatting[fmtIdx]? with
      | none =>
        simp only [haf] at hcon
        exact JsErr.noConfusion (Except.error.inj hcon)
      | some item =>
        cases item with
        | marker =>
          simp only [haf] at hcon
          exact Except.noConfusion hcon
        | entry fe =>
          simp only [haf] at hcon
          by_cases hin : st.openElements.contains fe.node = true
          · rw [if_neg (fun hC => hC hin)] at hcon
            by_cases hscope : hasElementInScope st (nodeName st.arena fe.node)
                DEFAULT_SCOPE_TERMINATORS true = true
            · rw [if_neg (fun hC => hC hscope)] at hcon
              cases hfind : (st.openElements.drop
                  (st.openElements.indexOf fe.node + 1)).find?
                  (fun nd => isSpecialElement st.arena nd) with
              | none =>
                simp only [hfind] at hcon
                cases hrem : removeFormattingEntry
                    (popUntilNode st fe.node).activeFormatting fmtIdx with
                | error e =>
                  simp only [hrem] at hcon
                  have herr := removeFormattingEntry_err hrem
                  subst herr
                  exact JsErr.noConfusion (Except.error.inj hcon)
                | ok af1 =>
                  simp only [hrem] at hcon
                  exact Except.noConfusion hcon
              | some furthestBlock =>
                simp only [hfind] at hcon
                have hfmtmem : fe.node ∈ st.openElements :=
                  List.mem_of_elem_eq_true hin
                have hfbmem' := List.mem_of_find?_eq_some hfind
                have hfbmem : furthestBlock ∈ st.openElements :=
                  List.mem_of_mem_drop hfbmem'
                obtain ⟨j, hj⟩ := List.mem_iff_getElem?.1 hfbmem'
                rw [List.getElem?_drop] at hj
                obtain ⟨hjlt, hjget⟩ := List.getElem?_eq_some.1 hj
                have hfbidx : st.openElements.indexOf furthestBlock =
                    st.openElements.indexOf fe.node + 1 + j :=
                  indexOf_eq_of_count_one hjlt hjget
                    (List.count_eq_one_of_mem hnodup hfbmem)
                have hfmtidx : st.openElements.indexOf fe.node <
                    st.openElements.indexOf furthestBlock := by omega
                have hmeas : st.openElements.indexOf furthestBlock <
                    st.openElements.length + 1 := by
                  have := List.indexOf_lt_length.2 hfbmem
                  omega
                obtain ⟨hneF, hokInv⟩ := adoptionInner_ne_fuel fe.node
                  furthestBlock (st.openElements.length + 1) st furthestBlock
                  furthestBlock ((fmtIdx : Int) + 1) 0 hnodup hclosed hfbmem
                  hfmtmem hfmtidx hmeas
                cases hrun : adoptionInner fe.node furthestBlock
                    (st.openElements.length + 1) st furthestBlock
                    furthestBlock ((fmtIdx : Int) + 1) 0 with
                | error e =>
                  simp only [hrun] at hcon
                  cases Except.error.inj hcon
                  exact hneF hrun
                | ok trip =>
                  obtain ⟨st2, lastNode, bookmark⟩ := trip
                  simp only [hrun] at hcon
                  obtain ⟨hnodup2, hclosed2, hmono⟩ :=
                    hokInv st2 lastNode bookmark hrun
                  have hfb2 : furthestBlock < st2.arena.length := by
                    have := hclosed _ hfbmem
                    omega
                  obtain ⟨hneR, hokR⟩ := @adoptionReplace_spec st2
                    (st.openElements.indexOf fe.node) fmtIdx fe.node
                    furthestBlock lastNode bookmark hnodup2 hclosed2 hfb2
                  cases hrep : adoptionReplace st2
                      (st.openElements.indexOf fe.node) fmtIdx fe.node
                      furthestBlock lastNode bookmark with
                  | error e =>
                    simp only [hrep] at hcon
                    cases Except.error.inj hcon
                    exact hneR hrep
                  | ok stNext =>
                    simp only [hrep] at hcon
                    obtain ⟨hnodupN, hclosedN⟩ := hokR stNext hrep
                    exact ih stNext hnodupN hclosedN hcon
            · rw [if_pos hscope] at hcon
              exact Except.noConfusion hcon
          · rw [if_pos hin] at hcon
            cases hrem : removeFormattingEntry st.activeFormatting fmtIdx with
            | error e =>
              simp only [hrem] at hcon
              have herr := removeFormattingEntry_err hrem
              subst herr
              exact JsErr.noConfusion (Except.error.inj hcon)
            | ok af1 =>
              simp only [hrem] at hcon
              exact Except.noConfusion hcon

def c6Arena : Arena :=
  [{ name := "#document", ns := none, dat := none, attrs := [], parent := none,
     children := [1], tmplContent := none },
   { name := "html", ns := some "http://www.w3.org/1999/xhtml", dat := none,
     attrs := [], parent := some 0, children := [], tmplContent := none }]

def c6St : Builder :=
  { arena := c6Arena, document := 0, mode := .IN_BODY, originalMode := none,
    openElements := [1], activeFormatting := [], headElement := none,
    formElement := none, framesetOk := true, quirksMode := "no-quirks",
    ignoreLf := false, insertFromTable := false, templateModes := [],
    fragmentContext := none, fragmentContextElement := none, errors := [],
    collectErrors := false, iframeSrcdoc := false }

/-- C6.  The adoption agency terminates on every end-tag subject: the
outer loop is capped at 8 iterations (`adoptionOuter subject 8`, and the
exhausted countdown returns the state as is), and on a duplicate-free
open-elements stack whose entries all point into the arena the fueled
inner loop never exhausts its fuel, because every inner iteration either
reaches the formatting element or strictly decreases the index of the
current node on the stack. -/
theorem c6_adoption_agency_terminates (st : Builder) (subject : String)
    (hnodup : st.openElements.Nodup)
    (hclosed : ∀ x ∈ st.openElements, x < st.arena.length) :
    adoptionAgency st subject ≠ .error .fuel ∧
    (∀ st', adoptionOuter subject 0 st' = .ok st') := by
  constructor
  · unfold adoptionAgency
    split
    · exact fun hcon => Except.noConfusion hcon
    · exact adoptionOuter_ne_fuel subject 8 st hnodup hclosed
  · intro st'
    rfl

/-- Witness for C6 at a concrete state: an `html`-only stack. -/
theorem c6_witness :
    c6St.openElements.Nodup ∧
    (∀ x ∈ c6St.openElements, x < c6St.arena.length) ∧
    (adoptionAgency c6St "a" ≠ .error .fuel ∧
      (∀ st', adoptionOuter "a" 0 st' = .ok st')) :=
  ⟨by decide, by decide,
    c6_adoption_agency_terminates c6St "a" (by decide) (by decide)⟩

/-! ## Completed-parse output (C2 correction): the IN_BODY handlers on the
refuting token sequence, `_any_other_end_tag`, and `finish()` -/

/-- Modelled from the spec: `isAllWhitespace` comes from
`treebuilder_utils.js` (not among the provided sources); true when every
character is ASCII whitespace (tab, LF, FF, CR, space). -/
def isAllWhitespace (s : String) : Bool :=
  s.data.all (fun c =>
    c == ' ' || c == '\t' || c == '\n' || c == Char.ofNat 0x0C || c == '\r')

/-- `handleCharactersInBody(self, token)` (src/src/treebuilder.js line
410): strip NUL bytes, reconstruct active formatting, clear `frameset_ok`
for non-whitespace data, and `_append_text`.  `_parse_error` only touches
the error list and is not modelled. -/
def handleCharactersInBody (st : Builder) (dataIn : String) :
    Except JsErr Builder :=
  let data := if dataIn.data.contains (Char.ofNat 0) then
      String.mk (dataIn.data.filter (fun c => c ≠ Char.ofNat 0))
    else dataIn
  if isAllWhitespace data then
    match reconstructActiveFormatting st with
    | .error e => .error e
    | .ok st1 => appendText st1 data
  else
    match reconstructActiveFormatting st with
    | .error e => .error e
    | .ok st1 => appendText { st1 with framesetOk := false } data

/-- `handleBodyStartDefault(self, token)` (src/src/treebuilder.js line
751): reconstruct active formatting, `_insert_element` with push, clear
`frameset_ok`.  (The self-closing parse error only touches the error
list.) -/
def handleBodyStartDefault (st : Builder) (tag : TagTok) :
    Except JsErr Builder :=
  match reconstructActiveFormatting st with
  | .error e => .error e
  | .ok st1 =>
    match insertElement st1 tag true "html" with
    | .error e => .error e
    | .ok pr => .ok { pr.1 with framesetOk := false }

/-- The walk of `_any_other_end_tag(name)` (src/src/treebuilder.js line
1262) as a downward index countdown; `splice(index)` truncates the stack
from the match.  The countdown starts at the stack length, so the
out-of-range read in the `none` branch is unreachable. -/
def anyOtherEndTagAux (a : Arena) (name : String) (stack : List Nat) :
    Nat → List Nat
  | 0 => stack
  | i + 1 =>
    match stack[i]? with
    | none => stack
    | some node =>
      if nodeName a node = name then stack.take i
      else if isSpecialElement a node then stack
      else anyOtherEndTagAux a name stack i

/-- `_any_other_end_tag(name)`: the open-elements stack after the walk;
the two parse errors only touch the error list. -/
def anyOtherEndTag (st : Builder) (name : String) : Builder :=
  { st with openElements :=
      (anyOtherEndTagAux st.arena name st.openElements
        st.openElements.length) }

/-- The `for (const child of [...src.children])` move loops of `finish()`
(src/src/treebuilder.js lines 1418-1428): snapshot the children, then
`remove_child` from the source (always a child here, so the JS throw
cannot fire) and `append_child` to the destination. -/
def moveAllChildren (a : Arena) (src dst : Nat) : Arena :=
  (nodeChildren a src).foldl (fun acc c =>
    appendChild ((removeChild acc src c).getD acc) dst c) a

/-- `node.cloneNode(deep)` (src/src/node.js line 115) into the arena: a
fresh node with the same name/attrs/data/namespace, the template content
cloned with the same flag, and — when deep — every child cloned deeply
and appended.  Fueled on tree depth; `arena.length + 1` always
suffices. -/
def cloneNodeF : Nat → Arena → Nat → Bool → Except JsErr (Arena × Nat)
  | 0, _, _, _ => .error .fuel
  | fuel + 1, a, i, deep =>
    let pr := createNode a (nodeName a i) (nodeAttrs a i) (nodeData a i)
      (nodeNs a i)
    match (match nodeTmpl a i with
           | none => .ok (pr.1, none)
           | some tc =>
             match cloneNodeF fuel pr.1 tc deep with
             | .error e => .error e
             | .ok pr2 => .ok (pr2.1, some pr2.2) :
             Except JsErr (Arena × Option Nat)) with
    | .error e => .error e
    | .ok pr3 =>
      let a3 := match pr3.2 with
        | some t => modifyNode pr3.1 pr.2
            (fun nd => { nd with tmplContent := some t })
        | none => pr3.1
      if deep then
        match (nodeChildren a i).foldlM (fun acc c =>
            (match cloneNodeF fuel acc c true with
             | .error e => .error e
             | .ok pr4 => .ok (appendChild pr4.1 pr.2 pr4.2) :
             Except JsErr Arena)) a3 with
        | .error e => .error e
        | .ok aF => .ok (aF, pr.2)
      else .ok (a3, pr.2)

/-- `_find_elements(node, name, result)` (src/src/treebuilder.js line
1961): depth-first, the node itself first, then the children in order,
then the template content, as an explicit worklist.  One fuel unit per
visited node; `arena.length + 1` always suffices on a proper tree. -/
def findElementsF : Nat → Arena → String → List Nat → List Nat
  | 0, _, _, _ => []
  | _ + 1, _, _, [] => []
  | fuel + 1, a, name, i :: rest =>
    (if nodeName a i = name then [i] else []) ++
    findElementsF fuel a name
      ((nodeChildren a i ++ (match nodeTmpl a i with
        | some tc => [tc]
        | none => [])) ++ rest)

/-- `_find_element(node, name)` (src/src/treebuilder.js line 1971): first
match in the same depth-first order. -/
def findElementF : Nat → Arena → String → List Nat → Option Nat
  | 0, _, _, _ => none
  | _ + 1, _, _, [] => none
  | fuel + 1, a, name, i :: rest =>
    if nodeName a i = name then some i
    else
      findElementF fuel a name
        ((nodeChildren a i ++ (match nodeTmpl a i with
          | some tc => [tc]
          | none => [])) ++ rest)

/-- `_populate_selectedcontent(root)` (src/src/treebuilder.js line 1936):
for each `select` with a `selectedcontent` descendant and at least one
`option`, deep-clone the children of the first `selected` option (else
the first option) into the `selectedcontent`. -/
def populateSelectedcontent (a : Arena) (root : Nat) :
    Except JsErr Arena :=
  (findElementsF (a.length + 1) a "select" [root]).foldlM (fun acc sel =>
    (match findElementF (acc.length + 1) acc "selectedcontent" [sel] with
     | none => .ok acc
     | some sc =>
       let options := findElementsF (acc.length + 1) acc "option" [sel]
       match options.head? with
       | none => .ok acc
       | some firstOpt =>
         let selOpt := match options.find? (fun o =>
             (nodeAttrs acc o).any (fun p => p.1 = "selected")) with
           | some o => o
           | none => firstOpt
         (nodeChildren acc selOpt).foldlM (fun a2 c =>
           (match cloneNodeF (a2.length + 1) a2 c true with
            | .error e => .error e
            | .ok pr => .ok (appendChild pr.1 sc pr.2) :
            Except JsErr Arena)) acc :
     Except JsErr Arena)) a

/-- `finish()` (src/src/treebuilder.js lines 1413-1433).  In fragment
mode: flatten — move the fragment context element's children (when it is
still a child of the synthetic root) to the root and drop it, then move
the root's children to the document and drop the root — and in either
mode run `_populate_selectedcontent` and return the document.  A missing
root makes the JS `[...root.children]` spread throw. -/
def finishFn (st : Builder) : Except JsErr Builder :=
  match st.fragmentContext with
  | none =>
    match populateSelectedcontent st.arena st.document with
    | .error e => .error e
    | .ok a2 => .ok { st with arena := a2 }
  | some _ =>
    match (nodeChildren st.arena st.document).head? with
    | none => .error .typeError
    | some root =>
      let a1 :=
        match st.fragmentContextElement with
        | some ce =>
          if nodeParent st.arena ce = some root then
            let am := moveAllChildren st.arena ce root
            (removeChild am root ce).getD am
          else st.arena
        | none => st.arena
      let a2 := moveAllChildren a1 root st.document
      let a3 := (removeChild a2 st.document root).getD a2
      match populateSelectedcontent a3 st.document with
      | .error e => .error e
      | .ok a4 => .ok { st with arena := a4 }

/-- The refuting fragment context: `{ tagName: "desc", namespace:
"svg" }`. -/
def c2xContext : FragmentContext := { tagName := "desc", ns := some "svg" }

/-- The completed parse of `a<span></desc>c` in the svg `desc` fragment
context.  The tokenizer (no override fires: the namespace is truthy)
emits characters `"a"`, a `span` start tag, a `desc` end tag and
characters `"c"`; at each token the dispatch of `processToken`
(src/src/treebuilder.js line 1351) selects the HTML rules — the svg
`desc` context element is an HTML integration point, so characters and
start tags use them, and at the end tag the current node `span` is in the
HTML namespace — and the IN_BODY mode set up for this context routes the
characters to `handleCharactersInBody`, the `span` start tag (in no
handler table) to `handleBodyStartDefault`, and the `desc` end tag
(neither `br`, nor a formatting element, nor in `BODY_END_HANDLERS`) to
`_any_other_end_tag`, which pops the context element off the stack. -/
def c2xRun : Except JsErr Builder :=
  let st0 := newTreeBuilder (some c2xContext) false false
  match handleCharactersInBody st0 "a" with
  | .error e => .error e
  | .ok st1 =>
    match handleBodyStartDefault st1
        { kind := 0, name := "span", attrs := [], selfClosing := false } with
    | .error e => .error e
    | .ok st2 =>
      match handleCharactersInBody (anyOtherEndTag st2 "desc") "c" with
      | .error e => .error e
      | .ok st3 => finishFn st3

/-- The builder returned by the completed parse above. -/
def c2xFinal : Builder :=
  match c2xRun with
  | .ok st => st
  | .error _ => newTreeBuilder none false false

/-- C2 counterexample: the completed fragment parse of `a<span></desc>c`
in the svg `desc` context succeeds and returns a document whose first two
children are the `#text` nodes `"c"` and `"a"` — adjacent `#text`
siblings, refuting the claim's completed-parse invariant.  The `</desc>`
pops the context element while its text child stays in the tree, `"c"`
lands on the synthetic root, and the fragment flattening of `finish()`
moves the context element's children up without re-coalescing. -/
theorem c2_counterexample :
    c2xRun = .ok c2xFinal ∧
    c2xFinal.document = 0 ∧
    nodeChildren c2xFinal.arena 0 = [5, 3, 4] ∧
    nodeName c2xFinal.arena 5 = "#text" ∧
    nodeData c2xFinal.arena 5 = some "c" ∧
    nodeName c2xFinal.arena 3 = "#text" ∧
    nodeData c2xFinal.arena 3 = some "a" ∧
    nodeName c2xFinal.arena 4 = "span" ∧
    ¬ NoAdjText c2xFinal.arena := by
  refine ⟨by rfl, by rfl, by rfl, by rfl, by rfl, by rfl, by rfl, by rfl, ?_⟩
  intro h
  have h0 := h 0 (by decide)
  have hch : nodeChildren c2xFinal.arena 0 = [5, 3, 4] := by rfl
  rw [hch] at h0
  unfold textAdjOk at h0
  exact (List.chain'_cons.1 h0).1 ⟨by rfl, by rfl⟩
